import Mathlib

/-!
# gota data-frame: a shallow embedding of package df

The embedding follows `src/data-frame/data-frame.go`, `condition.go` and
`arithmetic.go`.  Go maps become association lists, Go `int` becomes `Int`,
`float64` becomes `Float`, and a call that can return an error or stop with a
run-time panic returns a `Res`.
-/

set_option autoImplicit false

namespace df

/-! ## Results of a call -/

/-- Outcome of a Go call: a value with a nil error, a non-nil error carrying its
message, or a run-time panic (nil dereference, index out of range, integer
division by zero). -/
inductive Res (α : Type) where
  | ok (v : α)
  | err (msg : String)
  | abort
  deriving DecidableEq

/-- The returned value, when there is one. -/
def Res.toOption {α : Type} : Res α → Option α
  | .ok v => some v
  | _ => none

/-- Sequencing of calls: errors and panics are passed on unchanged. -/
def Res.bind {α β : Type} (r : Res α) (f : α → Res β) : Res β :=
  match r with
  | .ok v => f v
  | .err m => .err m
  | .abort => .abort

/-- True when the call returned a non-nil error. -/
def Res.isErr {α : Type} : Res α → Bool
  | .err _ => true
  | _ => false

/-- True when the call stopped the program with a run-time panic. -/
def Res.isAbort {α : Type} : Res α → Bool
  | .abort => true
  | _ => false

/-! ## Go maps with string keys -/

/-- A Go `map[string]β`, kept as an association list.  A map holds each key at
most once (`GoMap.WF`); `range` over the map is modelled by the list order. -/
abbrev GoMap (β : Type) := List (String × β)

/-- Lookup `m[k]` with the comma-ok form. -/
def GoMap.get? {β : Type} : GoMap β → String → Option β
  | [], _ => none
  | (k, v) :: m, key => if k = key then some v else GoMap.get? m key

/-- Assignment `m[k] = v`. -/
def GoMap.set {β : Type} : GoMap β → String → β → GoMap β
  | [], key, val => [(key, val)]
  | (k, v) :: m, key, val =>
    if k = key then (k, val) :: m else (k, v) :: GoMap.set m key val

/-- Builtin `delete(m, k)`. -/
def GoMap.del {β : Type} : GoMap β → String → GoMap β
  | [], _ => []
  | (k, v) :: m, key => if k = key then GoMap.del m key else (k, v) :: GoMap.del m key

/-- The keys of the map, in iteration order. -/
def GoMap.keys {β : Type} (m : GoMap β) : List String := m.map Prod.fst

/-- Every key occurs once. -/
def GoMap.WF {β : Type} (m : GoMap β) : Prop := (GoMap.keys m).Nodup

instance {β : Type} (m : GoMap β) : Decidable (GoMap.WF m) := by
  unfold GoMap.WF; infer_instance

/-! ## Cells and columns -/

/-- Modelled from the spec: the four Cell variants `Int`, `Float`, `String`
and `Bool` (their declarations are not among the sources; the constructors are
in lower case because the upper-case names are Lean types).  Each payload is a
pointer in the source, `none` stands for the nil pointer, which is NA. -/
inductive Cell where
  | int (i : Option Int)
  | float (f : Option Float)
  | string (s : Option String)
  | bool (b : Option Bool)

/-- Modelled from the spec: the declared type tag of a cell, the string that
`colType` is compared with in `condition.go` and `arithmetic.go`. -/
def Cell.typeName : Cell → String
  | .int _ => "df.Int"
  | .float _ => "df.Float"
  | .string _ => "df.String"
  | .bool _ => "df.Bool"

/-- Modelled from the spec: `NA()` gives an NA-valued cell of the same variant. -/
def Cell.NA : Cell → Cell
  | .int _ => .int none
  | .float _ => .float none
  | .string _ => .string none
  | .bool _ => .bool none

/-- Modelled from the spec: `IsNA()` tests for the absent payload. -/
def Cell.IsNA : Cell → Bool
  | .int i => i.isNone
  | .float f => f.isNone
  | .string s => s.isNone
  | .bool b => b.isNone

/-- Modelled from the spec: `Copy()` gives an independent copy of the cell. -/
def Cell.Copy (c : Cell) : Cell := c

/-- The `column` struct as the sources use it: cells, declared type
(`colType`), name and the NA sentinel `empty`.  The display-width cache
`numChars` is left out: no operation modelled here reads it. -/
structure column where
  cells : List Cell
  colType : String
  colName : String
  empty : Cell

/-- Modelled from the spec: `newCol` (not among the sources) builds a column
from a name and cells.  Construction fails when the cells are not all of one
variant, and when no type can be inferred because there is no cell; the
declared type is the variant of the cells and the sentinel is its NA cell. -/
def newCol (colName : String) (elements : List Cell) : Res column :=
  match elements with
  | [] => .err "Can't infer the type of an empty column"
  | e :: es =>
    if es.all (fun c => c.typeName = e.typeName) then
      .ok { cells := elements, colType := e.typeName, colName := colName, empty := e.NA }
    else
      .err "Can't use different types on a column"

/-- Modelled from the spec: `column.copy` deep-clones the cell storage. -/
def column.copy (c : column) : column :=
  { c with cells := c.cells.map Cell.Copy, empty := c.empty.Copy }

/-! ## The DataFrame -/

/-- The struct `DataFrame`. -/
structure DataFrame where
  Columns : GoMap column
  colIndexs : GoMap Int
  nRows : Int

/-- The struct `C`: a column name with its elements. -/
structure C where
  Colname : String
  Elements : List Cell

/-- The struct `R`: a range from a number to another. -/
structure R where
  From : Int
  To : Int

/-- Body of the `for k, val := range colConst` loop of `New`; `colLength` is
the local variable, `df` the frame built before the loop. -/
def New.loop : Nat → List C → Int → DataFrame → Res DataFrame
  | _, [], _, df => .ok df
  | k, val :: rest, colLength, df =>
    (newCol val.Colname val.Elements).bind fun col =>
      if k = 0 then
        New.loop (k + 1) rest (col.cells.length : Int)
          { df with Columns := df.Columns.set val.Colname col,
                    colIndexs := df.colIndexs.set val.Colname ((k : Int) + 1) }
      else if colLength ≠ (col.cells.length : Int) then
        .err "columns don't have the same dimensions"
      else
        New.loop (k + 1) rest colLength
          { df with Columns := df.Columns.set val.Colname col,
                    colIndexs := df.colIndexs.set val.Colname ((k : Int) + 1) }

/-- The constructor `New`.  The frame is created with `nRows: colLength` while
`colLength` still holds its zero value; the loop then only updates the local
variable. -/
def New (colConst : List C) : Res DataFrame :=
  if colConst.length = 0 then .err "Can't create empty DataFrame"
  else
    let colLength : Int := 0
    let df : DataFrame := { Columns := [], colIndexs := [], nRows := colLength }
    New.loop 0 colConst colLength df

/-- The getter `NRows`. -/
def DataFrame.NRows (df : DataFrame) : Int := df.nRows

/-- The method `copy`: columns are copied one by one, `colIndexs` is shared. -/
def DataFrame.copy (df : DataFrame) : DataFrame :=
  { Columns := df.Columns.map (fun kv => (kv.1, kv.2.copy)),
    colIndexs := df.colIndexs,
    nRows := df.nRows }

/-! ## Library functions -/

/-- Go functions outside the package whose results the embedding takes as
given: `strconv.ParseFloat(s, 64)` (the value and whether the error is nil),
the rendering of a float by `String()`, the conversion `int(f)`, and the Cell
conversions `Int()`, `Float()`, `Bool()` applied to a cell of another variant
(the result pointer, `none` for nil). -/
structure Lib where
  ParseFloat : String → Float × Bool
  FormatFloat : Float → String
  IntOfFloat : Float → Int
  convInt : Cell → Option Int
  convFloat : Cell → Option Float
  convBool : Cell → Option Bool

/-- Decimal digits of `strconv.Atoi`, most significant first. -/
def Atoi.digits : List Char → Nat → Option Nat
  | [], acc => some acc
  | c :: cs, acc =>
    if c.isDigit then Atoi.digits cs (10 * acc + (c.toNat - 48)) else none

/-- The function `strconv.Atoi`: an optional sign, then one or more decimal
digits, the value within the 64-bit range of `int`; `none` when the returned
error is not nil. -/
def Atoi (s : String) : Option Int :=
  let body : Bool × List Char :=
    match s.toList with
    | '-' :: r => (true, r)
    | '+' :: r => (false, r)
    | r => (false, r)
  match body.2 with
  | [] => none
  | ds =>
    match Atoi.digits ds 0 with
    | none => none
    | some n =>
      let v : Int := if body.1 then -(n : Int) else (n : Int)
      if -(2 : Int) ^ 63 ≤ v ∧ v < (2 : Int) ^ 63 then some v else none

/-- Modelled from the spec: the method `String()`, the rendered cell; NA
renders as the token NA. -/
def Cell.render (lib : Lib) : Cell → String
  | .int (some i) => toString i
  | .float (some f) => lib.FormatFloat f
  | .string (some s) => s
  | .bool (some b) => if b then "true" else "false"
  | _ => "NA"

/-- Modelled from the spec: the method `Int()`, as the pointer it returns.  An
Int cell gives its own payload. -/
def Cell.asInt (lib : Lib) : Cell → Option Int
  | .int i => i
  | c => lib.convInt c

/-- Modelled from the spec: the method `Float()`, as the pointer it returns.
A Float cell gives its own payload. -/
def Cell.asFloat (lib : Lib) : Cell → Option Float
  | .float f => f
  | c => lib.convFloat c

/-- Modelled from the spec: the method `Bool()`, as the pointer it returns.  A
Bool cell gives its own payload. -/
def Cell.asBool (lib : Lib) : Cell → Option Bool
  | .bool b => b
  | c => lib.convBool c

/-- Dereference of a pointer: a nil pointer stops the program. -/
def deref {α : Type} : Option α → Res α
  | some v => .ok v
  | none => .abort

/-- Lexical comparison of two character sequences, the first difference
deciding; the order of the UTF-8 bytes that Go compares is the order of the
code points. -/
def stringsCompare.chars : List Char → List Char → Int
  | [], [] => 0
  | [], _ :: _ => -1
  | _ :: _, [] => 1
  | a :: as, b :: bs =>
    if a.toNat < b.toNat then -1
    else if b.toNat < a.toNat then 1
    else stringsCompare.chars as bs

/-- The function `strings.Compare`: -1, 0 or 1 by lexical order. -/
def stringsCompare (a b : String) : Int :=
  stringsCompare.chars a.toList b.toList

/-! ## Conditions (`condition.go`) -/

/-- The method `EqCondition.Compare`. -/
def EqCondition.Compare (lib : Lib) (c : String) (v : Cell) (t : String) : Res Bool :=
  if t = "df.String" then
    .ok (stringsCompare c (v.render lib) = 0)
  else if t = "df.Int" then
    match Atoi c with
    | some i => (deref (v.asInt lib)).bind fun iv => .ok (i = iv)
    | none => .ok false
  else if t = "df.Bool" then
    (deref (v.asBool lib)).bind fun b =>
      if b then .ok (c = "true") else .ok (c = "false")
  else if t = "df.Float" then
    let fe := lib.ParseFloat c
    -- the source tests `err != nil` here
    if fe.2 = false then
      (deref (v.asFloat lib)).bind fun fv => .ok (Float.abs (fv - fe.1) < 0.0001)
    else
      .ok false
  else
    .ok false

/-- The method `GtCondition.Compare`. -/
def GtCondition.Compare (lib : Lib) (c : String) (v : Cell) (t : String) : Res Bool :=
  if t = "df.String" then
    .ok (stringsCompare (v.render lib) c > 0)
  else if t = "df.Int" then
    match Atoi c with
    | some i => (deref (v.asInt lib)).bind fun iv => .ok (i > iv)
    | none => .ok false
  else if t = "df.Float" then
    let fe := lib.ParseFloat c
    if fe.2 = false then
      (deref (v.asFloat lib)).bind fun fv => .ok (fe.1 > fv)
    else
      .ok false
  else
    .ok false

/-- The method `LtCondition.Compare`. -/
def LtCondition.Compare (lib : Lib) (c : String) (v : Cell) (t : String) : Res Bool :=
  if t = "df.String" then
    .ok (stringsCompare (v.render lib) c < 0)
  else if t = "df.Int" then
    match Atoi c with
    | some i => (deref (v.asInt lib)).bind fun iv => .ok (i < iv)
    | none => .ok false
  else if t = "df.Float" then
    let fe := lib.ParseFloat c
    if fe.2 = false then
      (deref (v.asFloat lib)).bind fun fv => .ok (fe.1 < fv)
    else
      .ok false
  else
    .ok false

/-- The method `NgtCondition.Compare`: `Lt || Eq`, the right operand evaluated
only when the left one is false. -/
def NgtCondition.Compare (lib : Lib) (c : String) (v : Cell) (t : String) : Res Bool :=
  (LtCondition.Compare lib c v t).bind fun l =>
    if l then .ok true else EqCondition.Compare lib c v t

/-- The method `NltCondition.Compare`: `Gt || Eq`. -/
def NltCondition.Compare (lib : Lib) (c : String) (v : Cell) (t : String) : Res Bool :=
  (GtCondition.Compare lib c v t).bind fun g =>
    if g then .ok true else EqCondition.Compare lib c v t

/-- The interface `Condition` with its six implementations. -/
inductive Condition where
  | eq (c : String)
  | gt (c : String)
  | lt (c : String)
  | ngt (c : String)
  | nlt (c : String)
  | all (cs : List Condition)

mutual
/-- Dynamic dispatch of `Compare` over the implementations of `Condition`. -/
def Condition.Compare (lib : Lib) : Condition → Cell → String → Res Bool
  | .eq c, v, t => EqCondition.Compare lib c v t
  | .gt c, v, t => GtCondition.Compare lib c v t
  | .lt c, v, t => LtCondition.Compare lib c v t
  | .ngt c, v, t => NgtCondition.Compare lib c v t
  | .nlt c, v, t => NltCondition.Compare lib c v t
  | .all cs, v, t => ArrayCondition.Compare lib cs v t
/-- The method `ArrayCondition.Compare`: false at the first member that is
false, true when there is none. -/
def ArrayCondition.Compare (lib : Lib) : List Condition → Cell → String → Res Bool
  | [], _, _ => .ok true
  | ic :: rest, v, t =>
    (Condition.Compare lib ic v t).bind fun b =>
      if !b then .ok false else ArrayCondition.Compare lib rest v t
end

/-- A library instance for evaluation: the literal "3.0" parses to 3. -/
def Lib.sample : Lib where
  ParseFloat := fun s => if s = "3.0" then (3.0, true) else (0.0, false)
  FormatFloat := fun _ => "float"
  IntOfFloat := fun _ => 0
  convInt := fun _ => none
  convFloat := fun _ => none
  convBool := fun _ => none

/-! ## Subsetting (`data-frame.go`) -/

/-- The `subset interface{}` argument of `SubsetColumns` and `SubsetRows`,
by its dynamic type: `R`, `[]int`, `[]string`, or anything else. -/
inductive Subset where
  | range (s : R)
  | ints (l : List Int)
  | strings (l : List String)
  | other

/-- First loop of the `[]string` case: `colindex[v] = idx` for the names the
frame knows. -/
def SubsetColumns.colindex (df : DataFrame) : List String → GoMap Int → GoMap Int
  | [], colindex => colindex
  | v :: cols, colindex =>
    match df.colIndexs.get? v with
    | some idx => SubsetColumns.colindex df cols (colindex.set v idx)
    | none => SubsetColumns.colindex df cols colindex

/-- Inner loop `for kk, vv := range colindex`: the kept columns behind
position `v` move down by one. -/
def SubsetColumns.renumber (df : DataFrame) (v : Int) (colindex : GoMap Int) : GoMap Int :=
  colindex.map fun kv =>
    (kv.1, if (df.colIndexs.get? kv.1).getD 0 > v then kv.2 - 1 else kv.2)

/-- Second loop of the `[]string` case, over `df.colIndexs`: the state is the
column map of `newDf` and the local map `colindex`. -/
def SubsetColumns.drop (df : DataFrame) :
    List (String × Int) → GoMap column × GoMap Int → GoMap column × GoMap Int
  | [], st => st
  | (k, v) :: rest, (columns, colindex) =>
    match colindex.get? k with
    | none =>
      SubsetColumns.drop df rest (columns.del k, SubsetColumns.renumber df v colindex)
    | some _ => SubsetColumns.drop df rest (columns, colindex)

/-- The `[]string` case of `SubsetColumns`.  The renumbered `colindex` is a
local variable; the returned frame is `newDf`, whose `colIndexs` is the one
`copy` took over from `df`. -/
def SubsetColumns.names (df : DataFrame) (cols : List String) : Res DataFrame :=
  let colindex := SubsetColumns.colindex df cols []
  if colindex.length = 0 then .err "Empty subset"
  else
    let newDf := df.copy
    let st := SubsetColumns.drop df df.colIndexs (newDf.Columns, colindex)
    .ok { newDf with Columns := st.1 }

/-- Loop of the `R` case: the names whose position lies in `[From, To)`. -/
def SubsetColumns.rangeCols (s : R) : List (String × Int) → List String → List String
  | [], cols => cols
  | (k, v) :: rest, cols =>
    if v ≥ s.From ∧ v < s.To then SubsetColumns.rangeCols s rest (cols ++ [k])
    else SubsetColumns.rangeCols s rest cols

/-- Loop of the `[]int` case: the names whose position is in `colNums`. -/
def SubsetColumns.intCols (colNums : List Int) : List (String × Int) → List String → List String
  | [], cols => cols
  | (k, v) :: rest, cols =>
    if v ∈ colNums then SubsetColumns.intCols colNums rest (cols ++ [k])
    else SubsetColumns.intCols colNums rest cols

/-- The method `SubsetColumns`. -/
def DataFrame.SubsetColumns (df : DataFrame) : Subset → Res DataFrame
  | .range s => SubsetColumns.names df (SubsetColumns.rangeCols s df.colIndexs [])
  | .ints colNums => SubsetColumns.names df (SubsetColumns.intCols colNums df.colIndexs [])
  | .strings cols => SubsetColumns.names df cols
  | .other => .err "Unknown subsetting option"

/-- The slice expression `cells[from:to]` for `0 ≤ from ≤ to`; it stops the
program when `to` exceeds the length. -/
def slice (cells : List Cell) (s : R) : Res (List Cell) :=
  if s.To.toNat ≤ cells.length then
    .ok ((cells.drop s.From.toNat).take (s.To.toNat - s.From.toNat))
  else .abort

/-- Loop `for k, v := range df.Columns` of the `R` case of `SubsetRows`. -/
def SubsetRows.rangeLoop (s : R) : List (String × column) → GoMap column → Res (GoMap column)
  | [], columns => .ok columns
  | (k, v) :: rest, columns =>
    (slice v.cells s).bind fun cells =>
      (newCol v.colName cells).bind fun col =>
        SubsetRows.rangeLoop s rest (columns.set k col)

/-- Loop `for _, i := range rowNums` of the `[]int` case: the sentinel for a
negative index, the source cell otherwise (an index beyond the cells stops
the program). -/
def SubsetRows.pick (v : column) : List Int → List Cell → Res (List Cell)
  | [], cells => .ok cells
  | i :: rowNums, cells =>
    if i < 0 then SubsetRows.pick v rowNums (cells ++ [v.empty])
    else
      match v.cells[i.toNat]? with
      | some c => SubsetRows.pick v rowNums (cells ++ [c])
      | none => .abort

/-- Loop `for k, v := range df.Columns` of the `[]int` case of `SubsetRows`. -/
def SubsetRows.intsLoop (rowNums : List Int) :
    List (String × column) → GoMap column → Res (GoMap column)
  | [], columns => .ok columns
  | (k, v) :: rest, columns =>
    (SubsetRows.pick v rowNums []).bind fun cells =>
      (newCol v.colName cells).bind fun col =>
        SubsetRows.intsLoop rowNums rest (columns.set k col)

/-- The method `SubsetRows`. -/
def DataFrame.SubsetRows (df : DataFrame) : Subset → Res DataFrame
  | .range s =>
    let newDf := df.copy
    if s.From > s.To then .err "Bad subset: Start greater than Beginning"
    else if s.From = s.To then .err "Empty subset"
    else if s.To > df.nRows ∨ s.To < 0 ∨ s.From < 0 then .err "Subset out of range"
    else
      (SubsetRows.rangeLoop s df.Columns newDf.Columns).bind fun columns =>
        .ok { newDf with nRows := s.To - s.From, Columns := columns }
  | .ints rowNums =>
    let newDf := df.copy
    if rowNums.length = 0 then .err "Empty subset"
    else if rowNums.any (fun v => v ≥ df.nRows) then .err "Subset out of range"
    else
      (SubsetRows.intsLoop rowNums df.Columns newDf.Columns).bind fun columns =>
        .ok { newDf with nRows := (rowNums.length : Int), Columns := columns }
  | _ => .err "Unknown subsetting option"

/-- Loop `for i := 0; i < df.NRows(); i++` of `FilterRows`, over the row
numbers still to visit. -/
def FilterRows.loop (col : column) (f : Cell → Bool) : List Nat → List Int → Res (List Int)
  | [], rows => .ok rows
  | i :: rest, rows =>
    match col.cells[i]? with
    | some c =>
      if f c then FilterRows.loop col f rest (rows ++ [(i : Int)])
      else FilterRows.loop col f rest rows
    | none => .abort

/-- The method `FilterRows`. -/
def DataFrame.FilterRows (df : DataFrame) (colname : String) (f : Cell → Bool) : Res DataFrame :=
  match df.Columns.get? colname with
  | some col =>
    (FilterRows.loop col f (List.range df.NRows.toNat) []).bind fun rows =>
      df.SubsetRows (.ints rows)
  | none => .err (colname ++ " not exists")

/-- Inner loop `for k, c := range cs` of `ConditionRows` at row `i`: the value
of `valid`.  A name missing from `df.Columns` gives the zero column, whose
cells cannot be indexed. -/
def ConditionRows.valid (lib : Lib) (df : DataFrame) (i : Nat) :
    List (String × Condition) → Res Bool
  | [] => .ok true
  | (k, c) :: rest =>
    match df.Columns.get? k with
    | none => .abort
    | some col =>
      match col.cells[i]? with
      | none => .abort
      | some cell =>
        (c.Compare lib cell col.colType).bind fun b =>
          if !b then .ok false else ConditionRows.valid lib df i rest

/-- Outer loop `for i := 0; i < df.NRows(); i++` of `ConditionRows`. -/
def ConditionRows.loop (lib : Lib) (df : DataFrame) (cs : GoMap Condition) :
    List Nat → List Int → Res (List Int)
  | [], rows => .ok rows
  | i :: rest, rows =>
    (ConditionRows.valid lib df i cs).bind fun valid =>
      if valid then ConditionRows.loop lib df cs rest (rows ++ [(i : Int)])
      else ConditionRows.loop lib df cs rest rows

/-- The method `ConditionRows`. -/
def DataFrame.ConditionRows (lib : Lib) (df : DataFrame) (cs : GoMap Condition) : Res DataFrame :=
  if cs.length = 0 then .ok df.copy
  else
    (ConditionRows.loop lib df cs (List.range df.NRows.toNat) []).bind fun rows =>
      df.SubsetRows (.ints rows)

/-! ## Arithmetic (`arithmetic.go`) -/

/-- Type assertion `cell.(Int)`, giving the payload pointer of the copy. -/
def assertInt : Cell → Res (Option Int)
  | .int i => .ok i
  | _ => .abort

/-- Type assertion `cell.(Float)`, giving the payload pointer of the copy. -/
def assertFloat : Cell → Res (Option Float)
  | .float f => .ok f
  | _ => .abort

/-- Indexing `cells[i]`. -/
def index (cells : List Cell) (i : Nat) : Res Cell :=
  match cells[i]? with
  | some c => .ok c
  | none => .abort

/-- Integer division `x / y` of Go: truncated, a zero divisor stops the program. -/
def intDiv (x y : Int) : Res Int :=
  if y = 0 then .abort else .ok (Int.tdiv x y)

/-- One pass of the Int/Int loop body at row `i`: the local `acell` after
`acell.i = &av`. -/
def DivColumn.intInt (ca cb : column) (i : Nat) : Res Cell :=
  (index ca.cells i).bind fun ac => (assertInt ac).bind fun acell =>
  (index cb.cells i).bind fun bc => (assertInt bc).bind fun bcell =>
  (deref acell).bind fun x => (deref bcell).bind fun y =>
  (intDiv x y).bind fun av => .ok (.int (some av))

/-- One pass of the Float/Int loop body at row `i`. -/
def DivColumn.floatInt (ca cb : column) (i : Nat) : Res Cell :=
  (index ca.cells i).bind fun ac => (assertFloat ac).bind fun acell =>
  (index cb.cells i).bind fun bc => (assertInt bc).bind fun bcell =>
  (deref acell).bind fun x => (deref bcell).bind fun y =>
  .ok (.float (some (x / Float.ofInt y)))

/-- One pass of the Int/Float loop body at row `i`. -/
def DivColumn.intFloat (lib : Lib) (ca cb : column) (i : Nat) : Res Cell :=
  (index ca.cells i).bind fun ac => (assertInt ac).bind fun acell =>
  (index cb.cells i).bind fun bc => (assertFloat bc).bind fun bcell =>
  (deref acell).bind fun x => (deref bcell).bind fun y =>
  .ok (.int (some (lib.IntOfFloat (Float.ofInt x / y))))

/-- One pass of the Float/Float loop body at row `i`. -/
def DivColumn.floatFloat (ca cb : column) (i : Nat) : Res Cell :=
  (index ca.cells i).bind fun ac => (assertFloat ac).bind fun acell =>
  (index cb.cells i).bind fun bc => (assertFloat bc).bind fun bcell =>
  (deref acell).bind fun x => (deref bcell).bind fun y =>
  .ok (.float (some (x / y)))

/-- The loop `for i := 0; i < d.nRows; i++` of `DivColumn`.  `acell` is a copy
of the cell taken out of the slice by the type assertion, so the assignment to
its field reaches neither `ca.cells` nor `d`: each pass hands the frame on as
it was. -/
def DivColumn.loop (body : Nat → Res Cell) (d : DataFrame) : List Nat → Res DataFrame
  | [] => .ok d
  | i :: rest => (body i).bind fun _ => DivColumn.loop body d rest

/-- The method `DivColumn`: the frame `d` after the call when the returned
error is nil. -/
def DataFrame.DivColumn (lib : Lib) (d : DataFrame) (a b : String) : Res DataFrame :=
  match d.Columns.get? a, d.Columns.get? b with
  | some ca, some cb =>
    let rows := List.range d.nRows.toNat
    if ca.colType = "df.Int" ∧ cb.colType = "df.Int" then
      DivColumn.loop (DivColumn.intInt ca cb) d rows
    else if ca.colType = "df.Float" ∧ cb.colType = "df.Int" then
      DivColumn.loop (DivColumn.floatInt ca cb) d rows
    else if ca.colType = "df.Int" ∧ cb.colType = "df.Float" then
      DivColumn.loop (DivColumn.intFloat lib ca cb) d rows
    else if ca.colType = "df.Float" ∧ cb.colType = "df.Float" then
      DivColumn.loop (DivColumn.floatFloat ca cb) d rows
    else .err "types check fail"
  | _, _ => .err ("column not find:" ++ a ++ " " ++ b)

/-! ## Dedup engine (`data-frame.go`) -/

/-- The struct `u`: whether a fingerprint was seen once, and the rows where it
appears. -/
structure u where
  unique : Bool
  appears : List Int

/-- Inner loop `for _, v := range df.Columns` of `uniqueRowsMap` at row `i`:
the checksums of the cells of row `i`, appended in the order in which the
columns are visited.  `cksum` is the method `Checksum()` of a cell, the 16
bytes taken as a string; it is not among the sources and is kept as a
parameter. -/
def uniqueRowsMap.fingerprint (cksum : Cell → String) :
    List (String × column) → Nat → String → Res String
  | [], _, mdarr => .ok mdarr
  | (_, v) :: rest, i, mdarr =>
    match v.cells[i]? with
    | some c => uniqueRowsMap.fingerprint cksum rest i (mdarr ++ cksum c)
    | none => .abort

/-- Outer loop `for i := 0; i < df.nRows; i++` of `uniqueRowsMap`.  Go leaves
the order of a `range` over a map open, and it may differ from one `range`
statement to the next: `ord i cols` is the order in which the inner loop of
row `i` visits the columns. -/
def uniqueRowsMap.loop (cksum : Cell → String) (ord : Nat → GoMap column → GoMap column)
    (df : DataFrame) : List Nat → GoMap u → Res (GoMap u)
  | [], uniqueRows => .ok uniqueRows
  | i :: rest, uniqueRows =>
    (uniqueRowsMap.fingerprint cksum (ord i df.Columns) i "").bind fun str =>
      match uniqueRows.get? str with
      | some a =>
        uniqueRowsMap.loop cksum ord df rest
          (uniqueRows.set str { unique := false, appears := a.appears ++ [(i : Int)] })
      | none =>
        uniqueRowsMap.loop cksum ord df rest
          (uniqueRows.set str { unique := true, appears := [(i : Int)] })

/-- The function `uniqueRowsMap`. -/
def uniqueRowsMap (cksum : Cell → String) (ord : Nat → GoMap column → GoMap column)
    (df : DataFrame) : Res (GoMap u) :=
  uniqueRowsMap.loop cksum ord df (List.range df.nRows.toNat) []

/-- Loop of `Unique` over the groups: `v.appears[0]` of every group flagged
unique. -/
def Unique.appears : List (String × u) → List Int → Res (List Int)
  | [], appears => .ok appears
  | (_, v) :: rest, appears =>
    if v.unique then
      match v.appears[0]? with
      | some x => Unique.appears rest (appears ++ [x])
      | none => .abort
    else Unique.appears rest appears

/-- The row indices that `Unique` hands to `SubsetRows`. -/
def Unique.rows (cksum : Cell → String) (ord : Nat → GoMap column → GoMap column)
    (df : DataFrame) : Res (List Int) :=
  (uniqueRowsMap cksum ord df).bind fun uniqueRows => Unique.appears uniqueRows []

/-- The method `Unique`. -/
def DataFrame.Unique (cksum : Cell → String) (ord : Nat → GoMap column → GoMap column)
    (df : DataFrame) : Res DataFrame :=
  (Unique.rows cksum ord df).bind fun appears => df.SubsetRows (.ints appears)

/-- Loop of `RemoveUnique` over the groups: all of `v.appears` of every group
not flagged unique. -/
def RemoveUnique.appears : List (String × u) → List Int → Res (List Int)
  | [], appears => .ok appears
  | (_, v) :: rest, appears =>
    if !v.unique then RemoveUnique.appears rest (appears ++ v.appears)
    else RemoveUnique.appears rest appears

/-- The row indices that `RemoveUnique` hands to `SubsetRows`. -/
def RemoveUnique.rows (cksum : Cell → String) (ord : Nat → GoMap column → GoMap column)
    (df : DataFrame) : Res (List Int) :=
  (uniqueRowsMap cksum ord df).bind fun uniqueRows => RemoveUnique.appears uniqueRows []

/-- The method `RemoveUnique`. -/
def DataFrame.RemoveUnique (cksum : Cell → String) (ord : Nat → GoMap column → GoMap column)
    (df : DataFrame) : Res DataFrame :=
  (RemoveUnique.rows cksum ord df).bind fun appears => df.SubsetRows (.ints appears)

/-- Loop of `RemoveDuplicated` over the groups: `v.appears[0]` of every group. -/
def RemoveDuplicated.appears : List (String × u) → List Int → Res (List Int)
  | [], appears => .ok appears
  | (_, v) :: rest, appears =>
    match v.appears[0]? with
    | some x => RemoveDuplicated.appears rest (appears ++ [x])
    | none => .abort

/-- The row indices that `RemoveDuplicated` hands to `SubsetRows`. -/
def RemoveDuplicated.rows (cksum : Cell → String) (ord : Nat → GoMap column → GoMap column)
    (df : DataFrame) : Res (List Int) :=
  (uniqueRowsMap cksum ord df).bind fun uniqueRows => RemoveDuplicated.appears uniqueRows []

/-- The method `RemoveDuplicated`. -/
def DataFrame.RemoveDuplicated (cksum : Cell → String)
    (ord : Nat → GoMap column → GoMap column) (df : DataFrame) : Res DataFrame :=
  (RemoveDuplicated.rows cksum ord df).bind fun appears => df.SubsetRows (.ints appears)

/-! ## Binding frames (`data-frame.go`) -/

/-- The zero value of `column`, which `m[k]` gives for a missing key: no
cells, empty type and name.  Its sentinel is the nil interface in the source;
no operation modelled here reads the sentinel of a zero column, and the NA
String cell stands in for it. -/
def column.zero : column :=
  { cells := [], colType := "", colName := "", empty := .string none }

/-- The expression `df.Columns[k]` without the comma-ok form. -/
def DataFrame.col (df : DataFrame) (k : String) : column :=
  (df.Columns.get? k).getD column.zero

/-- Modelled from the spec: `column.append` (not among the sources) adds cells
at the end of the column and fails when a cell is not of the declared
variant. -/
def column.append (c : column) (cells : List Cell) : Res column :=
  if cells.all (fun x => x.typeName = c.colType) then
    .ok { c with cells := c.cells ++ cells }
  else .err "Can't append cells of another type"

/-- What a call of `Rbind` or `Cbind` leaves behind: the returned pair, and the
two argument frames as the caller finds them after the call (their maps are
shared with the caller). -/
structure BindOut where
  result : Res DataFrame
  a : DataFrame
  b : DataFrame

/-- Loop `for k, v := range a.colIndexs` of `Rbind`; the state is the fresh
column map of `newDf`. -/
def Rbind.loop (a b : DataFrame) : List (String × Int) → GoMap column → Res (GoMap column)
  | [], columns => .ok columns
  | (k, v) :: rest, columns =>
    match b.colIndexs.get? k with
    | none => .err "Mismatching column names"
    | some idx =>
      if idx ≠ v then .err "Mismatching column names"
      else if (a.col k).colType ≠ (b.col k).colType then .err "Mismatching column types"
      else
        ((a.col k).copy.append (b.col k).copy.cells).bind fun col =>
          Rbind.loop a b rest (columns.set k col)

/-- The function `Rbind`.  It writes to the fresh map `newDf.Columns` and to
copies of columns only, so both arguments are after the call what they were
before. -/
def Rbind (a b : DataFrame) : BindOut :=
  { result :=
      (Rbind.loop a b a.colIndexs []).bind fun columns =>
        .ok { nRows := a.nRows + b.nRows, colIndexs := a.colIndexs, Columns := columns },
    a := a,
    b := b }

/-- First loop of `Cbind`, over `dfb.Columns`; the state is `dfa.Columns`. -/
def Cbind.columns : List (String × column) → GoMap column → Res (GoMap column)
  | [], columns => .ok columns
  | (k, v) :: rest, columns =>
    match columns.get? k with
    | some _ => .err "Conflicting column names"
    | none => Cbind.columns rest (columns.set k v)

/-- Second loop of `Cbind`, over `dfb.colIndexs`.  `dfa` comes from `copy`,
which hands on the map `a.colIndexs` itself: the map that is written,
`dfa.colIndexs`, and the map whose length is read, `a.colIndexs`, are one map,
the state `shared`. -/
def Cbind.index : List (String × Int) → GoMap Int → GoMap Int
  | [], shared => shared
  | (k, v) :: rest, shared => Cbind.index rest (shared.set k (v + (shared.length : Int)))

/-- The function `Cbind`.  On success the position map of the argument `a` has
received the entries of the result, being the same map. -/
def Cbind (a b : DataFrame) : BindOut :=
  if a.nRows ≠ b.nRows then
    { result := .err "Different number of rows", a := a, b := b }
  else
    match Cbind.columns b.copy.Columns a.copy.Columns with
    | .ok columns =>
      let shared := Cbind.index b.copy.colIndexs a.colIndexs
      { result := .ok { Columns := columns, colIndexs := shared, nRows := a.nRows },
        a := { a with colIndexs := shared },
        b := b }
    | .err msg => { result := .err msg, a := a, b := b }
    | .abort => { result := .abort, a := a, b := b }

/-! ## Names and parsing (`data-frame.go`) -/

/-- Outcome of a method with pointer receiver that returns an `error`: the
receiver after the call together with nil or the error, or a run-time panic. -/
inductive Ret where
  | nil (df : DataFrame)
  | error (msg : String) (df : DataFrame)
  | abort

/-- True when the method returned a non-nil error. -/
def Ret.isError : Ret → Bool
  | .error _ _ => true
  | _ => false

/-- The receiver after the call, when the method returned. -/
def Ret.after : Ret → Option DataFrame
  | .nil d => some d
  | .error _ d => some d
  | .abort => none

/-- The method `Names`: the `colName` field of every column. -/
def DataFrame.Names (df : DataFrame) : List String :=
  df.Columns.map fun kv => kv.2.colName

/-- Loop `for k, v := range df.colIndexs` of `SetNames`; the state is the pair
`newcolumns`, `newindexes`.  The call `col.recountNumChars()` acts on a copy
and on the display width only. -/
def SetNames.loop (df : DataFrame) (colnames : List String) :
    List (String × Int) → GoMap column × GoMap Int → Res (GoMap column × GoMap Int)
  | [], st => .ok st
  | (k, v) :: rest, (newcolumns, newindexes) =>
    if v < (colnames.length : Int) then
      if v < 0 then .abort
      else
        match colnames[v.toNat]? with
        | none => .abort
        | some name =>
          match newcolumns.get? name with
          | some _ => .err ("duplicate column name: " ++ name)
          | none =>
            SetNames.loop df colnames rest
              (newcolumns.set name (df.col k), newindexes.set name v)
    else
      SetNames.loop df colnames rest (newcolumns.set k (df.col k), newindexes.set k v)

/-- The method `SetNames`. -/
def DataFrame.SetNames (df : DataFrame) (colnames : List String) : Ret :=
  match SetNames.loop df colnames df.colIndexs ([], []) with
  | .ok st => .nil { df with Columns := st.1, colIndexs := st.2 }
  | .err msg => .error msg df
  | .abort => .abort

/-- The `types interface{}` argument of `Parse`, by its dynamic type:
`[]string`, `T`, or anything else. -/
inductive Types where
  | list (types : List String)
  | T (types : GoMap String)
  | other

/-- Loop of the `[]string` case of `Parse`, over `df.colIndexs`; the state is
the receiver.  `ParseColumn` is the method of `column` (not among the
sources): the coerced column, or its error.  When it fails the source returns
`nil`. -/
def Parse.list (ParseColumn : column → String → Res column) (types : List String) :
    List (String × Int) → DataFrame → Ret
  | [], df => .nil df
  | (k, v) :: rest, df =>
    if v < (types.length : Int) then
      if v < 0 then .abort
      else
        match types[v.toNat]? with
        | none => .abort
        | some t =>
          match ParseColumn (df.col k).copy t with
          | .ok col =>
            Parse.list ParseColumn types rest { df with Columns := df.Columns.set k col }
          | .err _ => .nil df
          | .abort => .abort
    else Parse.list ParseColumn types rest df

/-- Loop of the `T` case of `Parse`, over the mapping `types`; the state is
the receiver. -/
def Parse.T (ParseColumn : column → String → Res column) :
    List (String × String) → DataFrame → Ret
  | [], df => .nil df
  | (k, v) :: rest, df =>
    match ParseColumn (df.col k).copy v with
    | .ok col => Parse.T ParseColumn rest { df with Columns := df.Columns.set k col }
    | .err msg => .error msg df
    | .abort => .abort

/-- The method `Parse`. -/
def DataFrame.Parse (ParseColumn : column → String → Res column) (df : DataFrame) :
    Types → Ret
  | .list types => Parse.list ParseColumn types df.colIndexs df
  | .T types => Parse.T ParseColumn types df
  | .other => .nil df

/-! ## Loading, cell access and dropping a column (`data-frame.go`) -/

/-- Modelled from the spec: the constructor `Strings` (not among the sources)
turns strings into String cells. -/
def Strings (l : List String) : List Cell := l.map fun s => Cell.string (some s)

/-- First loop of `LoadData`: the non-empty names are entered in
`colnamesMap`; a name met again ends the call with an error. -/
def LoadData.unique : List String → GoMap Bool → Res (GoMap Bool)
  | [], colnamesMap => .ok colnamesMap
  | v :: rest, colnamesMap =>
    if v ≠ "" then
      match colnamesMap.get? v with
      | none => LoadData.unique rest (colnamesMap.set v true)
      | some _ => .err ("Duplicated column names: " ++ v)
    else LoadData.unique rest colnamesMap

/-- The inner `for` of the second loop of `LoadData`: the first name
`fmt.Sprint("V", auxCounter)` that `colnamesMap` does not hold, with the
counter behind it.  The loop of the source has no bound; `fuel` counts the
passes that the model may take, and `none` says that it took them all. -/
def LoadData.fresh : Nat → GoMap Bool → Nat → Option (String × Nat)
  | 0, _, _ => none
  | fuel + 1, colnamesMap, auxCounter =>
    let newColname := "V" ++ toString auxCounter
    match colnamesMap.get? newColname with
    | none => some (newColname, auxCounter + 1)
    | some _ => LoadData.fresh fuel colnamesMap (auxCounter + 1)

/-- Second loop of `LoadData`: every empty name is replaced by a fresh
placeholder; the result is the slice `colnames` after the loop. -/
def LoadData.fill (fuel : Nat) : List String → GoMap Bool → Nat → Option (List String)
  | [], _, _ => some []
  | v :: rest, colnamesMap, auxCounter =>
    if v = "" then
      match LoadData.fresh fuel colnamesMap auxCounter with
      | none => none
      | some (newColname, counter) =>
        (LoadData.fill fuel rest (colnamesMap.set newColname true) counter).map
          fun names => newColname :: names
    else
      (LoadData.fill fuel rest colnamesMap auxCounter).map fun names => v :: names

/-- Inner loop `for i := 1; i < nRows+1; i++` of the third loop of `LoadData`:
the strings `records[i][j]` of the data rows. -/
def LoadData.column (j : Nat) : List (List String) → Res (List String)
  | [] => .ok []
  | r :: rows =>
    match r[j]? with
    | some s => (LoadData.column j rows).bind fun colstrarr => .ok (s :: colstrarr)
    | none => .abort

/-- Third loop `for j := 0; j < nCols; j++` of `LoadData`, over the names from
position `j` on; the state is `newDf`. -/
def LoadData.build (rows : List (List String)) :
    List String → Nat → DataFrame → Res DataFrame
  | [], _, newDf => .ok newDf
  | name :: rest, j, newDf =>
    (LoadData.column j rows).bind fun colstrarr =>
      (newCol name (Strings colstrarr)).bind fun col =>
        LoadData.build rows rest (j + 1)
          { newDf with Columns := newDf.Columns.set name col,
                       colIndexs := newDf.colIndexs.set name (j : Int) }

/-- The method `LoadData`; `none` when the search for a placeholder used up
`fuel`. -/
def DataFrame.LoadData (fuel : Nat) (df : DataFrame) (records : List (List String)) :
    Option Ret :=
  let nRows : Int := (records.length : Int) - 1
  if nRows ≤ 0 then some (.error "Empty dataframe" df)
  else
    match records with
    | [] => some .abort
    | colnames :: rows =>
      match LoadData.unique colnames [] with
      | .err msg => some (.error msg df)
      | .abort => some .abort
      | .ok colnamesMap =>
        match LoadData.fill fuel colnames colnamesMap 0 with
        | none => none
        | some names =>
          match LoadData.build rows names 0 { nRows := nRows, Columns := [], colIndexs := [] } with
          | .ok newDf => some (.nil newDf)
          | .err msg => some (.error msg df)
          | .abort => some .abort

/-- Indexing `cells[row]` with an `int`: a negative index stops the program as
one beyond the end does. -/
def indexInt (cells : List Cell) (row : Int) : Res Cell :=
  if row < 0 then .abort else index cells row.toNat

/-- The method `GetCell`: the cell with the declared type of its column. -/
def DataFrame.GetCell (d : DataFrame) (colname : String) (row : Int) : Res (Cell × String) :=
  match d.Columns.get? colname with
  | none => .err (colname ++ " not exsits")
  | some col =>
    if row ≥ d.NRows then .err ("row out of range: " ++ toString row)
    else (indexInt col.cells row).bind fun cell => .ok (cell, col.colType)

/-- Loop of `DropColumn` over `df.Columns`: for every column with another name
the source appends `col`, the name to drop. -/
def DropColumn.newcolnames (col : String) : List (String × column) → List String → List String
  | [], newcolnames => newcolnames
  | (_, c) :: rest, newcolnames =>
    if col ≠ c.colName then DropColumn.newcolnames col rest (newcolnames ++ [col])
    else DropColumn.newcolnames col rest newcolnames

/-- The method `DropColumn`. -/
def DataFrame.DropColumn (df : DataFrame) (col : String) : Res DataFrame :=
  df.SubsetColumns (.strings (DropColumn.newcolnames col df.Columns []))

/-- Loop of `Duplicated` over the groups: `v.appears[0]` of every group not
flagged unique. -/
def Duplicated.appears : List (String × u) → List Int → Res (List Int)
  | [], appears => .ok appears
  | (_, v) :: rest, appears =>
    if !v.unique then
      match v.appears[0]? with
      | some x => Duplicated.appears rest (appears ++ [x])
      | none => .abort
    else Duplicated.appears rest appears

/-- The row indices that `Duplicated` hands to `SubsetRows`. -/
def Duplicated.rows (cksum : Cell → String) (ord : Nat → GoMap column → GoMap column)
    (df : DataFrame) : Res (List Int) :=
  (uniqueRowsMap cksum ord df).bind fun uniqueRows => Duplicated.appears uniqueRows []

/-- The method `Duplicated`. -/
def DataFrame.Duplicated (cksum : Cell → String) (ord : Nat → GoMap column → GoMap column)
    (df : DataFrame) : Res DataFrame :=
  (Duplicated.rows cksum ord df).bind fun appears => df.SubsetRows (.ints appears)

/-! ## Frames and functions for evaluation -/

/-- A frame with the Int column age = [10, 20, 30] and the String column
name = [a, b, a], three rows, positions 0 and 1. -/
def ageFrame : DataFrame where
  Columns :=
    [("age", { cells := [.int (some 10), .int (some 20), .int (some 30)],
               colType := "df.Int", colName := "age", empty := .int none }),
     ("name", { cells := [.string (some "a"), .string (some "b"), .string (some "a")],
                colType := "df.String", colName := "name", empty := .string none })]
  colIndexs := [("age", 0), ("name", 1)]
  nRows := 3

/-- The integer payloads of a column of a returned frame. -/
def intsOf (r : Res DataFrame) (name : String) : Option (List (Option Int)) :=
  (r.toOption.bind fun d => d.Columns.get? name).map fun c =>
    c.cells.map fun cell => match cell with
      | .int i => i
      | _ => none

/-- A frame with four Int columns a, b, c, d at positions 0 to 3, one row. -/
def fourFrame : DataFrame where
  Columns :=
    [("a", { cells := [.int (some 1)], colType := "df.Int", colName := "a", empty := .int none }),
     ("b", { cells := [.int (some 2)], colType := "df.Int", colName := "b", empty := .int none }),
     ("c", { cells := [.int (some 3)], colType := "df.Int", colName := "c", empty := .int none }),
     ("d", { cells := [.int (some 4)], colType := "df.Int", colName := "d", empty := .int none })]
  colIndexs := [("a", 0), ("b", 1), ("c", 2), ("d", 3)]
  nRows := 1

/-- A predicate over cells for evaluation: an Int cell holding more than 15. -/
def over15 : Cell → Bool
  | .int (some i) => decide (i > 15)
  | _ => false

/-- A frame with the Int columns a = [6] and b = [3], one row. -/
def divFrame : DataFrame where
  Columns :=
    [("a", { cells := [.int (some 6)], colType := "df.Int", colName := "a", empty := .int none }),
     ("b", { cells := [.int (some 3)], colType := "df.Int", colName := "b", empty := .int none })]
  colIndexs := [("a", 0), ("b", 1)]
  nRows := 1

/-- A frame with the Int column c = [NA], one row. -/
def naFrame : DataFrame where
  Columns :=
    [("c", { cells := [.int none], colType := "df.Int", colName := "c", empty := .int none })]
  colIndexs := [("c", 0)]
  nRows := 1

/-- A frame with the Int column x = [1], one row. -/
def bindA : DataFrame where
  Columns :=
    [("x", { cells := [.int (some 1)], colType := "df.Int", colName := "x", empty := .int none })]
  colIndexs := [("x", 0)]
  nRows := 1

/-- A frame with the Int columns x = [2] and y = [3], one row. -/
def bindB : DataFrame where
  Columns :=
    [("x", { cells := [.int (some 2)], colType := "df.Int", colName := "x", empty := .int none }),
     ("y", { cells := [.int (some 3)], colType := "df.Int", colName := "y", empty := .int none })]
  colIndexs := [("x", 0), ("y", 1)]
  nRows := 1

/-- A frame with the Int columns y = [2] at position 0 and z = [3] at position
1, one row; `zFirst` tells whether the position map is visited from z. -/
def bindYZ (zFirst : Bool) : DataFrame where
  Columns :=
    [("y", { cells := [.int (some 2)], colType := "df.Int", colName := "y", empty := .int none }),
     ("z", { cells := [.int (some 3)], colType := "df.Int", colName := "z", empty := .int none })]
  colIndexs := if zFirst then [("z", 1), ("y", 0)] else [("y", 0), ("z", 1)]
  nRows := 1

/-- A frame with the Int columns a = [1, 1] and b = [2, 2]: two equal rows. -/
def dupFrame : DataFrame where
  Columns :=
    [("a", { cells := [.int (some 1), .int (some 1)], colType := "df.Int", colName := "a",
             empty := .int none }),
     ("b", { cells := [.int (some 2), .int (some 2)], colType := "df.Int", colName := "b",
             empty := .int none })]
  colIndexs := [("a", 0), ("b", 1)]
  nRows := 2

/-- An order of `range` that visits the columns one way at row 0 and the other
way round at the later rows. -/
def flipOrder (i : Nat) (columns : GoMap column) : GoMap column :=
  if i = 0 then columns else columns.reverse

/-- A frame without rows and columns, the zero value of `DataFrame`. -/
def zeroFrame : DataFrame where
  Columns := []
  colIndexs := []
  nRows := 0

/-- A frame with the String column x = [s], one row. -/
def bindS : DataFrame where
  Columns :=
    [("x", { cells := [.string (some "s")], colType := "df.String", colName := "x",
             empty := .string none })]
  colIndexs := [("x", 0)]
  nRows := 1

/-- A frame with the Int column a = [1, 2, 1]: rows 0 and 2 are equal. -/
def mixFrame : DataFrame where
  Columns :=
    [("a", { cells := [.int (some 1), .int (some 2), .int (some 1)], colType := "df.Int",
             colName := "a", empty := .int none })]
  colIndexs := [("a", 0)]
  nRows := 3

/-- Cells of a String column coerced to Int, for evaluation: the empty string
and NA give NA, a string that `Atoi` reads gives its value, any other string
is a coercion failure. -/
def sampleParseInt : List Cell → Res (List Cell)
  | [] => .ok []
  | .string (some s) :: rest =>
    if s = "" then (sampleParseInt rest).bind fun cells => .ok (.int none :: cells)
    else
      match Atoi s with
      | some i => (sampleParseInt rest).bind fun cells => .ok (.int (some i) :: cells)
      | none => .err ("Can't parse as int: " ++ s)
  | _ :: rest => (sampleParseInt rest).bind fun cells => .ok (.int none :: cells)

/-- A `ParseColumn` for evaluation: the type tag int coerces the cells to Int,
any other tag is refused. -/
def sampleParseColumn (c : column) (t : String) : Res column :=
  if t = "int" then
    (sampleParseInt c.cells).bind fun cells =>
      .ok { c with cells := cells, colType := "df.Int", empty := .int none }
  else .err ("Unknown type: " ++ t)

/-- A frame with the String columns a = [1, 2] and b = [x, y], two rows. -/
def strFrame : DataFrame where
  Columns :=
    [("a", { cells := [.string (some "1"), .string (some "2")], colType := "df.String",
             colName := "a", empty := .string none }),
     ("b", { cells := [.string (some "x"), .string (some "y")], colType := "df.String",
             colName := "b", empty := .string none })]
  colIndexs := [("a", 0), ("b", 1)]
  nRows := 2

/-- A frame with the Int column age = [10, NA, 30] and the String column
name = [a, NA, a], three rows, positions 0 and 1. -/
def ageNA : DataFrame where
  Columns :=
    [("age", { cells := [.int (some 10), .int none, .int (some 30)],
               colType := "df.Int", colName := "age", empty := .int none }),
     ("name", { cells := [.string (some "a"), .string none, .string (some "a")],
                colType := "df.String", colName := "name", empty := .string none })]
  colIndexs := [("age", 0), ("name", 1)]
  nRows := 3

/-- A checksum for evaluation: the rendered cell behind its type tag. -/
def sampleChecksum (c : Cell) : String := c.typeName ++ ":" ++ c.render Lib.sample

/-- The order of `range` that visits the columns as the list holds them. -/
def listOrder (_ : Nat) (columns : GoMap column) : GoMap column := columns

/-! ## Invariants of the data model -/

/-- Both maps of the frame are total over the same key set. -/
def DataFrame.sameKeys (df : DataFrame) : Prop :=
  (∀ k ∈ df.Columns.keys, k ∈ df.colIndexs.keys) ∧
  (∀ k ∈ df.colIndexs.keys, k ∈ df.Columns.keys)

instance (df : DataFrame) : Decidable df.sameKeys := by
  unfold DataFrame.sameKeys; infer_instance

/-- Every cell of the column, and its sentinel, has the declared variant. -/
def column.WF (c : column) : Prop :=
  c.empty.typeName = c.colType ∧ ∀ x ∈ c.cells, x.typeName = c.colType

instance (c : column) : Decidable c.WF := by
  unfold column.WF; infer_instance

/-- The column map holds each name once, every column is well formed, and the
rows counted by `nRows` exist in every column.  The data model asks for
columns exactly as long as the row count; the weaker bound also covers the
frames built by `New`, whose `nRows` is 0. -/
def DataFrame.WF (df : DataFrame) : Prop :=
  df.Columns.WF ∧ ∀ kv ∈ df.Columns, kv.2.WF ∧ df.nRows ≤ (kv.2.cells.length : Int)

instance (df : DataFrame) : Decidable df.WF := by
  unfold DataFrame.WF; infer_instance

/-- Position `p` lies in the half-open range `[From, To)`. -/
def R.has (s : R) (p : Int) : Prop := s.From ≤ p ∧ p < s.To

instance (s : R) (p : Int) : Decidable (s.has p) := by
  unfold R.has; infer_instance

/-! ## Definitions used in the statements and proofs -/

/-- The cell that `SubsetRows` puts in a row built from index `i`. -/
def SubsetRows.cellAt (v : column) (i : Int) : Option Cell :=
  if i < 0 then some v.empty else v.cells[i.toNat]?

/-- The common shape of the two column loops of `SubsetRows`: every column is
rebuilt by `g` and stored under its key. -/
def SubsetRows.colsLoop (g : column → Res column) :
    List (String × column) → GoMap column → Res (GoMap column)
  | [], columns => .ok columns
  | (k, v) :: rest, columns =>
    (g v).bind fun col => SubsetRows.colsLoop g rest (columns.set k col)

/-- Spec side of `FilterRows`: the rows `i` of `0..n-1` at which the predicate
holds for the cell of the column, in ascending order. -/
def FilterRows.matching (c : column) (f : Cell → Bool) (n : Nat) : List Nat :=
  (List.range n).filter fun i => (c.cells[i]?).any f

mutual
/-- Whether the condition is, or holds somewhere inside its lists, one of the
five comparisons `Eq`, `Gt`, `Lt`, `Ngt`, `Nlt`. -/
def Condition.hasLeaf : Condition → Bool
  | .all cs => Condition.anyLeaf cs
  | _ => true
/-- Whether some member of the list has a comparison. -/
def Condition.anyLeaf : List Condition → Bool
  | [] => false
  | c :: cs => Condition.hasLeaf c || Condition.anyLeaf cs
end

/-- The declared type is none of the four the comparisons know. -/
def unknownType (t : String) : Prop :=
  t ≠ "df.String" ∧ t ≠ "df.Int" ∧ t ≠ "df.Float" ∧ t ≠ "df.Bool"

instance (t : String) : Decidable (unknownType t) := by
  unfold unknownType; infer_instance

/-- Spec side of `ConditionRows`: the condition listed for a column is true at
row `i`. -/
def ConditionRows.holds (lib : Lib) (df : DataFrame) (i : Nat) (kc : String × Condition) :
    Bool :=
  match df.Columns.get? kc.1 with
  | some col =>
    match col.cells[i]? with
    | some cell => decide (kc.2.Compare lib cell col.colType = .ok true)
    | none => false
  | none => false

/-- Spec side of `ConditionRows`: the rows of `0..n-1` at which every listed
condition is true, in ascending order. -/
def ConditionRows.matching (lib : Lib) (df : DataFrame) (cs : GoMap Condition) (n : Nat) :
    List Nat :=
  (List.range n).filter fun i => cs.all (ConditionRows.holds lib df i)

/-- Every listed condition returns a value on every cell of its column (no
comparison dereferences the nil payload of an NA cell). -/
def ConditionRows.evaluates (lib : Lib) (df : DataFrame) (cs : GoMap Condition) : Prop :=
  ∀ kc ∈ cs, ∀ cell ∈ (df.col kc.1).cells,
    ((kc.2.Compare lib cell (df.col kc.1).colType).toOption).isSome = true

instance (lib : Lib) (df : DataFrame) (cs : GoMap Condition) :
    Decidable (ConditionRows.evaluates lib df cs) := by
  unfold ConditionRows.evaluates; infer_instance

/-- Spec side of `uniqueRowsMap`: the fingerprint that row `i` gets. -/
def uniqueRowsMap.fp (cksum : Cell → String) (ord : Nat → GoMap column → GoMap column)
    (df : DataFrame) (i : Nat) : String :=
  ((uniqueRowsMap.fingerprint cksum (ord i df.Columns) i "").toOption).getD ""

/-- The grouping after the rows `done`: every fingerprint seen has one group,
which lists the rows seen with that fingerprint in the order they came, and
which is flagged unique exactly when it lists one row. -/
def uniqueRowsMap.Inv (fp : Nat → String) (done : List Nat) (m : GoMap u) : Prop :=
  m.WF ∧ (∀ j ∈ done, fp j ∈ m.keys) ∧
  ∀ sv ∈ m, sv.2.appears = List.map Int.ofNat (done.filter fun j => fp j = sv.1) ∧
    sv.2.appears ≠ [] ∧ (sv.2.unique = true ↔ sv.2.appears.length = 1)

/-- The rows of all groups, group after group. -/
def uniqueRowsMap.allRows : List (String × u) → List Int
  | [] => []
  | sv :: m => sv.2.appears ++ uniqueRowsMap.allRows m

/-- The value of a sequence of decimal digit characters. -/
def digitsValue (cs : List Char) : Nat :=
  cs.foldl (fun a c => 10 * a + (c.toNat - 48)) 0

/-- The name `fmt.Sprint("V", n)`. -/
def placeholder (n : Nat) : String := "V" ++ toString n

/-! ## Lemmas on maps -/

theorem GoMap.get?_isSome_iff_mem_keys {β : Type} (m : GoMap β) (k : String) :
    (m.get? k).isSome = true ↔ k ∈ m.keys := by
  induction m with
  | nil => simp [GoMap.get?, GoMap.keys]
  | cons kv m ih =>
    obtain ⟨k0, v0⟩ := kv
    by_cases h : k0 = k
    · simp [GoMap.get?, GoMap.keys, h]
    · have h2 : ¬ k = k0 := fun e => h e.symm
      simp only [GoMap.get?, h, if_false, ih]
      simp [GoMap.keys, h2]

theorem GoMap.get?_eq_none_iff {β : Type} (m : GoMap β) (k : String) :
    m.get? k = none ↔ k ∉ m.keys := by
  rw [← GoMap.get?_isSome_iff_mem_keys]
  cases m.get? k <;> simp

theorem GoMap.mem_of_get? {β : Type} (m : GoMap β) (k : String) (v : β)
    (h : m.get? k = some v) : (k, v) ∈ m := by
  induction m with
  | nil => simp [GoMap.get?] at h
  | cons kv m ih =>
    obtain ⟨k0, v0⟩ := kv
    by_cases hk : k0 = k
    · simp [GoMap.get?, hk] at h
      simp [hk, h]
    · simp only [GoMap.get?, hk, if_false] at h
      exact List.mem_cons_of_mem _ (ih h)

theorem GoMap.get?_of_mem {β : Type} (m : GoMap β) (hm : m.WF) (k : String) (v : β)
    (h : (k, v) ∈ m) : m.get? k = some v := by
  induction m with
  | nil => simp at h
  | cons kv m ih =>
    obtain ⟨k0, v0⟩ := kv
    have hnd : k0 ∉ GoMap.keys m ∧ (GoMap.keys m).Nodup := by
      simpa [GoMap.WF, GoMap.keys] using hm
    rcases List.mem_cons.1 h with h1 | h1
    · have e1 : k = k0 := (Prod.mk.inj h1).1
      have e2 : v = v0 := (Prod.mk.inj h1).2
      simp [GoMap.get?, e1, e2]
    · have hk : k ∈ GoMap.keys m := List.mem_map.2 ⟨(k, v), h1, rfl⟩
      have hne : ¬ k0 = k := fun e => hnd.1 (e ▸ hk)
      simp only [GoMap.get?, hne, if_false]
      exact ih hnd.2 h1

theorem GoMap.get?_set {β : Type} (m : GoMap β) (k : String) (v : β) (key : String) :
    (m.set k v).get? key = if k = key then some v else m.get? key := by
  induction m with
  | nil => simp [GoMap.set, GoMap.get?]
  | cons kv m ih =>
    obtain ⟨k0, v0⟩ := kv
    by_cases h : k0 = k
    · subst h
      by_cases h2 : k0 = key <;> simp [GoMap.set, GoMap.get?, h2]
    · by_cases h2 : k0 = key
      · subst h2
        have h3 : ¬ k = k0 := fun e => h e.symm
        simp [GoMap.set, GoMap.get?, h, h3]
      · simp [GoMap.set, GoMap.get?, h, h2, ih]

theorem GoMap.keys_set_of_mem {β : Type} (m : GoMap β) (k : String) (v : β)
    (h : k ∈ m.keys) : (m.set k v).keys = m.keys := by
  induction m with
  | nil => simp [GoMap.keys] at h
  | cons kv m ih =>
    obtain ⟨k0, v0⟩ := kv
    by_cases h0 : k0 = k
    · simp [GoMap.set, GoMap.keys, h0]
    · have h1 : k ∈ GoMap.keys m := by
        have : k = k0 ∨ k ∈ GoMap.keys m := by simpa [GoMap.keys] using h
        rcases this with e | e
        · exact absurd e.symm h0
        · exact e
      have := ih h1
      simp only [GoMap.keys] at this
      simp [GoMap.set, GoMap.keys, h0, this]

theorem GoMap.get?_del {β : Type} (m : GoMap β) (k key : String) :
    (m.del k).get? key = if k = key then none else m.get? key := by
  induction m with
  | nil => simp [GoMap.del, GoMap.get?]
  | cons kv m ih =>
    obtain ⟨k0, v0⟩ := kv
    by_cases h : k0 = k
    · subst h
      by_cases h2 : k0 = key
      · subst h2
        simpa [GoMap.del] using ih
      · simp [GoMap.del, GoMap.get?, h2, ih]
    · by_cases h2 : k0 = key
      · subst h2
        have h3 : ¬ k = k0 := fun e => h e.symm
        simp [GoMap.del, GoMap.get?, h, h3]
      · simp [GoMap.del, GoMap.get?, h, h2, ih]

theorem GoMap.get?_mapVal {β γ : Type} (m : GoMap β) (g : β → γ) (key : String) :
    GoMap.get? (m.map fun kv => (kv.1, g kv.2)) key = (m.get? key).map g := by
  induction m with
  | nil => simp [GoMap.get?]
  | cons kv m ih =>
    obtain ⟨k0, v0⟩ := kv
    by_cases h : k0 = key <;> simp [GoMap.get?, h, ih]

theorem GoMap.keys_mapVal {β γ : Type} (m : GoMap β) (g : β → γ) :
    GoMap.keys (m.map fun kv => (kv.1, g kv.2)) = m.keys := by
  simp [GoMap.keys, List.map_map, Function.comp_def]

theorem GoMap.eq_nil_iff {β : Type} (m : GoMap β) :
    m.length = 0 ↔ ∀ k, m.get? k = none := by
  cases m with
  | nil => simp [GoMap.get?]
  | cons kv m =>
    obtain ⟨k0, v0⟩ := kv
    constructor
    · intro h; simp at h
    · intro h; have := h k0; simp [GoMap.get?] at this

/-! ## Lemmas on `SubsetColumns` -/

theorem SubsetColumns.colindex_isSome (df : DataFrame) (cols : List String) (acc : GoMap Int)
    (k : String) :
    ((SubsetColumns.colindex df cols acc).get? k).isSome = true ↔
      (acc.get? k).isSome = true ∨ (k ∈ cols ∧ (df.colIndexs.get? k).isSome = true) := by
  induction cols generalizing acc with
  | nil => simp [SubsetColumns.colindex]
  | cons v cols ih =>
    unfold SubsetColumns.colindex
    cases hv : df.colIndexs.get? v with
    | none =>
      simp only [ih]
      constructor
      · rintro (h | ⟨h1, h2⟩)
        · exact Or.inl h
        · exact Or.inr ⟨List.mem_cons_of_mem _ h1, h2⟩
      · rintro (h | ⟨h1, h2⟩)
        · exact Or.inl h
        · rcases List.mem_cons.1 h1 with e | e
          · subst e; simp [hv] at h2
          · exact Or.inr ⟨e, h2⟩
    | some idx =>
      simp only [ih, GoMap.get?_set]
      by_cases hk : v = k
      · subst hk
        simp [hv]
      · have hk2 : ¬ k = v := fun e => hk e.symm
        simp [hk, hk2]

theorem SubsetColumns.renumber_get? (df : DataFrame) (v : Int) (ci : GoMap Int) (k : String) :
    (SubsetColumns.renumber df v ci).get? k =
      (ci.get? k).map fun p => if (df.colIndexs.get? k).getD 0 > v then p - 1 else p := by
  induction ci with
  | nil => simp [SubsetColumns.renumber, GoMap.get?]
  | cons kv ci ih =>
    obtain ⟨k0, p0⟩ := kv
    have ih2 : GoMap.get? (List.map (fun kv : String × Int =>
        (kv.1, if (df.colIndexs.get? kv.1).getD 0 > v then kv.2 - 1 else kv.2)) ci) k =
        (GoMap.get? ci k).map fun p => if (df.colIndexs.get? k).getD 0 > v then p - 1 else p := ih
    by_cases h : k0 = k
    · subst h
      simp [SubsetColumns.renumber, GoMap.get?]
    · simp only [SubsetColumns.renumber, List.map_cons, GoMap.get?, h, if_false]
      exact ih2

theorem SubsetColumns.renumber_eq_none (df : DataFrame) (v : Int) (ci : GoMap Int) (k : String) :
    (SubsetColumns.renumber df v ci).get? k = none ↔ ci.get? k = none := by
  rw [SubsetColumns.renumber_get?]
  cases ci.get? k <;> simp

theorem SubsetColumns.drop_get? (df : DataFrame) (l : List (String × Int))
    (columns : GoMap column) (ci : GoMap Int) (k : String) :
    (SubsetColumns.drop df l (columns, ci)).1.get? k =
      if k ∈ GoMap.keys l ∧ ci.get? k = none then none else columns.get? k := by
  induction l generalizing columns ci with
  | nil => simp [SubsetColumns.drop, GoMap.keys]
  | cons kv l ih =>
    obtain ⟨k0, p0⟩ := kv
    unfold SubsetColumns.drop
    cases h0 : ci.get? k0 with
    | none =>
      simp only [ih, SubsetColumns.renumber_eq_none, GoMap.get?_del]
      by_cases hk : k0 = k
      · subst hk
        simp [GoMap.keys, h0]
      · have hk2 : ¬ k = k0 := fun e => hk e.symm
        have e : k ∈ GoMap.keys ((k0, p0) :: l) ↔ k ∈ GoMap.keys l := by
          simp [GoMap.keys, hk2]
        simp only [hk, if_false, e]
    | some q =>
      simp only [ih]
      by_cases hk : k0 = k
      · subst hk
        simp [GoMap.keys, h0]
      · have hk2 : ¬ k = k0 := fun e => hk e.symm
        have e : k ∈ GoMap.keys ((k0, p0) :: l) ↔ k ∈ GoMap.keys l := by
          simp [GoMap.keys, hk2]
        simp only [e]

theorem SubsetColumns.mem_rangeCols (s : R) (l : List (String × Int)) (acc : List String)
    (k : String) :
    k ∈ SubsetColumns.rangeCols s l acc ↔ k ∈ acc ∨ ∃ p, (k, p) ∈ l ∧ s.has p := by
  induction l generalizing acc with
  | nil => simp [SubsetColumns.rangeCols]
  | cons kv l ih =>
    obtain ⟨k0, p0⟩ := kv
    unfold SubsetColumns.rangeCols
    by_cases hr : p0 ≥ s.From ∧ p0 < s.To
    · simp only [hr, and_self, if_true, ih, List.mem_append, List.mem_singleton]
      constructor
      · rintro ((h | h) | ⟨p, hp, hs⟩)
        · exact Or.inl h
        · exact Or.inr ⟨p0, by simp [h], hr⟩
        · exact Or.inr ⟨p, List.mem_cons_of_mem _ hp, hs⟩
      · rintro (h | ⟨p, hp, hs⟩)
        · exact Or.inl (Or.inl h)
        · rcases List.mem_cons.1 hp with e | e
          · exact Or.inl (Or.inr (Prod.mk.inj e).1)
          · exact Or.inr ⟨p, e, hs⟩
    · simp only [hr, if_false, ih]
      constructor
      · rintro (h | ⟨p, hp, hs⟩)
        · exact Or.inl h
        · exact Or.inr ⟨p, List.mem_cons_of_mem _ hp, hs⟩
      · rintro (h | ⟨p, hp, hs⟩)
        · exact Or.inl h
        · rcases List.mem_cons.1 hp with e | e
          · have : p = p0 := (Prod.mk.inj e).2
            subst this
            exact absurd hs hr
          · exact Or.inr ⟨p, e, hs⟩

/-! ## Lemmas on `New`, the conditions, `DivColumn` and `SubsetRows` -/

theorem SubsetColumns.names_columns (df : DataFrame) (cols : List String) :
    (SubsetColumns.names df cols = .err "Empty subset" ↔
        ∀ k ∈ cols, df.colIndexs.get? k = none) ∧
    ((∃ k ∈ cols, (df.colIndexs.get? k).isSome = true) →
      ∃ out, SubsetColumns.names df cols = .ok out ∧
        out.colIndexs = df.colIndexs ∧ out.nRows = df.nRows ∧
        ∀ k, out.Columns.get? k =
          if k ∈ df.colIndexs.keys ∧ ¬ (k ∈ cols) then none
          else (df.Columns.get? k).map column.copy) := by
  have hlen : (SubsetColumns.colindex df cols []).length = 0 ↔
      ∀ k ∈ cols, df.colIndexs.get? k = none := by
    rw [GoMap.eq_nil_iff]
    constructor
    · intro h k hk
      have h1 := h k
      cases hg : df.colIndexs.get? k with
      | none => rfl
      | some p =>
        have : ((SubsetColumns.colindex df cols []).get? k).isSome = true :=
          (SubsetColumns.colindex_isSome df cols [] k).2 (Or.inr ⟨hk, by simp [hg]⟩)
        simp [h1] at this
    · intro h k
      cases hg : (SubsetColumns.colindex df cols []).get? k with
      | none => rfl
      | some p =>
        have h2 := (SubsetColumns.colindex_isSome df cols [] k).1 (by simp [hg])
        rcases h2 with h2 | ⟨h2, h3⟩
        · simp [GoMap.get?] at h2
        · simp [h k h2] at h3
  refine ⟨?_, ?_⟩
  · unfold SubsetColumns.names
    by_cases hl : (SubsetColumns.colindex df cols []).length = 0
    · simp only [hl, if_true, true_iff]
      exact hlen.1 hl
    · simp only [hl, if_false]
      constructor
      · intro h; cases h
      · intro h; exact absurd (hlen.2 h) hl
  · rintro ⟨k0, hk0, hs0⟩
    have hl : ¬ (SubsetColumns.colindex df cols []).length = 0 := by
      intro h
      have := hlen.1 h k0 hk0
      simp [this] at hs0
    unfold SubsetColumns.names
    simp only [hl, if_false]
    refine ⟨_, rfl, rfl, rfl, ?_⟩
    intro k
    simp only [SubsetColumns.drop_get?, DataFrame.copy, GoMap.get?_mapVal]
    by_cases hm : k ∈ df.colIndexs.keys
    · have hsome : (df.colIndexs.get? k).isSome = true :=
        (GoMap.get?_isSome_iff_mem_keys _ _).2 hm
      by_cases hc : k ∈ cols
      · have : ((SubsetColumns.colindex df cols []).get? k).isSome = true :=
          (SubsetColumns.colindex_isSome df cols [] k).2 (Or.inr ⟨hc, hsome⟩)
        have hne : ¬ (SubsetColumns.colindex df cols []).get? k = none := by
          intro e; simp [e] at this
        simp [hm, hc, hne]
      · have : (SubsetColumns.colindex df cols []).get? k = none := by
          cases hg : (SubsetColumns.colindex df cols []).get? k with
          | none => rfl
          | some p =>
            have h2 := (SubsetColumns.colindex_isSome df cols [] k).1 (by simp [hg])
            rcases h2 with h2 | ⟨h2, _⟩
            · simp [GoMap.get?] at h2
            · exact absurd h2 hc
        simp [hm, hc, this]
    · simp [hm]

theorem newCol_ok (name : String) (cells : List Cell) (t : String)
    (hne : cells ≠ []) (ht : ∀ x ∈ cells, x.typeName = t) :
    ∃ col, newCol name cells = .ok col ∧ col.cells = cells ∧ col.colType = t ∧
      col.colName = name ∧ col.WF := by
  cases cells with
  | nil => exact absurd rfl hne
  | cons e es =>
    have he : e.typeName = t := ht e (List.mem_cons_self _ _)
    have hall : (es.all fun c => decide (c.typeName = e.typeName)) = true := by
      rw [List.all_eq_true]
      intro x hx
      simp [ht x (List.mem_cons_of_mem _ hx), he]
    refine ⟨{ cells := e :: es, colType := e.typeName, colName := name, empty := e.NA },
      by simp only [newCol, hall, if_true], rfl, he, rfl, ?_, ?_⟩
    · cases e <;> simp [Cell.NA, Cell.typeName]
    · intro x hx
      show x.typeName = e.typeName
      rw [ht x hx, he]

theorem SubsetRows.pick_ok (v : column) (rowNums : List Int) (acc : List Cell)
    (h : ∀ i ∈ rowNums, i < (v.cells.length : Int)) :
    ∃ cells, SubsetRows.pick v rowNums acc = .ok (acc ++ cells) ∧
      cells.length = rowNums.length ∧
      (∀ (j : Nat) (i : Int), rowNums[j]? = some i → cells[j]? = SubsetRows.cellAt v i) ∧
      (∀ x ∈ cells, x = v.empty ∨ x ∈ v.cells) := by
  induction rowNums generalizing acc with
  | nil => exact ⟨[], by simp [SubsetRows.pick], rfl, by simp, by simp⟩
  | cons i rest ih =>
    have hrest : ∀ i ∈ rest, i < (v.cells.length : Int) :=
      fun x hx => h x (List.mem_cons_of_mem _ hx)
    have hi := h i (List.mem_cons_self _ _)
    by_cases hneg : i < 0
    · obtain ⟨cells, hc, hl, hg, hm⟩ := ih (acc ++ [v.empty]) hrest
      refine ⟨v.empty :: cells, ?_, by simp [hl], ?_, ?_⟩
      · simp only [SubsetRows.pick, hneg, if_true, hc]
        simp
      · intro j x hj
        cases j with
        | zero =>
          simp at hj; subst hj
          simp [SubsetRows.cellAt, hneg]
        | succ j =>
          rw [List.getElem?_cons_succ] at hj ⊢
          exact hg j x hj
      · intro x hx
        rcases List.mem_cons.1 hx with e | e
        · exact Or.inl e
        · exact hm x e
    · have hlt : i.toNat < v.cells.length := by omega
      obtain ⟨c, hcget⟩ : ∃ c, v.cells[i.toNat]? = some c :=
        ⟨v.cells[i.toNat], List.getElem?_eq_getElem hlt⟩
      obtain ⟨cells, hc, hl, hg, hm⟩ := ih (acc ++ [c]) hrest
      refine ⟨c :: cells, ?_, by simp [hl], ?_, ?_⟩
      · simp only [SubsetRows.pick, hneg, if_false, hcget, hc]
        simp
      · intro j x hj
        cases j with
        | zero =>
          simp at hj; subst hj
          simp [SubsetRows.cellAt, hneg, hcget]
        | succ j =>
          rw [List.getElem?_cons_succ] at hj ⊢
          exact hg j x hj
      · intro x hx
        rcases List.mem_cons.1 hx with e | e
        · exact Or.inr (e ▸ List.getElem?_mem hcget)
        · exact hm x e

theorem SubsetRows.rangeLoop_eq (s : R) (l : List (String × column)) (columns : GoMap column) :
    SubsetRows.rangeLoop s l columns =
      SubsetRows.colsLoop
        (fun v => (slice v.cells s).bind fun cells => newCol v.colName cells) l columns := by
  induction l generalizing columns with
  | nil => rfl
  | cons kv l ih =>
    obtain ⟨k, v⟩ := kv
    simp only [SubsetRows.rangeLoop, SubsetRows.colsLoop, ih]
    cases slice v.cells s <;> rfl

theorem SubsetRows.intsLoop_eq (rowNums : List Int) (l : List (String × column))
    (columns : GoMap column) :
    SubsetRows.intsLoop rowNums l columns =
      SubsetRows.colsLoop
        (fun v => (SubsetRows.pick v rowNums []).bind fun cells => newCol v.colName cells)
        l columns := by
  induction l generalizing columns with
  | nil => rfl
  | cons kv l ih =>
    obtain ⟨k, v⟩ := kv
    simp only [SubsetRows.intsLoop, SubsetRows.colsLoop, ih]
    cases SubsetRows.pick v rowNums [] <;> rfl

theorem SubsetRows.colsLoop_ok (g : column → Res column) (P : column → column → Prop)
    (l : List (String × column)) (columns : GoMap column)
    (hl : GoMap.WF l) (hsub : ∀ k ∈ GoMap.keys l, k ∈ columns.keys)
    (hg : ∀ kv ∈ l, ∃ col, g kv.2 = .ok col ∧ P kv.2 col) :
    ∃ out, SubsetRows.colsLoop g l columns = .ok out ∧ out.keys = columns.keys ∧
      (∀ k, GoMap.get? l k = none → out.get? k = columns.get? k) ∧
      (∀ k v, GoMap.get? l k = some v → ∃ col, out.get? k = some col ∧ P v col) := by
  induction l generalizing columns with
  | nil =>
    refine ⟨columns, rfl, rfl, fun _ _ => rfl, ?_⟩
    intro k v h
    simp [GoMap.get?] at h
  | cons kv l ih =>
    obtain ⟨k0, v0⟩ := kv
    have hnd : k0 ∉ GoMap.keys l ∧ (GoMap.keys l).Nodup := by
      simpa [GoMap.WF, GoMap.keys] using hl
    obtain ⟨col0, hg0, hP0⟩ := hg (k0, v0) (List.mem_cons_self _ _)
    have hk0 : k0 ∈ columns.keys := hsub k0 (by simp [GoMap.keys])
    have hkeys : (columns.set k0 col0).keys = columns.keys :=
      GoMap.keys_set_of_mem columns k0 col0 hk0
    obtain ⟨out, ho, hok, hnone, hsome⟩ := ih (columns.set k0 col0) hnd.2
      (fun k hk => by rw [hkeys]; exact hsub k (by simp [GoMap.keys] at hk ⊢; exact Or.inr hk))
      (fun kv hkv => hg kv (List.mem_cons_of_mem _ hkv))
    refine ⟨out, ?_, hok.trans hkeys, ?_, ?_⟩
    · show (g v0).bind _ = _
      rw [hg0]
      exact ho
    · intro k hk
      by_cases e : k0 = k
      · simp [GoMap.get?, e] at hk
      · simp only [GoMap.get?, e, if_false] at hk
        rw [hnone k hk, GoMap.get?_set]
        simp [e]
    · intro k v hk
      by_cases e : k0 = k
      · subst e
        simp only [GoMap.get?, if_true, Option.some.injEq] at hk
        subst hk
        have hn : GoMap.get? l k0 = none := (GoMap.get?_eq_none_iff l k0).2 hnd.1
        refine ⟨col0, ?_, hP0⟩
        rw [hnone k0 hn, GoMap.get?_set]
        simp
      · simp only [GoMap.get?, e, if_false] at hk
        exact hsome k v hk

theorem SubsetRows.ints_ok (df : DataFrame) (rowNums : List Int) (hwf : df.WF)
    (hne : rowNums ≠ []) (hlt : ∀ i ∈ rowNums, i < df.NRows) :
    ∃ out, df.SubsetRows (.ints rowNums) = .ok out ∧
      out.NRows = (rowNums.length : Int) ∧ out.colIndexs = df.colIndexs ∧
      out.Columns.keys = df.Columns.keys ∧
      ∀ k v, df.Columns.get? k = some v →
        ∃ col, out.Columns.get? k = some col ∧ col.colName = v.colName ∧
          col.colType = v.colType ∧ col.WF ∧ col.cells.length = rowNums.length ∧
          ∀ (j : Nat) (i : Int), rowNums[j]? = some i →
            col.cells[j]? = SubsetRows.cellAt v i := by
  have hlen : ¬ rowNums.length = 0 := by
    intro h; exact hne (List.length_eq_zero.1 h)
  have hany : (rowNums.any fun v => decide (v ≥ df.nRows)) = false := by
    rw [List.any_eq_false]
    intro x hx
    have := hlt x hx
    simp only [DataFrame.NRows] at this
    simp only [decide_eq_true_eq]
    omega
  obtain ⟨out, ho, hkeys, _, hsome⟩ := SubsetRows.colsLoop_ok
    (fun v => (SubsetRows.pick v rowNums []).bind fun cells => newCol v.colName cells)
    (fun v col => col.colName = v.colName ∧ col.colType = v.colType ∧ col.WF ∧
      col.cells.length = rowNums.length ∧
      ∀ (j : Nat) (i : Int), rowNums[j]? = some i → col.cells[j]? = SubsetRows.cellAt v i)
    df.Columns df.copy.Columns hwf.1
    (fun k hk => by
      simp only [DataFrame.copy]
      rw [GoMap.keys_mapVal]; exact hk)
    (fun kv hkv => by
      obtain ⟨hcw, hcl⟩ := hwf.2 kv hkv
      obtain ⟨cells, hp, hl, hgj, hm⟩ := SubsetRows.pick_ok kv.2 rowNums []
        (fun i hi => lt_of_lt_of_le (hlt i hi) hcl)
      have hcne : cells ≠ [] := by
        intro e
        rw [e] at hl
        exact hlen hl.symm
      obtain ⟨col, hc, hcc, hct, hcn, hcwf⟩ := newCol_ok kv.2.colName cells kv.2.colType hcne
        (fun x hx => by
          rcases hm x hx with e | e
          · rw [e]; exact hcw.1
          · exact hcw.2 x e)
      refine ⟨col, ?_, hcn, hct, hcwf, by rw [hcc]; exact hl, by rw [hcc]; exact hgj⟩
      show (SubsetRows.pick kv.2 rowNums []).bind _ = _
      rw [hp]
      exact hc)
  refine ⟨{ df.copy with nRows := (rowNums.length : Int), Columns := out }, ?_, rfl, rfl, ?_, ?_⟩
  · simp only [DataFrame.SubsetRows, hlen, if_false, hany, Bool.false_eq_true,
      SubsetRows.intsLoop_eq]
    rw [ho]
    rfl
  · show out.keys = _
    rw [hkeys]
    simp only [DataFrame.copy]
    exact GoMap.keys_mapVal _ _
  · intro k v hk
    exact hsome k v hk

theorem SubsetRows.range_ok (df : DataFrame) (s : R) (hwf : df.WF)
    (h1 : s.From < s.To) (h2 : s.To ≤ df.NRows) (h3 : 0 ≤ s.From) :
    ∃ out, df.SubsetRows (.range s) = .ok out ∧
      out.NRows = s.To - s.From ∧ out.colIndexs = df.colIndexs ∧
      out.Columns.keys = df.Columns.keys ∧
      ∀ k v, df.Columns.get? k = some v →
        ∃ col, out.Columns.get? k = some col ∧ col.colName = v.colName ∧
          col.colType = v.colType ∧ col.WF ∧
          col.cells = (v.cells.drop s.From.toNat).take (s.To.toNat - s.From.toNat) := by
  simp only [DataFrame.NRows] at h2
  have c1 : ¬ s.From > s.To := by omega
  have c2 : ¬ s.From = s.To := by omega
  have c3 : ¬ (s.To > df.nRows ∨ s.To < 0 ∨ s.From < 0) := by omega
  obtain ⟨out, ho, hkeys, _, hsome⟩ := SubsetRows.colsLoop_ok
    (fun v => (slice v.cells s).bind fun cells => newCol v.colName cells)
    (fun v col => col.colName = v.colName ∧ col.colType = v.colType ∧ col.WF ∧
      col.cells = (v.cells.drop s.From.toNat).take (s.To.toNat - s.From.toNat))
    df.Columns df.copy.Columns hwf.1
    (fun k hk => by
      simp only [DataFrame.copy]
      rw [GoMap.keys_mapVal]; exact hk)
    (fun kv hkv => by
      obtain ⟨hcw, hcl⟩ := hwf.2 kv hkv
      have hto : s.To.toNat ≤ kv.2.cells.length := by omega
      have hsl : slice kv.2.cells s =
          .ok ((kv.2.cells.drop s.From.toNat).take (s.To.toNat - s.From.toNat)) := by
        simp only [slice, hto, if_true]
      have hcne : (kv.2.cells.drop s.From.toNat).take (s.To.toNat - s.From.toNat) ≠ [] := by
        intro e
        have := congrArg List.length e
        simp only [List.length_take, List.length_drop, List.length_nil] at this
        omega
      obtain ⟨col, hc, hcc, hct, hcn, hcwf⟩ := newCol_ok kv.2.colName _ kv.2.colType hcne
        (fun x hx => hcw.2 x (List.mem_of_mem_drop (List.mem_of_mem_take hx)))
      refine ⟨col, ?_, hcn, hct, hcwf, hcc⟩
      show (slice kv.2.cells s).bind _ = _
      rw [hsl]
      exact hc)
  refine ⟨{ df.copy with nRows := s.To - s.From, Columns := out }, ?_, rfl, rfl, ?_, ?_⟩
  · simp only [DataFrame.SubsetRows, c1, c2, c3, if_false, SubsetRows.rangeLoop_eq]
    rw [ho]
    rfl
  · show out.keys = _
    rw [hkeys]
    simp only [DataFrame.copy]
    exact GoMap.keys_mapVal _ _
  · intro k v hk
    exact hsome k v hk

theorem FilterRows.loop_ok (col : column) (f : Cell → Bool) (l : List Nat) (acc : List Int)
    (h : ∀ i ∈ l, i < col.cells.length) :
    FilterRows.loop col f l acc =
      .ok (acc ++ List.map Int.ofNat (l.filter fun i => (col.cells[i]?).any f)) := by
  induction l generalizing acc with
  | nil => simp [FilterRows.loop]
  | cons i rest ih =>
    have hi := h i (List.mem_cons_self _ _)
    have hrest : ∀ i ∈ rest, i < col.cells.length :=
      fun x hx => h x (List.mem_cons_of_mem _ hx)
    have hget : col.cells[i]? = some col.cells[i] := List.getElem?_eq_getElem hi
    by_cases hf : f col.cells[i] = true
    · simp only [FilterRows.loop, hget, hf, if_true, ih _ hrest, List.filter_cons,
        Option.any_some, List.map_cons, List.append_assoc, List.singleton_append,
        Int.ofNat_eq_coe]
    · simp only [FilterRows.loop, hget, hf, if_false, ih _ hrest, List.filter_cons,
        Option.any_some, Bool.false_eq_true]

theorem FilterRows.matching_spec (c : column) (f : Cell → Bool) (n : Nat) :
    (∀ i, i ∈ FilterRows.matching c f n ↔
      i < n ∧ ∃ cell, c.cells[i]? = some cell ∧ f cell = true) ∧
    (FilterRows.matching c f n).Sorted (· < ·) := by
  constructor
  · intro i
    simp only [FilterRows.matching, List.mem_filter, List.mem_range]
    cases c.cells[i]? <;> simp
  · exact (List.sorted_lt_range n).filter _

theorem New.loop_nRows (k : Nat) (l : List C) (colLength : Int) (d out : DataFrame)
    (h : New.loop k l colLength d = .ok out) : out.nRows = d.nRows := by
  induction l generalizing k colLength d with
  | nil =>
    simp only [New.loop, Res.ok.injEq] at h
    rw [← h]
  | cons val rest ih =>
    simp only [New.loop] at h
    cases hc : newCol val.Colname val.Elements with
    | err m => rw [hc] at h; simp [Res.bind] at h
    | abort => rw [hc] at h; simp [Res.bind] at h
    | ok col =>
      rw [hc] at h
      simp only [Res.bind] at h
      split at h
      · exact (ih _ _ _ h).trans rfl
      · split at h
        · cases h
        · exact (ih _ _ _ h).trans rfl

theorem New_nRows_zero (colConst : List C) (out : DataFrame)
    (h : New colConst = .ok out) : out.NRows = 0 := by
  unfold New at h
  split at h
  · cases h
  · exact New.loop_nRows _ _ _ _ _ h

theorem GtCondition.Compare_int (lib : Lib) (c : String) (L v : Int) (h : Atoi c = some L) :
    GtCondition.Compare lib c (.int (some v)) "df.Int" = .ok (decide (L > v)) := by
  simp [GtCondition.Compare, h, Cell.asInt, deref, Res.bind]

theorem DivColumn.loop_unchanged (body : Nat → Res Cell) (d out : DataFrame) (l : List Nat)
    (h : DivColumn.loop body d l = .ok out) : out = d := by
  induction l with
  | nil =>
    simp only [DivColumn.loop, Res.ok.injEq] at h
    exact h.symm
  | cons i rest ih =>
    simp only [DivColumn.loop] at h
    cases hb : body i with
    | err m => rw [hb] at h; simp [Res.bind] at h
    | abort => rw [hb] at h; simp [Res.bind] at h
    | ok c =>
      rw [hb] at h
      exact ih h

theorem DivColumn_unchanged (lib : Lib) (d out : DataFrame) (a b : String)
    (h : d.DivColumn lib a b = .ok out) : out = d := by
  unfold DataFrame.DivColumn at h
  split at h
  · split at h
    · exact DivColumn.loop_unchanged _ _ _ _ h
    · split at h
      · exact DivColumn.loop_unchanged _ _ _ _ h
      · split at h
        · exact DivColumn.loop_unchanged _ _ _ _ h
        · split at h
          · exact DivColumn.loop_unchanged _ _ _ _ h
          · cases h
  · cases h

/-! ## Lemmas on the conditions, the dedup engine and `Rbind` -/

theorem Parse.list_never_error (ParseColumn : column → String → Res column)
    (types : List String) (l : List (String × Int)) (d : DataFrame) :
    (Parse.list ParseColumn types l d).isError = false := by
  induction l generalizing d with
  | nil => rfl
  | cons kv l ih =>
    obtain ⟨k, v⟩ := kv
    unfold Parse.list
    split
    · split
      · rfl
      · split
        · rfl
        · split
          · exact ih _
          · rfl
          · rfl
    · exact ih _

theorem EqCondition.eq_unknown (lib : Lib) (c : String) (v : Cell) (t : String)
    (ht : unknownType t) : EqCondition.Compare lib c v t = .ok false := by
  obtain ⟨h1, h2, h3, h4⟩ := ht
  simp only [EqCondition.Compare, h1, h2, h3, h4, if_false]

theorem GtCondition.gt_unknown (lib : Lib) (c : String) (v : Cell) (t : String)
    (ht : unknownType t) : GtCondition.Compare lib c v t = .ok false := by
  obtain ⟨h1, h2, h3, h4⟩ := ht
  simp only [GtCondition.Compare, h1, h2, h3, if_false]

theorem LtCondition.lt_unknown (lib : Lib) (c : String) (v : Cell) (t : String)
    (ht : unknownType t) : LtCondition.Compare lib c v t = .ok false := by
  obtain ⟨h1, h2, h3, h4⟩ := ht
  simp only [LtCondition.Compare, h1, h2, h3, if_false]

mutual
theorem Condition.Compare_unknown (lib : Lib) (v : Cell) (t : String) (ht : unknownType t) :
    ∀ c : Condition, Condition.Compare lib c v t = .ok (!c.hasLeaf)
  | .eq c => by
    simp only [Condition.Compare, Condition.hasLeaf, EqCondition.eq_unknown lib c v t ht]
    rfl
  | .gt c => by
    simp only [Condition.Compare, Condition.hasLeaf, GtCondition.gt_unknown lib c v t ht]
    rfl
  | .lt c => by
    simp only [Condition.Compare, Condition.hasLeaf, LtCondition.lt_unknown lib c v t ht]
    rfl
  | .ngt c => by
    simp only [Condition.Compare, Condition.hasLeaf, NgtCondition.Compare,
      LtCondition.lt_unknown lib c v t ht, EqCondition.eq_unknown lib c v t ht]
    rfl
  | .nlt c => by
    simp only [Condition.Compare, Condition.hasLeaf, NltCondition.Compare,
      GtCondition.gt_unknown lib c v t ht, EqCondition.eq_unknown lib c v t ht]
    rfl
  | .all cs => by
    simp only [Condition.Compare, Condition.hasLeaf]
    exact ArrayCondition.all_unknown lib v t ht cs
theorem ArrayCondition.all_unknown (lib : Lib) (v : Cell) (t : String)
    (ht : unknownType t) :
    ∀ cs : List Condition, ArrayCondition.Compare lib cs v t = .ok (!Condition.anyLeaf cs)
  | [] => by
    simp only [ArrayCondition.Compare, Condition.anyLeaf]
    rfl
  | c :: cs => by
    simp only [ArrayCondition.Compare, Condition.anyLeaf,
      Condition.Compare_unknown lib v t ht c, Res.bind]
    cases h : c.hasLeaf
    · simp only [Bool.not_false, Bool.not_true, Bool.false_eq_true, if_false, Bool.false_or]
      exact ArrayCondition.all_unknown lib v t ht cs
    · simp
end

theorem DataFrame.col_cells_typed (b : DataFrame) (hb : ∀ kv ∈ b.Columns, kv.2.WF)
    (k : String) : ∀ x ∈ (b.col k).copy.cells, x.typeName = (b.col k).colType := by
  intro x hx
  unfold DataFrame.col at hx ⊢
  cases hg : b.Columns.get? k with
  | none =>
    rw [hg] at hx
    simp [column.zero, column.copy] at hx
  | some c =>
    rw [hg] at hx
    simp only [Option.getD_some, column.copy, List.mem_map, Cell.Copy] at hx ⊢
    obtain ⟨y, hy, rfl⟩ := hx
    exact (hb (k, c) (GoMap.mem_of_get? _ k c hg)).2 y hy

theorem Rbind.loop_type_mismatch (a b : DataFrame) (hb : ∀ kv ∈ b.Columns, kv.2.WF)
    (l : List (String × Int)) (columns : GoMap column)
    (hsame : ∀ kv ∈ l, b.colIndexs.get? kv.1 = some kv.2)
    (hmis : ∃ kv ∈ l, (a.col kv.1).colType ≠ (b.col kv.1).colType) :
    Rbind.loop a b l columns = .err "Mismatching column types" := by
  induction l generalizing columns with
  | nil =>
    obtain ⟨kv, hkv, _⟩ := hmis
    simp at hkv
  | cons kv l ih =>
    obtain ⟨k, v⟩ := kv
    have hk : b.colIndexs.get? k = some v := hsame (k, v) (List.mem_cons_self _ _)
    unfold Rbind.loop
    simp only [hk, ne_eq, not_true_eq_false, if_false]
    by_cases ht : (a.col k).colType = (b.col k).colType
    · have happ : (a.col k).copy.append (b.col k).copy.cells =
          .ok { (a.col k).copy with cells := (a.col k).copy.cells ++ (b.col k).copy.cells } := by
        have hall : ((b.col k).copy.cells.all fun x =>
            decide (x.typeName = (a.col k).copy.colType)) = true := by
          rw [List.all_eq_true]
          intro x hx
          have := DataFrame.col_cells_typed b hb k x hx
          simp only [column.copy, decide_eq_true_eq]
          rw [this, ht]
        simp only [column.append, hall, if_true]
      simp only [ht, not_true_eq_false, if_false, happ, Res.bind]
      apply ih
      · intro kv hkv
        exact hsame kv (List.mem_cons_of_mem _ hkv)
      · obtain ⟨kv, hkv, hne⟩ := hmis
        rcases List.mem_cons.1 hkv with e | e
        · subst e
          exact absurd ht hne
        · exact ⟨kv, e, hne⟩
    · simp only [ht, not_false_eq_true, if_true]

theorem Cell.map_Copy (l : List Cell) : l.map Cell.Copy = l := by
  induction l with
  | nil => rfl
  | cons c l ih => simp [Cell.Copy, ih]

theorem ConditionRows.valid_ok (lib : Lib) (d : DataFrame) (i : Nat)
    (l : List (String × Condition))
    (hcols : ∀ kc ∈ l, ∃ col, d.Columns.get? kc.1 = some col ∧ i < col.cells.length)
    (hev : ConditionRows.evaluates lib d l) :
    ConditionRows.valid lib d i l = .ok (l.all (ConditionRows.holds lib d i)) := by
  induction l with
  | nil => rfl
  | cons kc l ih =>
    obtain ⟨k, c⟩ := kc
    obtain ⟨col, hcol, hi⟩ := hcols (k, c) (List.mem_cons_self _ _)
    have hcell : col.cells[i]? = some col.cells[i] := List.getElem?_eq_getElem hi
    have hcolk : d.col k = col := by simp [DataFrame.col, hcol]
    have hret := hev (k, c) (List.mem_cons_self _ _) col.cells[i]
      (by rw [hcolk]; exact List.getElem_mem hi)
    rw [hcolk] at hret
    have ih2 := ih (fun kc hkc => hcols kc (List.mem_cons_of_mem _ hkc))
      (fun kc hkc => hev kc (List.mem_cons_of_mem _ hkc))
    simp only [ConditionRows.valid, hcol, hcell, List.all_cons, ConditionRows.holds]
    cases hc : c.Compare lib col.cells[i] col.colType with
    | err m => rw [hc] at hret; simp [Res.toOption] at hret
    | abort => rw [hc] at hret; simp [Res.toOption] at hret
    | ok b =>
      cases b
      · simp [Res.bind]
      · simp only [Res.bind, Bool.not_true, Bool.false_eq_true, if_false, ih2, decide_True,
          Bool.true_and]

theorem ConditionRows.rows_loop_ok (lib : Lib) (d : DataFrame) (cs : GoMap Condition)
    (l : List Nat) (acc : List Int)
    (h : ∀ i ∈ l, ConditionRows.valid lib d i cs = .ok (cs.all (ConditionRows.holds lib d i))) :
    ConditionRows.loop lib d cs l acc =
      .ok (acc ++ List.map Int.ofNat
        (l.filter fun i => cs.all (ConditionRows.holds lib d i))) := by
  induction l generalizing acc with
  | nil => simp [ConditionRows.loop]
  | cons i rest ih =>
    have hi := h i (List.mem_cons_self _ _)
    have hrest := ih (h := fun x hx => h x (List.mem_cons_of_mem _ hx))
    by_cases hv : cs.all (ConditionRows.holds lib d i) = true
    · simp only [ConditionRows.loop, hi, Res.bind, hv, if_true, hrest, List.filter_cons,
        List.map_cons, List.append_assoc, List.singleton_append, Int.ofNat_eq_coe]
    · simp only [ConditionRows.loop, hi, Res.bind, hv, if_false, hrest, List.filter_cons,
        Bool.false_eq_true]

theorem ConditionRows.matching_rows_spec (lib : Lib) (d : DataFrame) (cs : GoMap Condition)
    (n : Nat) :
    (∀ i, i ∈ ConditionRows.matching lib d cs n ↔
      i < n ∧ ∀ kc ∈ cs, ∃ col cell, d.Columns.get? kc.1 = some col ∧
        col.cells[i]? = some cell ∧ kc.2.Compare lib cell col.colType = .ok true) ∧
    (ConditionRows.matching lib d cs n).Sorted (· < ·) := by
  constructor
  · intro i
    simp only [ConditionRows.matching, List.mem_filter, List.mem_range, List.all_eq_true]
    constructor
    · rintro ⟨hi, hall⟩
      refine ⟨hi, fun kc hkc => ?_⟩
      have := hall kc hkc
      unfold ConditionRows.holds at this
      cases hg : d.Columns.get? kc.1 with
      | none => rw [hg] at this; simp at this
      | some col =>
        rw [hg] at this
        simp only at this
        cases hc : col.cells[i]? with
        | none => rw [hc] at this; simp at this
        | some cell =>
          rw [hc] at this
          exact ⟨col, cell, rfl, hc, by simpa using this⟩
    · rintro ⟨hi, hall⟩
      refine ⟨hi, fun kc hkc => ?_⟩
      obtain ⟨col, cell, hg, hc, hcmp⟩ := hall kc hkc
      simp [ConditionRows.holds, hg, hc, hcmp]
  · exact (List.sorted_lt_range n).filter _

theorem ConditionRows.run (lib : Lib) (d : DataFrame) (cs : GoMap Condition) (hwf : d.WF)
    (hne : cs ≠ [])
    (hcols : ∀ kc ∈ cs, (d.Columns.get? kc.1).isSome = true)
    (hev : ConditionRows.evaluates lib d cs) :
    d.ConditionRows lib cs =
      d.SubsetRows (.ints (List.map Int.ofNat (ConditionRows.matching lib d cs d.NRows.toNat))) := by
  have hlen : ¬ cs.length = 0 := fun h => hne (List.length_eq_zero.1 h)
  have hloop := ConditionRows.rows_loop_ok lib d cs (List.range d.NRows.toNat) []
    (fun i hi => ConditionRows.valid_ok lib d i cs
      (fun kc hkc => by
        cases hg : d.Columns.get? kc.1 with
        | none =>
          have := hcols kc hkc
          simp [hg] at this
        | some col =>
          have hl : d.nRows ≤ (col.cells.length : Int) :=
            (hwf.2 (kc.1, col) (GoMap.mem_of_get? _ kc.1 col hg)).2
          have := List.mem_range.1 hi
          simp only [DataFrame.NRows] at this
          exact ⟨col, rfl, by omega⟩)
      hev)
  simp only [DataFrame.ConditionRows, hlen, if_false, hloop, Res.bind, List.nil_append]
  rfl

theorem GoMap.set_of_not_mem {β : Type} (m : GoMap β) (k : String) (x : β)
    (h : k ∉ m.keys) : m.set k x = m ++ [(k, x)] := by
  induction m with
  | nil => rfl
  | cons kv m ih =>
    obtain ⟨k0, v0⟩ := kv
    have h0 : ¬ k0 = k := fun e => h (by simp [GoMap.keys, e])
    have h1 : k ∉ GoMap.keys m := fun e => h (by
      simp only [GoMap.keys, List.map_cons, List.mem_cons]
      exact Or.inr e)
    simp only [GoMap.set, h0, if_false, ih h1, List.cons_append]

theorem GoMap.mem_set {β : Type} (m : GoMap β) (hm : m.WF) (k : String) (x : β)
    (s : String) (v : β) (h : (s, v) ∈ m.set k x) :
    (s = k ∧ v = x) ∨ ((s, v) ∈ m ∧ s ≠ k) := by
  induction m with
  | nil =>
    simp only [GoMap.set, List.mem_singleton, Prod.mk.injEq] at h
    exact Or.inl h
  | cons kv m ih =>
    obtain ⟨k0, v0⟩ := kv
    have hnd : k0 ∉ GoMap.keys m ∧ (GoMap.keys m).Nodup := by
      simpa [GoMap.WF, GoMap.keys] using hm
    by_cases h0 : k0 = k
    · subst h0
      simp only [GoMap.set, if_true, List.mem_cons, Prod.mk.injEq] at h
      rcases h with h | h
      · exact Or.inl h
      · refine Or.inr ⟨List.mem_cons_of_mem _ h, ?_⟩
        intro e
        subst e
        exact hnd.1 (List.mem_map.2 ⟨(s, v), h, rfl⟩)
    · simp only [GoMap.set, h0, if_false, List.mem_cons, Prod.mk.injEq] at h
      rcases h with h | h
      · refine Or.inr ⟨by simp [h.1, h.2], ?_⟩
        rw [h.1]
        exact h0
      · rcases ih hnd.2 h with h2 | h2
        · exact Or.inl h2
        · exact Or.inr ⟨List.mem_cons_of_mem _ h2.1, h2.2⟩

theorem GoMap.mem_set_self {β : Type} (m : GoMap β) (k : String) (x : β) :
    (k, x) ∈ m.set k x := by
  induction m with
  | nil => simp [GoMap.set]
  | cons kv m ih =>
    obtain ⟨k0, v0⟩ := kv
    by_cases h0 : k0 = k
    · simp [GoMap.set, h0]
    · simp only [GoMap.set, h0, if_false]
      exact List.mem_cons_of_mem _ ih

theorem GoMap.WF_set {β : Type} (m : GoMap β) (hm : m.WF) (k : String) (x : β) :
    (m.set k x).WF := by
  by_cases h : k ∈ m.keys
  · unfold GoMap.WF
    rw [GoMap.keys_set_of_mem m k x h]
    exact hm
  · unfold GoMap.WF
    rw [GoMap.set_of_not_mem m k x h]
    simp only [GoMap.keys, List.map_append, List.map_cons, List.map_nil]
    rw [List.nodup_append]
    refine ⟨hm, by simp, ?_⟩
    intro a ha hb
    simp only [List.mem_singleton] at hb
    subst hb
    exact h ha

theorem GoMap.keys_set_subset {β : Type} (m : GoMap β) (k : String) (x : β) (s : String)
    (h : s ∈ m.keys) : s ∈ (m.set k x).keys := by
  by_cases hk : k ∈ m.keys
  · rw [GoMap.keys_set_of_mem m k x hk]
    exact h
  · rw [GoMap.set_of_not_mem m k x hk]
    simp only [GoMap.keys, List.map_append, List.mem_append]
    exact Or.inl h

theorem GoMap.key_mem_set {β : Type} (m : GoMap β) (k : String) (x : β) :
    k ∈ (m.set k x).keys :=
  List.mem_map.2 ⟨(k, x), GoMap.mem_set_self m k x, rfl⟩

theorem uniqueRowsMap.Inv_step (fp : Nat → String) (done : List Nat) (m : GoMap u)
    (i : Nat) (hinv : uniqueRowsMap.Inv fp done m) :
    uniqueRowsMap.Inv fp (done ++ [i])
      (match m.get? (fp i) with
        | some a => m.set (fp i) { unique := false, appears := a.appears ++ [(i : Int)] }
        | none => m.set (fp i) { unique := true, appears := [(i : Int)] }) := by
  obtain ⟨hwf, hkeys, hgroups⟩ := hinv
  have hkeys2 : ∀ (x : u), ∀ j ∈ done ++ [i], fp j ∈ (m.set (fp i) x).keys := by
    intro x j hj
    rcases List.mem_append.1 hj with h | h
    · exact GoMap.keys_set_subset m _ _ _ (hkeys j h)
    · simp only [List.mem_singleton] at h
      subst h
      exact GoMap.key_mem_set m _ _
  have hother : ∀ s, s ≠ fp i →
      (done ++ [i]).filter (fun j => fp j = s) = done.filter (fun j => fp j = s) := by
    intro s hs
    have : ¬ fp i = s := fun e => hs e.symm
    simp [List.filter_append, List.filter_cons, this]
  have hself : (done ++ [i]).filter (fun j => fp j = fp i)
      = done.filter (fun j => fp j = fp i) ++ [i] := by
    simp [List.filter_append, List.filter_cons]
  cases hg : m.get? (fp i) with
  | some a =>
    have ha := hgroups (fp i, a) (GoMap.mem_of_get? _ _ _ hg)
    refine ⟨GoMap.WF_set m hwf _ _, hkeys2 _, ?_⟩
    intro sv hsv
    rcases GoMap.mem_set m hwf _ _ sv.1 sv.2 hsv with ⟨h1, h2⟩ | ⟨h1, h2⟩
    · rw [h2, h1]
      refine ⟨?_, by simp, ?_⟩
      · have ha1 : a.appears = List.map Int.ofNat (done.filter fun j => fp j = fp i) := ha.1
        simp only [hself, List.map_append, List.map_cons, List.map_nil, Int.ofNat_eq_coe]
        rw [ha1]
      · have : a.appears.length ≠ 0 := fun e => ha.2.1 (List.length_eq_zero.1 e)
        simp only [List.length_append, List.length_singleton, Bool.false_eq_true, false_iff]
        omega
    · have := hgroups sv h1
      rw [hother sv.1 h2]
      exact this
  | none =>
    have hnk : fp i ∉ m.keys := (GoMap.get?_eq_none_iff _ _).1 hg
    refine ⟨GoMap.WF_set m hwf _ _, hkeys2 _, ?_⟩
    intro sv hsv
    rcases GoMap.mem_set m hwf _ _ sv.1 sv.2 hsv with ⟨h1, h2⟩ | ⟨h1, h2⟩
    · rw [h2, h1]
      have hnone : done.filter (fun j => fp j = fp i) = [] := by
        rw [List.filter_eq_nil_iff]
        intro j hj
        simp only [decide_eq_true_eq]
        intro e
        exact hnk (e ▸ hkeys j hj)
      refine ⟨?_, by simp, by simp⟩
      simp only [hself, hnone, List.nil_append, List.map_cons, List.map_nil, Int.ofNat_eq_coe]
    · have := hgroups sv h1
      rw [hother sv.1 h2]
      exact this

theorem uniqueRowsMap.fingerprint_ok (cksum : Cell → String) (cols : List (String × column))
    (i : Nat) (acc : String) (h : ∀ kv ∈ cols, i < kv.2.cells.length) :
    ∃ s, uniqueRowsMap.fingerprint cksum cols i acc = .ok s := by
  induction cols generalizing acc with
  | nil => exact ⟨acc, rfl⟩
  | cons kv cols ih =>
    obtain ⟨k, v⟩ := kv
    have hi : i < v.cells.length := h (k, v) (List.mem_cons_self _ _)
    have hget : v.cells[i]? = some v.cells[i] := List.getElem?_eq_getElem hi
    simp only [uniqueRowsMap.fingerprint, hget]
    exact ih _ (fun kv hkv => h kv (List.mem_cons_of_mem _ hkv))

theorem uniqueRowsMap.fingerprint_eq_fp (cksum : Cell → String)
    (ord : Nat → GoMap column → GoMap column) (d : DataFrame) (hwf : d.WF)
    (hord : ∀ i, (ord i d.Columns).Perm d.Columns) (i : Nat) (hi : i < d.NRows.toNat) :
    uniqueRowsMap.fingerprint cksum (ord i d.Columns) i "" = .ok (uniqueRowsMap.fp cksum ord d i) := by
  obtain ⟨s, hs⟩ := uniqueRowsMap.fingerprint_ok cksum (ord i d.Columns) i ""
    (fun kv hkv => by
      have hl : d.nRows ≤ (kv.2.cells.length : Int) :=
        (hwf.2 kv ((hord i).subset hkv)).2
      simp only [DataFrame.NRows] at hi
      omega)
  simp only [uniqueRowsMap.fp, hs, Res.toOption, Option.getD_some]

theorem uniqueRowsMap.loop_inv (cksum : Cell → String)
    (ord : Nat → GoMap column → GoMap column) (d : DataFrame) (fp : Nat → String)
    (rest done : List Nat) (m : GoMap u)
    (hfp : ∀ i ∈ rest, uniqueRowsMap.fingerprint cksum (ord i d.Columns) i "" = .ok (fp i))
    (hinv : uniqueRowsMap.Inv fp done m) :
    ∃ m2, uniqueRowsMap.loop cksum ord d rest m = .ok m2 ∧
      uniqueRowsMap.Inv fp (done ++ rest) m2 := by
  induction rest generalizing done m with
  | nil => exact ⟨m, rfl, by simpa using hinv⟩
  | cons i rest ih =>
    have hi := hfp i (List.mem_cons_self _ _)
    have hstep := uniqueRowsMap.Inv_step fp done m i hinv
    have hrest : ∀ j ∈ rest,
        uniqueRowsMap.fingerprint cksum (ord j d.Columns) j "" = .ok (fp j) :=
      fun j hj => hfp j (List.mem_cons_of_mem _ hj)
    simp only [uniqueRowsMap.loop, hi, Res.bind]
    cases hg : m.get? (fp i) with
    | some a =>
      rw [hg] at hstep
      obtain ⟨m2, h1, h2⟩ := ih (done ++ [i]) _ hrest hstep
      exact ⟨m2, h1, by simpa using h2⟩
    | none =>
      rw [hg] at hstep
      obtain ⟨m2, h1, h2⟩ := ih (done ++ [i]) _ hrest hstep
      exact ⟨m2, h1, by simpa using h2⟩

theorem uniqueRowsMap.groups (cksum : Cell → String)
    (ord : Nat → GoMap column → GoMap column) (d : DataFrame) (hwf : d.WF)
    (hord : ∀ i, (ord i d.Columns).Perm d.Columns) :
    ∃ m, uniqueRowsMap cksum ord d = .ok m ∧
      uniqueRowsMap.Inv (uniqueRowsMap.fp cksum ord d) (List.range d.NRows.toNat) m := by
  obtain ⟨m, h1, h2⟩ := uniqueRowsMap.loop_inv cksum ord d (uniqueRowsMap.fp cksum ord d)
    (List.range d.NRows.toNat) [] []
    (fun i hi => uniqueRowsMap.fingerprint_eq_fp cksum ord d hwf hord i (List.mem_range.1 hi))
    ⟨by simp [GoMap.WF, GoMap.keys], by simp, by simp⟩
  exact ⟨m, h1, by simpa using h2⟩

theorem uniqueRowsMap.allRows_perm (fp : Nat → String) (m : GoMap u) (L : List Nat)
    (hinv : uniqueRowsMap.Inv fp L m) :
    (uniqueRowsMap.allRows m).Perm (List.map Int.ofNat L) := by
  induction m generalizing L with
  | nil =>
    obtain ⟨_, hkeys, _⟩ := hinv
    cases L with
    | nil => simp [uniqueRowsMap.allRows]
    | cons j L =>
      have := hkeys j (List.mem_cons_self _ _)
      simp [GoMap.keys] at this
  | cons sv m ih =>
    obtain ⟨hwf, hkeys, hgroups⟩ := hinv
    obtain ⟨s, v⟩ := sv
    have hnd : s ∉ GoMap.keys m ∧ (GoMap.keys m).Nodup := by
      simpa [GoMap.WF, GoMap.keys] using hwf
    have hv := hgroups (s, v) (List.mem_cons_self _ _)
    have hv1 : v.appears = List.map Int.ofNat (L.filter fun j => fp j = s) := hv.1
    have hinv2 : uniqueRowsMap.Inv fp (L.filter fun j => !decide (fp j = s)) m := by
      refine ⟨hnd.2, ?_, ?_⟩
      · intro j hj
        obtain ⟨hjL, hjs⟩ := List.mem_filter.1 hj
        have hk := hkeys j hjL
        simp only [GoMap.keys, List.map_cons, List.mem_cons] at hk
        rcases hk with e | e
        · simp [e] at hjs
        · exact e
      · intro sv hsv
        have hne : sv.1 ≠ s := by
          intro e
          exact hnd.1 (e ▸ List.mem_map.2 ⟨sv, hsv, rfl⟩)
        have h := hgroups sv (List.mem_cons_of_mem _ hsv)
        have hf : (L.filter fun j => !decide (fp j = s)).filter (fun j => fp j = sv.1)
            = L.filter (fun j => fp j = sv.1) := by
          rw [List.filter_filter]
          apply List.filter_congr
          intro j _
          by_cases e : fp j = sv.1
          · have : ¬ fp j = s := fun e2 => hne (e.symm.trans e2)
            simp [e, hne]
          · simp [e]
        rw [hf]
        exact h
    have hrec := ih _ hinv2
    simp only [uniqueRowsMap.allRows, hv1]
    have hp := List.filter_append_perm (fun j => decide (fp j = s)) L
    have hp2 := hp.map Int.ofNat
    rw [List.map_append] at hp2
    exact (List.Perm.append_left _ hrec).trans hp2

theorem uniqueRowsMap.split (m : GoMap u)
    (h : ∀ sv ∈ m, sv.2.appears ≠ [] ∧ (sv.2.unique = true ↔ sv.2.appears.length = 1)) :
    ∃ U D, (∀ acc, Unique.appears m acc = .ok (acc ++ U)) ∧
      (∀ acc, RemoveUnique.appears m acc = .ok (acc ++ D)) ∧
      (U ++ D).Perm (uniqueRowsMap.allRows m) ∧
      (∀ r, r ∈ U ↔ ∃ sv ∈ m, sv.2.unique = true ∧ r ∈ sv.2.appears) ∧
      (∀ r, r ∈ D ↔ ∃ sv ∈ m, sv.2.unique = false ∧ r ∈ sv.2.appears) := by
  induction m with
  | nil =>
    exact ⟨[], [], fun acc => by simp [Unique.appears], fun acc => by simp [RemoveUnique.appears],
      by simp [uniqueRowsMap.allRows], by simp, by simp⟩
  | cons sv m ih =>
    obtain ⟨s, v⟩ := sv
    obtain ⟨U, D, hU, hD, hp, hmU, hmD⟩ := ih (fun sv hsv => h sv (List.mem_cons_of_mem _ hsv))
    obtain ⟨hne, huniq⟩ := h (s, v) (List.mem_cons_self _ _)
    cases hu : v.unique with
    | true =>
      have hlen : v.appears.length = 1 := huniq.1 hu
      obtain ⟨x, hx⟩ : ∃ x, v.appears = [x] := List.length_eq_one.1 hlen
      refine ⟨x :: U, D, ?_, ?_, ?_, ?_, ?_⟩
      · intro acc
        simp only [Unique.appears, hu, if_true, hx, List.getElem?_cons_zero, hU]
        simp
      · intro acc
        simp only [RemoveUnique.appears, hu, Bool.not_true, Bool.false_eq_true, if_false, hD]
      · simp only [uniqueRowsMap.allRows, hx, List.cons_append, List.nil_append]
        exact List.Perm.cons x hp
      · intro r
        simp only [List.mem_cons, hmU]
        constructor
        · rintro (e | ⟨sv, hsv, h1, h2⟩)
          · exact ⟨(s, v), Or.inl rfl, hu, by simp [hx, e]⟩
          · exact ⟨sv, Or.inr hsv, h1, h2⟩
        · rintro ⟨sv, hsv | hsv, h1, h2⟩
          · subst hsv
            simp only [hx, List.mem_singleton] at h2
            exact Or.inl h2
          · exact Or.inr ⟨sv, hsv, h1, h2⟩
      · intro r
        simp only [hmD, List.mem_cons]
        constructor
        · rintro ⟨sv, hsv, h1, h2⟩
          exact ⟨sv, Or.inr hsv, h1, h2⟩
        · rintro ⟨sv, hsv | hsv, h1, h2⟩
          · subst hsv
            simp [hu] at h1
          · exact ⟨sv, hsv, h1, h2⟩
    | false =>
      refine ⟨U, v.appears ++ D, ?_, ?_, ?_, ?_, ?_⟩
      · intro acc
        simp only [Unique.appears, hu, Bool.false_eq_true, if_false, hU]
      · intro acc
        simp only [RemoveUnique.appears, hu, Bool.not_false, if_true, hD, List.append_assoc]
      · simp only [uniqueRowsMap.allRows]
        have h1 : (U ++ (v.appears ++ D)).Perm (v.appears ++ (U ++ D)) := by
          rw [← List.append_assoc, ← List.append_assoc]
          exact List.Perm.append_right _ List.perm_append_comm
        exact h1.trans (List.Perm.append_left _ hp)
      · intro r
        simp only [hmU, List.mem_cons]
        constructor
        · rintro ⟨sv, hsv, h1, h2⟩
          exact ⟨sv, Or.inr hsv, h1, h2⟩
        · rintro ⟨sv, hsv | hsv, h1, h2⟩
          · subst hsv
            simp [hu] at h1
          · exact ⟨sv, hsv, h1, h2⟩
      · intro r
        simp only [List.mem_append, hmD, List.mem_cons]
        constructor
        · rintro (e | ⟨sv, hsv, h1, h2⟩)
          · exact ⟨(s, v), Or.inl rfl, hu, e⟩
          · exact ⟨sv, Or.inr hsv, h1, h2⟩
        · rintro ⟨sv, hsv | hsv, h1, h2⟩
          · subst hsv
            exact Or.inl h2
          · exact Or.inr ⟨sv, hsv, h1, h2⟩

theorem filter_length_one_iff (L : List Nat) (hL : L.Nodup) (p : Nat → Bool) (i : Nat)
    (hi : i ∈ L) (hp : p i = true) :
    (L.filter p).length = 1 ↔ ∀ j ∈ L, p j = true → j = i := by
  have hmem : i ∈ L.filter p := List.mem_filter.2 ⟨hi, hp⟩
  have hnd : (L.filter p).Nodup := hL.filter _
  constructor
  · intro h j hj hpj
    obtain ⟨x, hx⟩ := List.length_eq_one.1 h
    have h1 : j ∈ L.filter p := List.mem_filter.2 ⟨hj, hpj⟩
    rw [hx] at hmem h1
    simp only [List.mem_singleton] at hmem h1
    rw [h1, hmem]
  · intro h
    cases hf : L.filter p with
    | nil => rw [hf] at hmem; simp at hmem
    | cons x tl =>
      cases tl with
      | nil => rfl
      | cons y tl =>
        rw [hf] at hnd
        have hx : x = i := by
          have : x ∈ L.filter p := by rw [hf]; simp
          exact h x (List.mem_filter.1 this).1 (List.mem_filter.1 this).2
        have hy : y = i := by
          have : y ∈ L.filter p := by rw [hf]; simp
          exact h y (List.mem_filter.1 this).1 (List.mem_filter.1 this).2
        have : x ≠ y := by
          intro e
          simp [e] at hnd
        exact absurd (hx.trans hy.symm) this

theorem uniqueRowsMap.group_of_row (fp : Nat → String) (L : List Nat) (m : GoMap u)
    (hinv : uniqueRowsMap.Inv fp L m) (i : Nat) (hi : i ∈ L) :
    ∃ v, (fp i, v) ∈ m ∧ (i : Int) ∈ v.appears := by
  obtain ⟨_, hkeys, hgroups⟩ := hinv
  obtain ⟨sv, hsv, hk⟩ := List.mem_map.1 (hkeys i hi)
  obtain ⟨s, v⟩ := sv
  simp only at hk
  subst hk
  refine ⟨v, hsv, ?_⟩
  rw [(hgroups (fp i, v) hsv).1]
  exact List.mem_map.2 ⟨i, List.mem_filter.2 ⟨hi, by simp⟩, rfl⟩

theorem uniqueRowsMap.row_in_group (fp : Nat → String) (L : List Nat) (m : GoMap u)
    (hinv : uniqueRowsMap.Inv fp L m) (sv : String × u) (hsv : sv ∈ m) (i : Nat)
    (hr : (i : Int) ∈ sv.2.appears) : i ∈ L ∧ fp i = sv.1 := by
  obtain ⟨_, _, hgroups⟩ := hinv
  rw [(hgroups sv hsv).1] at hr
  obtain ⟨j, hj, e⟩ := List.mem_map.1 hr
  have : j = i := by simpa using e
  subst this
  obtain ⟨h1, h2⟩ := List.mem_filter.1 hj
  exact ⟨h1, by simpa using h2⟩

theorem uniqueRowsMap.unique_iff (fp : Nat → String) (L : List Nat) (hL : L.Nodup)
    (m : GoMap u) (hinv : uniqueRowsMap.Inv fp L m) (sv : String × u) (hsv : sv ∈ m)
    (i : Nat) (hr : (i : Int) ∈ sv.2.appears) :
    sv.2.unique = true ↔ ∀ j ∈ L, fp j = fp i → j = i := by
  obtain ⟨hiL, hfi⟩ := uniqueRowsMap.row_in_group fp L m hinv sv hsv i hr
  obtain ⟨_, _, hgroups⟩ := hinv
  obtain ⟨ha, _, hu⟩ := hgroups sv hsv
  rw [hu, ha, List.length_map, ← hfi,
    filter_length_one_iff L hL (fun j => decide (fp j = fp i)) i hiL (by simp)]
  simp

theorem uniqueRowsMap.mem_WF_unique (m : GoMap u) (hm : m.WF) (s : String) (v w : u)
    (hv : (s, v) ∈ m) (hw : (s, w) ∈ m) : v = w := by
  have h1 := GoMap.get?_of_mem m hm s v hv
  have h2 := GoMap.get?_of_mem m hm s w hw
  rw [h1] at h2
  exact Option.some.inj h2

theorem head?_filter_sorted (L : List Nat) (hL : L.Sorted (· < ·)) (p : Nat → Bool) (i : Nat) :
    (L.filter p).head? = some i ↔ i ∈ L ∧ p i = true ∧ ∀ j ∈ L, j < i → p j = false := by
  induction L with
  | nil => simp
  | cons x L ih =>
    have hx : ∀ y ∈ L, x < y := List.rel_of_sorted_cons hL
    have hL2 : L.Sorted (· < ·) := hL.of_cons
    by_cases hp : p x = true
    · simp only [List.filter_cons, hp, if_true, List.head?_cons, Option.some.injEq]
      constructor
      · intro e
        subst e
        refine ⟨List.mem_cons_self _ _, hp, ?_⟩
        intro j hj hlt
        rcases List.mem_cons.1 hj with e | e
        · omega
        · have := hx j e
          omega
      · rintro ⟨hi, _, hall⟩
        rcases List.mem_cons.1 hi with e | e
        · exact e.symm
        · have h1 := hall x (List.mem_cons_self _ _) (hx i e)
          rw [hp] at h1
          exact absurd h1 (by simp)
    · have hpf : p x = false := by simpa using hp
      simp only [List.filter_cons, hpf, Bool.false_eq_true, if_false, ih hL2]
      constructor
      · rintro ⟨hi, hpi, hall⟩
        refine ⟨List.mem_cons_of_mem _ hi, hpi, ?_⟩
        intro j hj hlt
        rcases List.mem_cons.1 hj with e | e
        · rw [e]; exact hpf
        · exact hall j e hlt
      · rintro ⟨hi, hpi, hall⟩
        rcases List.mem_cons.1 hi with e | e
        · rw [e, hpf] at hpi
          exact absurd hpi (by simp)
        · exact ⟨e, hpi, fun j hj hlt => hall j (List.mem_cons_of_mem _ hj) hlt⟩

theorem RemoveDuplicated.appears_ok (m : GoMap u) (h : ∀ sv ∈ m, sv.2.appears ≠ []) :
    ∃ R, (∀ acc, RemoveDuplicated.appears m acc = .ok (acc ++ R)) ∧
      R.length = m.length ∧
      (∀ r, r ∈ R ↔ ∃ sv ∈ m, sv.2.appears.head? = some r) ∧
      R.Sublist (uniqueRowsMap.allRows m) := by
  induction m with
  | nil =>
    exact ⟨[], fun acc => by simp [RemoveDuplicated.appears], rfl, by simp,
      by simp [uniqueRowsMap.allRows]⟩
  | cons sv m ih =>
    obtain ⟨s, v⟩ := sv
    obtain ⟨R, hR, hlen, hmem, hsub⟩ := ih (fun sv hsv => h sv (List.mem_cons_of_mem _ hsv))
    have hne := h (s, v) (List.mem_cons_self _ _)
    obtain ⟨x, tl, hx⟩ : ∃ x tl, v.appears = x :: tl := by
      cases hv : v.appears with
      | nil => exact absurd hv hne
      | cons x tl => exact ⟨x, tl, rfl⟩
    refine ⟨x :: R, ?_, by simp [hlen], ?_, ?_⟩
    · intro acc
      simp only [RemoveDuplicated.appears, hx, List.getElem?_cons_zero, hR]
      simp
    · intro r
      simp only [List.mem_cons, hmem]
      constructor
      · rintro (e | ⟨sv, hsv, h1⟩)
        · exact ⟨(s, v), Or.inl rfl, by simp [hx, e]⟩
        · exact ⟨sv, Or.inr hsv, h1⟩
      · rintro ⟨sv, hsv | hsv, h1⟩
        · subst hsv
          simp only [hx, List.head?_cons, Option.some.injEq] at h1
          exact Or.inl h1.symm
        · exact Or.inr ⟨sv, hsv, h1⟩
    · simp only [uniqueRowsMap.allRows, hx, List.cons_append]
      exact List.Sublist.cons₂ x (List.Sublist.trans hsub (List.sublist_append_right _ _))

theorem uniqueRowsMap.keys_card (fp : Nat → String) (n : Nat) (m : GoMap u)
    (hinv : uniqueRowsMap.Inv fp (List.range n) m) :
    m.length = ((Finset.range n).image fp).card := by
  obtain ⟨hwf, hkeys, hgroups⟩ := hinv
  have h1 : m.length = (GoMap.keys m).length := by simp [GoMap.keys]
  have h2 : (GoMap.keys m).toFinset = (Finset.range n).image fp := by
    ext s
    simp only [List.mem_toFinset, Finset.mem_image, Finset.mem_range]
    constructor
    · intro hs
      obtain ⟨sv, hsv, e⟩ := List.mem_map.1 hs
      obtain ⟨ha, hne, _⟩ := hgroups sv hsv
      obtain ⟨r, hr⟩ := List.exists_mem_of_ne_nil _ hne
      rw [ha] at hr
      obtain ⟨j, hj, _⟩ := List.mem_map.1 hr
      obtain ⟨hj1, hj2⟩ := List.mem_filter.1 hj
      exact ⟨j, List.mem_range.1 hj1, by rw [← e]; simpa using hj2⟩
    · rintro ⟨j, hj, e⟩
      rw [← e]
      exact hkeys j (List.mem_range.2 hj)
  rw [h1, ← h2, List.toFinset_card_of_nodup hwf]

/-! ## Lemmas on string comparison, the groups and `LoadData` -/

theorem stringsCompare.chars_swap (a b : List Char) :
    stringsCompare.chars b a = -stringsCompare.chars a b := by
  induction a generalizing b with
  | nil => cases b <;> simp [stringsCompare.chars]
  | cons x xs ih =>
    cases b with
    | nil => simp [stringsCompare.chars]
    | cons y ys =>
      simp only [stringsCompare.chars]
      by_cases h1 : x.toNat < y.toNat
      · have h2 : ¬ y.toNat < x.toNat := by omega
        simp [h1, h2]
      · by_cases h2 : y.toNat < x.toNat
        · simp [h1, h2]
        · simp [h1, h2, ih ys]

theorem stringsCompare_swap (a b : String) : stringsCompare b a = -stringsCompare a b :=
  stringsCompare.chars_swap a.toList b.toList

theorem Compare_string_values (lib : Lib) (c : String) (v : Cell) :
    EqCondition.Compare lib c v "df.String" = .ok (decide (stringsCompare (v.render lib) c = 0)) ∧
    GtCondition.Compare lib c v "df.String" = .ok (decide (stringsCompare (v.render lib) c > 0)) ∧
    LtCondition.Compare lib c v "df.String" = .ok (decide (stringsCompare (v.render lib) c < 0)) := by
  refine ⟨?_, ?_, ?_⟩
  · simp only [EqCondition.Compare, if_true, stringsCompare_swap (v.render lib) c]
    congr 1
    simp
  · simp only [GtCondition.Compare, if_true]
  · simp only [LtCondition.Compare, if_true]

theorem Compare_int_values (lib : Lib) (c : String) (v : Cell) (i x : Int)
    (hc : Atoi c = some i) (hv : v.asInt lib = some x) :
    EqCondition.Compare lib c v "df.Int" = .ok (decide (i = x)) ∧
    GtCondition.Compare lib c v "df.Int" = .ok (decide (i > x)) ∧
    LtCondition.Compare lib c v "df.Int" = .ok (decide (i < x)) := by
  refine ⟨?_, ?_, ?_⟩
  · simp [EqCondition.Compare, hc, hv, deref, Res.bind]
  · simp [GtCondition.Compare, hc, hv, deref, Res.bind]
  · simp [LtCondition.Compare, hc, hv, deref, Res.bind]

theorem Compare_trichotomy (lib : Lib) (c : String) (v : Cell) (t : String) (e g l : Bool)
    (he : EqCondition.Compare lib c v t = .ok e)
    (hg : GtCondition.Compare lib c v t = .ok g)
    (hl : LtCondition.Compare lib c v t = .ok l)
    (h1 : (l || e) = !g) (h2 : (g || e) = !l) :
    NgtCondition.Compare lib c v t = .ok (l || e) ∧
    NltCondition.Compare lib c v t = .ok (g || e) ∧
    (NgtCondition.Compare lib c v t = .ok true ↔ GtCondition.Compare lib c v t = .ok false) ∧
    (NltCondition.Compare lib c v t = .ok true ↔ LtCondition.Compare lib c v t = .ok false) := by
  have hn : NgtCondition.Compare lib c v t = .ok (l || e) := by
    simp only [NgtCondition.Compare, hl, he, Res.bind]
    cases l <;> simp
  have hm : NltCondition.Compare lib c v t = .ok (g || e) := by
    simp only [NltCondition.Compare, hg, he, Res.bind]
    cases g <;> simp
  refine ⟨hn, hm, ?_, ?_⟩
  · rw [hn, hg, h1]
    cases g <;> simp
  · rw [hm, hl, h2]
    cases l <;> simp

theorem Duplicated.heads_ok (m : GoMap u) (h : ∀ sv ∈ m, sv.2.appears ≠ []) :
    ∃ D, (∀ acc, Duplicated.appears m acc = .ok (acc ++ D)) ∧
      D.length = (m.filter fun sv => !sv.2.unique).length ∧
      (∀ r, r ∈ D ↔ ∃ sv ∈ m, sv.2.unique = false ∧ sv.2.appears.head? = some r) ∧
      D.Sublist (uniqueRowsMap.allRows m) := by
  induction m with
  | nil =>
    exact ⟨[], fun acc => by simp [Duplicated.appears], rfl, by simp,
      by simp [uniqueRowsMap.allRows]⟩
  | cons sv m ih =>
    obtain ⟨s, v⟩ := sv
    obtain ⟨D, hD, hlen, hmem, hsub⟩ := ih (fun sv hsv => h sv (List.mem_cons_of_mem _ hsv))
    have hne := h (s, v) (List.mem_cons_self _ _)
    obtain ⟨x, tl, hx⟩ : ∃ x tl, v.appears = x :: tl := by
      cases hv : v.appears with
      | nil => exact absurd hv hne
      | cons x tl => exact ⟨x, tl, rfl⟩
    cases hu : v.unique with
    | false =>
      refine ⟨x :: D, ?_, ?_, ?_, ?_⟩
      · intro acc
        simp only [Duplicated.appears, hu, Bool.not_false, if_true, hx,
          List.getElem?_cons_zero, hD]
        simp
      · simp [List.filter_cons, hu, hlen]
      · intro r
        simp only [List.mem_cons, hmem]
        constructor
        · rintro (e | ⟨sv, hsv, h1, h2⟩)
          · exact ⟨(s, v), Or.inl rfl, hu, by simp [hx, e]⟩
          · exact ⟨sv, Or.inr hsv, h1, h2⟩
        · rintro ⟨sv, hsv | hsv, h1, h2⟩
          · subst hsv
            simp only [hx, List.head?_cons, Option.some.injEq] at h2
            exact Or.inl h2.symm
          · exact Or.inr ⟨sv, hsv, h1, h2⟩
      · simp only [uniqueRowsMap.allRows, hx, List.cons_append]
        exact List.Sublist.cons₂ x (List.Sublist.trans hsub (List.sublist_append_right _ _))
    | true =>
      refine ⟨D, ?_, ?_, ?_, ?_⟩
      · intro acc
        simp only [Duplicated.appears, hu, Bool.not_true, Bool.false_eq_true, if_false, hD]
      · simp [List.filter_cons, hu, hlen]
      · intro r
        simp only [hmem, List.mem_cons]
        constructor
        · rintro ⟨sv, hsv, h1, h2⟩
          exact ⟨sv, Or.inr hsv, h1, h2⟩
        · rintro ⟨sv, hsv | hsv, h1, h2⟩
          · subst hsv
            simp [hu] at h1
          · exact ⟨sv, hsv, h1, h2⟩
      · simp only [uniqueRowsMap.allRows]
        exact List.Sublist.trans hsub (List.sublist_append_right _ _)

theorem uniqueRowsMap.group_shape (fp : Nat → String) (n : Nat) (m : GoMap u)
    (hinv : uniqueRowsMap.Inv fp (List.range n) m) (sv : String × u) (hsv : sv ∈ m) :
    sv.2.appears ≠ [] ∧ sv.2.appears.Sorted (· < ·) ∧
    (sv.2.unique = true ↔ sv.2.appears.length = 1) ∧
    (sv.2.unique = false ↔ 2 ≤ sv.2.appears.length) ∧
    (∀ r ∈ sv.2.appears, ∃ i : Nat, r = (i : Int) ∧ i < n ∧ fp i = sv.1) ∧
    (∀ r, sv.2.appears.head? = some r → ∀ x ∈ sv.2.appears, r ≤ x) := by
  obtain ⟨ha, hne, hu⟩ := hinv.2.2 sv hsv
  have hsorted : sv.2.appears.Sorted (· < ·) := by
    rw [ha]
    have h1 : ((List.range n).filter fun j => decide (fp j = sv.1)).Sorted (· < ·) :=
      (List.sorted_lt_range n).filter _
    exact List.Pairwise.map Int.ofNat (fun a b hab => by
      simp only [Int.ofNat_eq_coe]
      omega) h1
  refine ⟨hne, hsorted, hu, ?_, ?_, ?_⟩
  · have hpos : 0 < sv.2.appears.length := List.length_pos.2 hne
    constructor
    · intro hf
      by_contra hlt
      have h1 : sv.2.appears.length = 1 := by omega
      rw [hu.2 h1] at hf
      exact Bool.noConfusion hf
    · intro h2
      cases hb : sv.2.unique with
      | false => rfl
      | true =>
        have := hu.1 hb
        omega
  · intro r hr
    rw [ha] at hr
    obtain ⟨j, hj, e⟩ := List.mem_map.1 hr
    obtain ⟨h1, h2⟩ := List.mem_filter.1 hj
    exact ⟨j, e.symm, List.mem_range.1 h1, by simpa using h2⟩
  · intro r hr x hx
    cases hl : sv.2.appears with
    | nil => rw [hl] at hx; simp at hx
    | cons y tl =>
      rw [hl] at hr hx hsorted
      simp only [List.head?_cons, Option.some.injEq] at hr
      subst hr
      rcases List.mem_cons.1 hx with e | e
      · rw [e]
      · exact le_of_lt (List.rel_of_sorted_cons hsorted x e)

theorem digitsValue_foldl (cs : List Char) (a : Nat) :
    cs.foldl (fun a c => 10 * a + (c.toNat - 48)) a = a * 10 ^ cs.length + digitsValue cs := by
  induction cs generalizing a with
  | nil => simp [digitsValue]
  | cons c cs ih =>
    simp only [List.foldl_cons, List.length_cons, digitsValue]
    rw [ih (10 * a + (c.toNat - 48)), ih (10 * 0 + (c.toNat - 48))]
    ring

theorem digitsValue_cons (c : Char) (cs : List Char) :
    digitsValue (c :: cs) = (c.toNat - 48) * 10 ^ cs.length + digitsValue cs := by
  simp only [digitsValue, List.foldl_cons]
  rw [digitsValue_foldl]
  simp [digitsValue]

theorem digitChar_value (k : Nat) (hk : k < 10) : (Nat.digitChar k).toNat - 48 = k := by
  interval_cases k <;> rfl

theorem toDigitsCore_value (fuel n : Nat) (ds : List Char) (h : n < fuel) :
    digitsValue (Nat.toDigitsCore 10 fuel n ds) = n * 10 ^ ds.length + digitsValue ds := by
  induction fuel generalizing n ds with
  | zero => omega
  | succ fuel ih =>
    simp only [Nat.toDigitsCore]
    have hmod : n % 10 < 10 := Nat.mod_lt _ (by decide)
    have hdm : 10 * (n / 10) + n % 10 = n := Nat.div_add_mod n 10
    split
    · rename_i h0
      rw [digitsValue_cons, digitChar_value _ hmod]
      have : n % 10 = n := by omega
      rw [this]
    · rename_i h0
      have hlt : n / 10 < fuel := by omega
      rw [ih (n / 10) _ hlt, digitsValue_cons, digitChar_value _ hmod]
      simp only [List.length_cons, pow_succ]
      have key : ∀ q r p v : Nat, 10 * q + r = n →
          q * (p * 10) + (r * p + v) = n * p + v := by
        intro q r p v e
        rw [← e]
        ring
      exact key _ _ _ _ hdm

theorem repr_value (n : Nat) : digitsValue (Nat.repr n).toList = n := by
  have h := toDigitsCore_value (n + 1) n [] (by omega)
  simpa [Nat.repr, Nat.toDigits, List.asString, digitsValue] using h

theorem placeholder_inj (a b : Nat) (h : placeholder a = placeholder b) : a = b := by
  have h1 : (placeholder a).toList = (placeholder b).toList := by rw [h]
  simp only [placeholder, String.toList, String.data_append] at h1
  have h2 : (toString a : String).data = (toString b : String).data :=
    List.append_cancel_left h1
  have ha := repr_value a
  have hb := repr_value b
  simp only [String.toList] at ha hb
  have e1 : (toString a : String) = Nat.repr a := rfl
  have e2 : (toString b : String) = Nat.repr b := rfl
  rw [e1, e2] at h2
  rw [← ha, ← hb, h2]

theorem LoadData.unique_ok (l : List String) (m : GoMap Bool)
    (hnd : (l.filter fun s => decide (s ≠ "")).Nodup)
    (hdisj : ∀ s ∈ l, s ≠ "" → s ∉ m.keys) :
    ∃ m2, LoadData.unique l m = .ok m2 ∧
      m2.keys = m.keys ++ l.filter fun s => decide (s ≠ "") := by
  induction l generalizing m with
  | nil => exact ⟨m, rfl, by simp⟩
  | cons v rest ih =>
    by_cases hv : v = ""
    · have hnd2 : (rest.filter fun s => decide (s ≠ "")).Nodup := by
        simpa [List.filter_cons, hv] using hnd
      obtain ⟨m2, h1, h2⟩ := ih m hnd2 (fun s hs => hdisj s (List.mem_cons_of_mem _ hs))
      refine ⟨m2, ?_, ?_⟩
      · simp only [LoadData.unique, hv, ne_eq, not_true_eq_false, if_false]
        exact h1
      · rw [h2]
        simp [List.filter_cons, hv]
    · have hnd2 : v ∉ (rest.filter fun s => decide (s ≠ "")) ∧
          (rest.filter fun s => decide (s ≠ "")).Nodup := by
        simpa [List.filter_cons, hv] using hnd
      have hnk : v ∉ m.keys := hdisj v (List.mem_cons_self _ _) hv
      have hget : m.get? v = none := (GoMap.get?_eq_none_iff _ _).2 hnk
      have hkeys : (m.set v true).keys = m.keys ++ [v] := by
        rw [GoMap.set_of_not_mem m v true hnk]
        simp [GoMap.keys]
      obtain ⟨m2, h1, h2⟩ := ih (m.set v true) hnd2.2 (fun s hs hne => by
        rw [hkeys]
        intro hmem
        rcases List.mem_append.1 hmem with e | e
        · exact hdisj s (List.mem_cons_of_mem _ hs) hne e
        · simp only [List.mem_singleton] at e
          subst e
          exact hnd2.1 (List.mem_filter.2 ⟨hs, by simpa using hne⟩))
      refine ⟨m2, ?_, ?_⟩
      · simp only [LoadData.unique, ne_eq, hv, not_false_eq_true, if_true, hget]
        exact h1
      · rw [h2, hkeys]
        simp [List.filter_cons, hv]

theorem LoadData.unique_dup (l : List String) (m : GoMap Bool)
    (hdup : ¬ ((l.filter fun s => decide (s ≠ "")).Nodup ∧
      ∀ s ∈ l, s ≠ "" → s ∉ m.keys)) :
    ∃ v, v ≠ "" ∧ LoadData.unique l m = .err ("Duplicated column names: " ++ v) ∧
      ((v ∈ m.keys ∧ v ∈ l) ∨ 2 ≤ l.count v) := by
  induction l generalizing m with
  | nil => exact absurd ⟨by simp, by simp⟩ hdup
  | cons v rest ih =>
    by_cases hv : v = ""
    · have hdup2 : ¬ ((rest.filter fun s => decide (s ≠ "")).Nodup ∧
          ∀ s ∈ rest, s ≠ "" → s ∉ m.keys) := by
        rintro ⟨h1, h2⟩
        apply hdup
        refine ⟨by simpa [List.filter_cons, hv] using h1, ?_⟩
        intro s hs hne
        rcases List.mem_cons.1 hs with e | e
        · exact absurd (e.trans hv) hne
        · exact h2 s e hne
      obtain ⟨w, hw, herr, hocc⟩ := ih m hdup2
      refine ⟨w, hw, ?_, ?_⟩
      · simp only [LoadData.unique, hv, ne_eq, not_true_eq_false, if_false]
        exact herr
      · rcases hocc with ⟨h1, h2⟩ | h1
        · exact Or.inl ⟨h1, List.mem_cons_of_mem _ h2⟩
        · exact Or.inr (le_trans h1 (List.count_le_count_cons _ _ _))
    · cases hget : m.get? v with
      | some b =>
        refine ⟨v, hv, ?_, Or.inl ⟨?_, List.mem_cons_self _ _⟩⟩
        · simp only [LoadData.unique, ne_eq, hv, not_false_eq_true, if_true, hget]
        · exact (GoMap.get?_isSome_iff_mem_keys _ _).1 (by simp [hget])
      | none =>
        have hnk : v ∉ m.keys := (GoMap.get?_eq_none_iff _ _).1 hget
        have hkeys : (m.set v true).keys = m.keys ++ [v] := by
          rw [GoMap.set_of_not_mem m v true hnk]
          simp [GoMap.keys]
        have hdup2 : ¬ ((rest.filter fun s => decide (s ≠ "")).Nodup ∧
            ∀ s ∈ rest, s ≠ "" → s ∉ (m.set v true).keys) := by
          rintro ⟨h1, h2⟩
          apply hdup
          have hvr : v ∉ rest := by
            intro hmem
            exact h2 v hmem hv (by rw [hkeys]; simp)
          refine ⟨?_, ?_⟩
          · simp only [List.filter_cons, ne_eq, hv, not_false_eq_true, decide_True, if_true]
            exact List.nodup_cons.2 ⟨fun hm => hvr (List.mem_filter.1 hm).1, h1⟩
          · intro s hs hne
            rcases List.mem_cons.1 hs with e | e
            · rw [e]; exact hnk
            · intro hm
              exact h2 s e hne (by rw [hkeys]; exact List.mem_append_left _ hm)
        obtain ⟨w, hw, herr, hocc⟩ := ih (m.set v true) hdup2
        refine ⟨w, hw, ?_, ?_⟩
        · simp only [LoadData.unique, ne_eq, hv, not_false_eq_true, if_true, hget]
          exact herr
        · rcases hocc with ⟨h1, h2⟩ | h1
          · rw [hkeys] at h1
            rcases List.mem_append.1 h1 with e | e
            · exact Or.inl ⟨e, List.mem_cons_of_mem _ h2⟩
            · simp only [List.mem_singleton] at e
              subst e
              right
              have : 0 < rest.count w := List.count_pos_iff.2 h2
              simp only [List.count_cons_self]
              omega
          · exact Or.inr (le_trans h1 (List.count_le_count_cons _ _ _))

theorem LoadData.fresh_ok (fuel : Nat) (m : GoMap Bool) (c : Nat) (L : List String)
    (hL : ∀ n, c ≤ n → placeholder n ∈ m.keys → placeholder n ∈ L)
    (hlen : L.length < fuel) :
    ∃ n, c ≤ n ∧ LoadData.fresh fuel m c = some (placeholder n, n + 1) ∧
      placeholder n ∉ m.keys := by
  induction fuel generalizing c L with
  | zero => omega
  | succ fuel ih =>
    cases hget : m.get? (placeholder c) with
    | none =>
      refine ⟨c, le_refl _, ?_, (GoMap.get?_eq_none_iff _ _).1 hget⟩
      have hget2 : m.get? ("V" ++ toString c) = none := hget
      simp only [LoadData.fresh, hget2]
      rfl
    | some b =>
      have hk : placeholder c ∈ m.keys :=
        (GoMap.get?_isSome_iff_mem_keys _ _).1 (by simp [hget])
      have hcL : placeholder c ∈ L := hL c (le_refl _) hk
      obtain ⟨n, hn, h1, h2⟩ := ih (c + 1) (L.erase (placeholder c))
        (fun n hn hmem => by
          have := hL n (by omega) hmem
          exact (List.mem_erase_of_ne (fun e => by
            have := placeholder_inj _ _ e
            omega)).2 this)
        (by
          rw [List.length_erase_of_mem hcL]
          have : 0 < L.length := List.length_pos_of_mem hcL
          omega)
      refine ⟨n, by omega, ?_, h2⟩
      have hget2 : m.get? ("V" ++ toString c) = some b := hget
      simp only [LoadData.fresh, hget2]
      exact h1

theorem LoadData.fill_ok (fuel : Nat) (l : List String) (m : GoMap Bool) (c : Nat)
    (hfuel : m.length + l.count "" ≤ fuel)
    (hnd : (l.filter fun s => decide (s ≠ "")).Nodup)
    (hin : ∀ s ∈ l, s ≠ "" → s ∈ m.keys) :
    ∃ names, LoadData.fill fuel l m c = some names ∧ names.length = l.length ∧
      names.Nodup ∧
      (∀ x ∈ names, (x ∈ l ∧ x ≠ "") ∨ (x ∉ m.keys ∧ ∃ n, x = placeholder n)) ∧
      (∀ (j : Nat) (s : String), l[j]? = some s →
        (s ≠ "" → names[j]? = some s) ∧
        (s = "" → ∃ n, names[j]? = some (placeholder n))) := by
  induction l generalizing m c with
  | nil => exact ⟨[], rfl, rfl, List.nodup_nil, by simp, by simp⟩
  | cons v rest ih =>
    by_cases hv : v = ""
    · subst hv
      have hcount : (("" : String) :: rest).count "" = rest.count "" + 1 := by simp
      obtain ⟨n, _, hfresh, hnot⟩ := LoadData.fresh_ok fuel m c m.keys (fun _ _ h => h)
        (by
          have : (GoMap.keys m).length = m.length := by simp [GoMap.keys]
          omega)
      have hkeys : (m.set (placeholder n) true).keys = m.keys ++ [placeholder n] := by
        rw [GoMap.set_of_not_mem m _ true hnot]
        simp [GoMap.keys]
      have hlen : (m.set (placeholder n) true).length = m.length + 1 := by
        rw [GoMap.set_of_not_mem m _ true hnot]
        simp
      obtain ⟨names, h1, h2, h3, h4, h5⟩ := ih (m.set (placeholder n) true) (n + 1)
        (by omega)
        (by simpa [List.filter_cons] using hnd)
        (fun s hs hne => by
          rw [hkeys]
          exact List.mem_append_left _ (hin s (List.mem_cons_of_mem _ hs) hne))
      refine ⟨placeholder n :: names, ?_, by simp [h2], ?_, ?_, ?_⟩
      · simp only [LoadData.fill, if_true, hfresh, h1, Option.map_some']
      · refine List.nodup_cons.2 ⟨?_, h3⟩
        intro hmem
        rcases h4 _ hmem with ⟨hx, hne⟩ | ⟨hx, _⟩
        · exact hnot (hin _ (List.mem_cons_of_mem _ hx) hne)
        · exact hx (by rw [hkeys]; simp)
      · intro x hx
        rcases List.mem_cons.1 hx with e | e
        · exact Or.inr ⟨e ▸ hnot, n, e⟩
        · rcases h4 x e with ⟨h6, h7⟩ | ⟨h6, h7⟩
          · exact Or.inl ⟨List.mem_cons_of_mem _ h6, h7⟩
          · refine Or.inr ⟨fun hm => h6 ?_, h7⟩
            rw [hkeys]
            exact List.mem_append_left _ hm
      · intro j s hj
        cases j with
        | zero =>
          simp only [List.getElem?_cons_zero, Option.some.injEq] at hj
          subst hj
          exact ⟨fun h => absurd rfl h, fun _ => ⟨n, by simp⟩⟩
        | succ j =>
          rw [List.getElem?_cons_succ] at hj
          simpa using h5 j s hj
    · have hcount : (v :: rest).count "" = rest.count "" := by
        rw [List.count_cons_of_ne]
        exact fun e => hv e.symm
      have hnd2 : v ∉ (rest.filter fun s => decide (s ≠ "")) ∧
          (rest.filter fun s => decide (s ≠ "")).Nodup := by
        simpa [List.filter_cons, hv] using hnd
      obtain ⟨names, h1, h2, h3, h4, h5⟩ := ih m c (by omega) hnd2.2
        (fun s hs hne => hin s (List.mem_cons_of_mem _ hs) hne)
      have hvm : v ∈ m.keys := hin v (List.mem_cons_self _ _) hv
      refine ⟨v :: names, ?_, by simp [h2], ?_, ?_, ?_⟩
      · simp only [LoadData.fill, hv, if_false, h1, Option.map_some']
      · refine List.nodup_cons.2 ⟨?_, h3⟩
        intro hmem
        rcases h4 _ hmem with ⟨hx, hne⟩ | ⟨hx, _⟩
        · exact hnd2.1 (List.mem_filter.2 ⟨hx, by simpa using hne⟩)
        · exact hx hvm
      · intro x hx
        rcases List.mem_cons.1 hx with e | e
        · exact Or.inl ⟨by rw [e]; exact List.mem_cons_self _ _, by rw [e]; exact hv⟩
        · rcases h4 x e with ⟨h6, h7⟩ | h6
          · exact Or.inl ⟨List.mem_cons_of_mem _ h6, h7⟩
          · exact Or.inr h6
      · intro j s hj
        cases j with
        | zero =>
          simp only [List.getElem?_cons_zero, Option.some.injEq] at hj
          subst hj
          exact ⟨fun _ => by simp, fun h => absurd h hv⟩
        | succ j =>
          rw [List.getElem?_cons_succ] at hj
          simpa using h5 j s hj

theorem LoadData.column_ok (j : Nat) (rows : List (List String))
    (h : ∀ r ∈ rows, j < r.length) :
    ∃ strs, LoadData.column j rows = .ok strs ∧ strs.length = rows.length ∧
      ∀ (i : Nat) (r : List String), rows[i]? = some r → strs[i]? = r[j]? := by
  induction rows with
  | nil => exact ⟨[], rfl, rfl, by simp⟩
  | cons r rows ih =>
    obtain ⟨strs, h1, h2, h3⟩ := ih (fun r hr => h r (List.mem_cons_of_mem _ hr))
    have hj : j < r.length := h r (List.mem_cons_self _ _)
    have hget : r[j]? = some r[j] := List.getElem?_eq_getElem hj
    refine ⟨r[j] :: strs, ?_, by simp [h2], ?_⟩
    · simp only [LoadData.column, hget, h1, Res.bind]
    · intro i r2 hi
      cases i with
      | zero =>
        simp only [List.getElem?_cons_zero, Option.some.injEq] at hi
        subst hi
        simp [hget]
      | succ i =>
        rw [List.getElem?_cons_succ] at hi
        simpa using h3 i r2 hi

theorem Strings_typed (strs : List String) : ∀ x ∈ Strings strs, x.typeName = "df.String" := by
  intro x hx
  obtain ⟨s, _, rfl⟩ := List.mem_map.1 hx
  rfl

theorem LoadData.build_ok (rows : List (List String)) (names : List String) (j : Nat)
    (newDf : DataFrame) (hrows : rows ≠ [])
    (hrect : ∀ r ∈ rows, j + names.length ≤ r.length)
    (hnd : names.Nodup)
    (hc : ∀ x ∈ names, x ∉ newDf.Columns.keys)
    (hi : ∀ x ∈ names, x ∉ newDf.colIndexs.keys) :
    ∃ out, LoadData.build rows names j newDf = .ok out ∧ out.nRows = newDf.nRows ∧
      out.Columns.keys = newDf.Columns.keys ++ names ∧
      out.colIndexs.keys = newDf.colIndexs.keys ++ names ∧
      (∀ k, k ∉ names → out.Columns.get? k = newDf.Columns.get? k ∧
        out.colIndexs.get? k = newDf.colIndexs.get? k) ∧
      (∀ (k : Nat) (nm : String), names[k]? = some nm →
        out.colIndexs.get? nm = some ((j + k : Nat) : Int) ∧
        ∃ col strs, out.Columns.get? nm = some col ∧
          LoadData.column (j + k) rows = .ok strs ∧ col.cells = Strings strs ∧
          col.colName = nm ∧ col.colType = "df.String" ∧ col.WF) := by
  induction names generalizing j newDf with
  | nil => exact ⟨newDf, rfl, rfl, by simp, by simp, fun _ _ => ⟨rfl, rfl⟩, by simp⟩
  | cons nm rest ih =>
    obtain ⟨hnm, hnd2⟩ := List.nodup_cons.1 hnd
    obtain ⟨strs, hs1, hs2, _⟩ := LoadData.column_ok j rows (fun r hr => by
      have := hrect r hr
      simp only [List.length_cons] at this
      omega)
    have hsne : Strings strs ≠ [] := by
      intro e
      have h0 : (Strings strs).length = 0 := by rw [e]; rfl
      simp only [Strings, List.length_map] at h0
      rw [hs2] at h0
      exact hrows (List.length_eq_zero.1 h0)
    obtain ⟨col, hcol, hcells, htype, hname, hwf⟩ :=
      newCol_ok nm (Strings strs) "df.String" hsne (Strings_typed strs)
    have hcn : nm ∉ newDf.Columns.keys := hc nm (List.mem_cons_self _ _)
    have hin : nm ∉ newDf.colIndexs.keys := hi nm (List.mem_cons_self _ _)
    have hck : (newDf.Columns.set nm col).keys = newDf.Columns.keys ++ [nm] := by
      rw [GoMap.set_of_not_mem _ nm col hcn]
      simp [GoMap.keys]
    have hik : (newDf.colIndexs.set nm (j : Int)).keys = newDf.colIndexs.keys ++ [nm] := by
      rw [GoMap.set_of_not_mem _ nm _ hin]
      simp [GoMap.keys]
    obtain ⟨out, h1, h2, h3, h4, h5, h6⟩ := ih (j + 1)
      { newDf with Columns := newDf.Columns.set nm col,
                   colIndexs := newDf.colIndexs.set nm (j : Int) }
      (fun r hr => by
        have := hrect r hr
        simp only [List.length_cons] at this
        omega)
      hnd2
      (fun x hx => by
        show x ∉ (newDf.Columns.set nm col).keys
        rw [hck]
        intro hm
        rcases List.mem_append.1 hm with e | e
        · exact hc x (List.mem_cons_of_mem _ hx) e
        · simp only [List.mem_singleton] at e
          exact hnm (e ▸ hx))
      (fun x hx => by
        show x ∉ (newDf.colIndexs.set nm (j : Int)).keys
        rw [hik]
        intro hm
        rcases List.mem_append.1 hm with e | e
        · exact hi x (List.mem_cons_of_mem _ hx) e
        · simp only [List.mem_singleton] at e
          exact hnm (e ▸ hx))
    refine ⟨out, ?_, h2, ?_, ?_, ?_, ?_⟩
    · simp only [LoadData.build, hs1, Res.bind, hcol]
      exact h1
    · rw [h3]
      show (newDf.Columns.set nm col).keys ++ rest = _
      rw [hck]
      simp
    · rw [h4]
      show (newDf.colIndexs.set nm (j : Int)).keys ++ rest = _
      rw [hik]
      simp
    · intro k hk
      have hk1 : k ∉ rest := fun h => hk (List.mem_cons_of_mem _ h)
      have hk2 : ¬ nm = k := fun e => hk (by rw [e]; exact List.mem_cons_self _ _)
      obtain ⟨a, b⟩ := h5 k hk1
      refine ⟨?_, ?_⟩
      · rw [a]
        show (newDf.Columns.set nm col).get? k = _
        rw [GoMap.get?_set]
        simp [hk2]
      · rw [b]
        show (newDf.colIndexs.set nm (j : Int)).get? k = _
        rw [GoMap.get?_set]
        simp [hk2]
    · intro k nm2 hk
      cases k with
      | zero =>
        simp only [List.getElem?_cons_zero, Option.some.injEq] at hk
        subst hk
        obtain ⟨a, b⟩ := h5 nm hnm
        refine ⟨?_, col, strs, ?_, hs1, hcells, hname, htype, hwf⟩
        · rw [b]
          show (newDf.colIndexs.set nm (j : Int)).get? nm = _
          rw [GoMap.get?_set]
          simp
        · rw [a]
          show (newDf.Columns.set nm col).get? nm = _
          rw [GoMap.get?_set]
          simp
      | succ k =>
        rw [List.getElem?_cons_succ] at hk
        have := h6 k nm2 hk
        have e : j + 1 + k = j + (k + 1) := by omega
        rw [e] at this
        exact this

theorem filter_nonempty_length (l : List String) :
    (l.filter fun s => decide (s ≠ "")).length + l.count "" = l.length := by
  induction l with
  | nil => rfl
  | cons v rest ih =>
    by_cases hv : v = ""
    · subst hv
      have e1 : ((("" : String) :: rest).filter fun s => decide (s ≠ ""))
          = rest.filter fun s => decide (s ≠ "") := by
        simp [List.filter_cons]
      rw [e1, List.count_cons_self, List.length_cons]
      omega
    · have hc : (v :: rest).count "" = rest.count "" := by
        rw [List.count_cons_of_ne]
        exact fun e => hv e.symm
      have e1 : ((v :: rest).filter fun s => decide (s ≠ ""))
          = v :: rest.filter fun s => decide (s ≠ "") := by
        simp [List.filter_cons, hv]
      rw [e1, hc, List.length_cons, List.length_cons]
      omega

/-! ## The selections on frames that the defects do not reach -/

/-- On a well-formed frame, with a condition mapping over existing columns
whose comparisons all return a value (no NA cell is dereferenced),
`ConditionRows` selects exactly the rows at which every listed condition
compares true on the cell of its column with the declared type of that
column, in ascending order; with an empty mapping it returns a frame with the
same columns, cells and row count and never fails. -/
theorem ConditionRows.selects_without_NA (lib : Lib) (d : DataFrame) (cs : GoMap Condition)
    (hwf : d.WF) (hcols : ∀ kc ∈ cs, (d.Columns.get? kc.1).isSome = true)
    (hev : ConditionRows.evaluates lib d cs) :
    (∃ out, d.ConditionRows lib [] = .ok out ∧ out.NRows = d.NRows ∧
      out.Columns.keys = d.Columns.keys ∧
      ∀ k v, d.Columns.get? k = some v →
        ∃ col, out.Columns.get? k = some col ∧ col.cells = v.cells ∧
          col.colType = v.colType ∧ col.colName = v.colName) ∧
    ((∀ i, i ∈ ConditionRows.matching lib d cs d.NRows.toNat ↔
        i < d.NRows.toNat ∧ ∀ kc ∈ cs, ∃ col cell, d.Columns.get? kc.1 = some col ∧
          col.cells[i]? = some cell ∧ kc.2.Compare lib cell col.colType = .ok true) ∧
      (ConditionRows.matching lib d cs d.NRows.toNat).Sorted (· < ·)) ∧
    (cs ≠ [] →
      d.ConditionRows lib cs =
        d.SubsetRows
          (.ints (List.map Int.ofNat (ConditionRows.matching lib d cs d.NRows.toNat)))) ∧
    (cs ≠ [] → ConditionRows.matching lib d cs d.NRows.toNat ≠ [] →
      ∃ out, d.ConditionRows lib cs = .ok out ∧
        out.NRows = ((ConditionRows.matching lib d cs d.NRows.toNat).length : Int) ∧
        out.Columns.keys = d.Columns.keys ∧
        ∀ k v, d.Columns.get? k = some v →
          ∃ col, out.Columns.get? k = some col ∧
            col.cells.length = (ConditionRows.matching lib d cs d.NRows.toNat).length ∧
            ∀ (j i : Nat), (ConditionRows.matching lib d cs d.NRows.toNat)[j]? = some i →
              i < v.cells.length ∧ col.cells[j]? = v.cells[i]?) := by
  refine ⟨?_, ConditionRows.matching_rows_spec lib d cs _, ?_, ?_⟩
  · refine ⟨d.copy, rfl, rfl, ?_, ?_⟩
    · simp only [DataFrame.copy]
      exact GoMap.keys_mapVal _ _
    · intro k v hkv
      refine ⟨v.copy, ?_, ?_, rfl, rfl⟩
      · simp only [DataFrame.copy, GoMap.get?_mapVal, hkv, Option.map_some']
      · show List.map Cell.Copy v.cells = v.cells
        exact Cell.map_Copy v.cells
  · intro hne
    exact ConditionRows.run lib d cs hwf hne hcols hev
  · intro hne hm
    have hrun := ConditionRows.run lib d cs hwf hne hcols hev
    have hrows : ∀ i ∈ List.map Int.ofNat (ConditionRows.matching lib d cs d.NRows.toNat),
        i < d.NRows := by
      intro i hi
      obtain ⟨n, hn, rfl⟩ := List.mem_map.1 hi
      have h2 := (((ConditionRows.matching_rows_spec lib d cs _).1 n).1 hn).1
      simp only [Int.ofNat_eq_coe]
      omega
    obtain ⟨out, ho, hnr, _, hk, hcs⟩ := SubsetRows.ints_ok d _ hwf (by simpa using hm) hrows
    refine ⟨out, hrun.trans ho, by simpa using hnr, hk, ?_⟩
    intro k v hkv
    obtain ⟨col, hg, _, _, _, hl, hj⟩ := hcs k v hkv
    have hvlen : d.nRows ≤ (v.cells.length : Int) :=
      (hwf.2 (k, v) (GoMap.mem_of_get? _ k v hkv)).2
    refine ⟨col, hg, by simpa using hl, ?_⟩
    intro j i hji
    have h2 := (((ConditionRows.matching_rows_spec lib d cs _).1 i).1 (List.getElem?_mem hji)).1
    simp only [DataFrame.NRows] at h2
    refine ⟨by omega, ?_⟩
    rw [hj j (i : Int) (by simp [List.getElem?_map, hji])]
    simp [SubsetRows.cellAt]

/-- The age/name frame with the conditions `Lt 15` on age and `Eq b` on name:
the comparison of the Int column takes the literal on the left, so the one row
selected is the one holding 20 and b. -/
theorem ConditionRows.selects_without_NA_example :
    ageFrame.WF ∧
    ConditionRows.evaluates Lib.sample ageFrame [("age", .lt "15"), ("name", .eq "b")] ∧
    ConditionRows.matching Lib.sample ageFrame [("age", .lt "15"), ("name", .eq "b")]
      ageFrame.NRows.toNat = [1] ∧
    (∃ out, ageFrame.ConditionRows Lib.sample [("age", .lt "15"), ("name", .eq "b")] = .ok out ∧
      out.NRows = ((ConditionRows.matching Lib.sample ageFrame
        [("age", .lt "15"), ("name", .eq "b")] ageFrame.NRows.toNat).length : Int)) ∧
    intsOf (ageFrame.ConditionRows Lib.sample [("age", .lt "15"), ("name", .eq "b")]) "age"
      = some [some 20] :=
  ⟨by decide, by decide, by decide,
    ((ConditionRows.selects_without_NA Lib.sample ageFrame [("age", .lt "15"), ("name", .eq "b")]
      (by decide) (by decide) (by decide)).2.2.2 (by simp) (by decide)).elim
        fun out h => ⟨out, h.1, h.2.1⟩,
    by decide⟩

/-- When the call of `Unique` and the call of `RemoveUnique` visit the columns
in the same orders: on a well-formed frame the row indices that the two select
are disjoint and together are exactly `0..NRows-1`, each index once; `Unique`
selects the rows whose fingerprint occurs once and `RemoveUnique` those whose
fingerprint occurs again.  Each of the two returns a table with the selected
rows when its selection is not empty, and the empty-subset error when it is;
when both return a table, their row counts add up to `NRows`. -/
theorem Unique.partition_one_order (cksum : Cell → String)
    (ord : Nat → GoMap column → GoMap column) (d : DataFrame) (hwf : d.WF)
    (hord : ∀ i, (ord i d.Columns).Perm d.Columns) :
    ∃ U D, Unique.rows cksum ord d = .ok U ∧ RemoveUnique.rows cksum ord d = .ok D ∧
      (U ++ D).Perm (List.map Int.ofNat (List.range d.NRows.toNat)) ∧
      (∀ i : Nat, (i : Int) ∈ U ↔ i < d.NRows.toNat ∧ ∀ j, j < d.NRows.toNat →
        uniqueRowsMap.fp cksum ord d j = uniqueRowsMap.fp cksum ord d i → j = i) ∧
      (∀ i : Nat, (i : Int) ∈ D ↔ i < d.NRows.toNat ∧ ∃ j, j < d.NRows.toNat ∧ j ≠ i ∧
        uniqueRowsMap.fp cksum ord d j = uniqueRowsMap.fp cksum ord d i) ∧
      (U = [] → d.Unique cksum ord = .err "Empty subset") ∧
      (U ≠ [] → ∃ out, d.Unique cksum ord = .ok out ∧ out.NRows = (U.length : Int)) ∧
      (D = [] → d.RemoveUnique cksum ord = .err "Empty subset") ∧
      (D ≠ [] → ∃ out, d.RemoveUnique cksum ord = .ok out ∧ out.NRows = (D.length : Int)) ∧
      (∀ o1 o2, d.Unique cksum ord = .ok o1 → d.RemoveUnique cksum ord = .ok o2 →
        o1.NRows + o2.NRows = d.NRows) := by
  obtain ⟨m, hm, hinv⟩ := uniqueRowsMap.groups cksum ord d hwf hord
  obtain ⟨U, D, hU, hD, hp, hmU, hmD⟩ := uniqueRowsMap.split m
    (fun sv hsv => (hinv.2.2 sv hsv).2)
  have hperm : (U ++ D).Perm (List.map Int.ofNat (List.range d.NRows.toNat)) :=
    hp.trans (uniqueRowsMap.allRows_perm _ m _ hinv)
  have hUrows : Unique.rows cksum ord d = .ok U := by
    simp only [Unique.rows, hm, Res.bind, hU, List.nil_append]
  have hDrows : RemoveUnique.rows cksum ord d = .ok D := by
    simp only [RemoveUnique.rows, hm, Res.bind, hD, List.nil_append]
  have hrun1 : d.Unique cksum ord = d.SubsetRows (.ints U) := by
    simp only [DataFrame.Unique, hUrows, Res.bind]
  have hrun2 : d.RemoveUnique cksum ord = d.SubsetRows (.ints D) := by
    simp only [DataFrame.RemoveUnique, hDrows, Res.bind]
  have hlt : ∀ r ∈ U ++ D, r < d.NRows := by
    intro r hr
    obtain ⟨n, hn, rfl⟩ := List.mem_map.1 (hperm.subset hr)
    have := List.mem_range.1 hn
    simp only [Int.ofNat_eq_coe]
    omega
  have hsucc : ∀ X : List Int, X ≠ [] → (∀ r ∈ X, r < d.NRows) →
      ∃ out, d.SubsetRows (.ints X) = .ok out ∧ out.NRows = (X.length : Int) := by
    intro X hX hXlt
    obtain ⟨out, ho, hn, _⟩ := SubsetRows.ints_ok d X hwf hX hXlt
    exact ⟨out, ho, hn⟩
  have hL : (List.range d.NRows.toNat).Nodup := List.nodup_range _
  refine ⟨U, D, hUrows, hDrows, hperm, ?_, ?_, ?_, ?_, ?_, ?_, ?_⟩
  · intro i
    rw [hmU]
    constructor
    · rintro ⟨sv, hsv, hu, hr⟩
      obtain ⟨hiL, _⟩ := uniqueRowsMap.row_in_group _ _ m hinv sv hsv i hr
      refine ⟨List.mem_range.1 hiL, fun j hj => ?_⟩
      exact (uniqueRowsMap.unique_iff _ _ hL m hinv sv hsv i hr).1 hu j (List.mem_range.2 hj)
    · rintro ⟨hi, hall⟩
      obtain ⟨v, hv, hr⟩ := uniqueRowsMap.group_of_row _ _ m hinv i (List.mem_range.2 hi)
      refine ⟨(_, v), hv, ?_, hr⟩
      exact (uniqueRowsMap.unique_iff _ _ hL m hinv _ hv i hr).2
        (fun j hj => hall j (List.mem_range.1 hj))
  · intro i
    rw [hmD]
    constructor
    · rintro ⟨sv, hsv, hu, hr⟩
      obtain ⟨hiL, _⟩ := uniqueRowsMap.row_in_group _ _ m hinv sv hsv i hr
      refine ⟨List.mem_range.1 hiL, ?_⟩
      by_contra hcon
      have hall : ∀ j ∈ List.range d.NRows.toNat,
          uniqueRowsMap.fp cksum ord d j = uniqueRowsMap.fp cksum ord d i → j = i := by
        intro j hj e
        by_contra hne
        exact hcon ⟨j, List.mem_range.1 hj, hne, e⟩
      have := (uniqueRowsMap.unique_iff _ _ hL m hinv sv hsv i hr).2 hall
      rw [hu] at this
      exact Bool.false_ne_true this
    · rintro ⟨hi, j, hj, hne, e⟩
      obtain ⟨v, hv, hr⟩ := uniqueRowsMap.group_of_row _ _ m hinv i (List.mem_range.2 hi)
      refine ⟨(_, v), hv, ?_, hr⟩
      cases hu : v.unique with
      | false => rfl
      | true =>
        have := (uniqueRowsMap.unique_iff _ _ hL m hinv _ hv i hr).1 hu j
          (List.mem_range.2 hj) e
        exact absurd this hne
  · intro h
    rw [hrun1, h]
    rfl
  · intro h
    obtain ⟨out, ho, hn⟩ := hsucc U h (fun r hr => hlt r (List.mem_append_left _ hr))
    exact ⟨out, hrun1.trans ho, hn⟩
  · intro h
    rw [hrun2, h]
    rfl
  · intro h
    obtain ⟨out, ho, hn⟩ := hsucc D h (fun r hr => hlt r (List.mem_append_right _ hr))
    exact ⟨out, hrun2.trans ho, hn⟩
  · intro o1 o2 h1 h2
    have hU0 : U ≠ [] := by
      intro e
      rw [hrun1, e] at h1
      cases h1
    have hD0 : D ≠ [] := by
      intro e
      rw [hrun2, e] at h2
      cases h2
    obtain ⟨out1, ho1, hn1⟩ := hsucc U hU0 (fun r hr => hlt r (List.mem_append_left _ hr))
    obtain ⟨out2, ho2, hn2⟩ := hsucc D hD0 (fun r hr => hlt r (List.mem_append_right _ hr))
    rw [hrun1, ho1] at h1
    rw [hrun2, ho2] at h2
    cases h1
    cases h2
    rw [hn1, hn2]
    have hlen := hperm.length_eq
    simp only [List.length_append, List.length_map, List.length_range] at hlen
    have hpos : 0 < U.length := List.length_pos.2 hU0
    simp only [DataFrame.NRows] at hlen ⊢
    omega

/-- The frame a = [1, 2, 1]: `Unique` selects row 1 and `RemoveUnique` the
rows 0 and 2. -/
theorem Unique.partition_one_order_example :
    mixFrame.WF ∧
    Unique.rows sampleChecksum listOrder mixFrame = .ok [1] ∧
    RemoveUnique.rows sampleChecksum listOrder mixFrame = .ok [0, 2] ∧
    (∃ U D, Unique.rows sampleChecksum listOrder mixFrame = .ok U ∧
      RemoveUnique.rows sampleChecksum listOrder mixFrame = .ok D ∧
      (U ++ D).Perm (List.map Int.ofNat (List.range mixFrame.NRows.toNat))) :=
  ⟨by decide, by decide, by decide,
    (Unique.partition_one_order sampleChecksum listOrder mixFrame (by decide)
      (fun _ => List.Perm.refl _)).elim
        fun U h => h.elim fun D h => ⟨U, D, h.1, h.2.1, h.2.2.1⟩⟩

/-- An empty selection is refused by `SubsetRows`: on the frame
age = [10, 20, 30], name = [a, b, a], whose rows are all unique,
`RemoveUnique` returns the empty-subset error, and on the frame a = [1, 1],
b = [2, 2], whose rows are equal, `Unique` does when its call visits the
columns in one order. -/
theorem RemoveUnique.empty_selection_fails :
    ageFrame.RemoveUnique sampleChecksum listOrder = .err "Empty subset" ∧
    dupFrame.Unique sampleChecksum listOrder = .err "Empty subset" := by
  refine ⟨rfl, rfl⟩

/-- On a frame without rows `RemoveDuplicated` fails with the empty-subset
error, whatever the checksum and the order of the columns. -/
theorem RemoveDuplicated.no_rows_fails (cksum : Cell → String)
    (ord : Nat → GoMap column → GoMap column) (d : DataFrame) (h : d.nRows ≤ 0) :
    d.RemoveDuplicated cksum ord = .err "Empty subset" := by
  have h0 : d.nRows.toNat = 0 := by omega
  simp [DataFrame.RemoveDuplicated, RemoveDuplicated.rows, uniqueRowsMap, DataFrame.NRows,
    h0, uniqueRowsMap.loop, Res.bind, RemoveDuplicated.appears, DataFrame.SubsetRows]

/-! ## The claims -/

/-- C1 (the code departs from the claim): `New` on one column holding two
cells returns a frame whose `NRows()` is 0 while its column has 2 cells. -/
theorem New_nRows_not_column_length :
    (New [⟨"a", [.int (some 1), .int (some 2)]⟩]).toOption.map
      (fun d => (d.NRows, (d.Columns.get? "a").map fun c => c.cells.length))
      = some (0, some 2) := by
  decide

/-- C2 (the code departs from the claim): for every library instance, `Gt`
with the literal 15 is false for the Int cell 20 and true for the Int cell 10,
and `ConditionRows` with age > 15 on age = [10, 20, 30] returns the single row
holding 10. -/
theorem GtCondition_int_reversed (lib : Lib) :
    GtCondition.Compare lib "15" (.int (some 20)) "df.Int" = .ok false ∧
    GtCondition.Compare lib "15" (.int (some 10)) "df.Int" = .ok true ∧
    intsOf (ageFrame.ConditionRows lib [("age", .gt "15")]) "age" = some [some 10] := by
  refine ⟨rfl, rfl, rfl⟩

/-- C3 (the code departs from the claim): whenever the literal parses as a
float, `Eq` on a Float column is false for every cell; so `Eq` with the literal
3.0 is false for the Float cell 3.00005. -/
theorem EqCondition_float_parsed_false (lib : Lib) (c : String) (f : Float) (v : Cell) :
    EqCondition.Compare { lib with ParseFloat := fun _ => (f, true) } c v "df.Float"
      = .ok false ∧
    EqCondition.Compare Lib.sample "3.0" (.float (some 3.00005)) "df.Float" = .ok false := by
  refine ⟨rfl, rfl⟩

/-- C4 (the code departs from the claim): `DivColumn(a, b)` on a = [6],
b = [3] returns no error and column a still holds 6, not the quotient 2. -/
theorem DivColumn_leaves_column (lib : Lib) :
    (divFrame.DivColumn lib "a" "b").isErr = false ∧
    intsOf (divFrame.DivColumn lib "a" "b") "a" = some [some 6] := by
  refine ⟨rfl, rfl⟩

/-- C5 (the code departs from the claim): `DivColumn(c, c)` on the Int column
c = [NA] stops with a run-time panic, and on the column a = [6] it leaves the
cell at 6 instead of 1. -/
theorem DivColumn_self_NA_aborts (lib : Lib) :
    (naFrame.DivColumn lib "c" "c").isAbort = true ∧
    intsOf (divFrame.DivColumn lib "a" "a") "a" = some [some 6] := by
  refine ⟨rfl, rfl⟩

/-- C6 (the code departs from the claim): `SubsetColumns` with the name list
[name] on the frame with age at 0 and name at 1 returns a frame that holds the
column name only, while its position index still maps age to 0 and name
to 1. -/
theorem SubsetColumns_index_not_renumbered :
    ((ageFrame.SubsetColumns (.strings ["name"])).toOption.map
      fun d => (d.Columns.keys, d.colIndexs)) = some (["name"], [("age", 0), ("name", 1)]) := by
  decide

/-- C7: on a frame whose maps have the same keys, `SubsetColumns(R{from, to})`
fails with the empty-subset error exactly when no column has a position in
`[from, to)`; otherwise it returns a frame whose columns are exactly (copies
of) the columns with a position in that range.  On the four-column frame with
positions 0 to 3 the range `[1, 3)` gives the columns at positions 1 and 2. -/
theorem SubsetColumns_range_exact (df : DataFrame) (s : R)
    (hI : df.colIndexs.WF) (hK : df.sameKeys) :
    (df.SubsetColumns (.range s) = .err "Empty subset" ↔
        ¬ ∃ k p, df.colIndexs.get? k = some p ∧ s.has p) ∧
    ((∃ k p, df.colIndexs.get? k = some p ∧ s.has p) →
      ∃ out, df.SubsetColumns (.range s) = .ok out ∧
        (∀ k, (out.Columns.get? k).isSome = true ↔
          ∃ p, df.colIndexs.get? k = some p ∧ s.has p) ∧
        (∀ k, (out.Columns.get? k).isSome = true →
          out.Columns.get? k = (df.Columns.get? k).map column.copy)) ∧
    ((fourFrame.SubsetColumns (.range ⟨1, 3⟩)).toOption.map fun d => d.Columns.keys)
      = some ["b", "c"] := by
  have hmem : ∀ k, k ∈ SubsetColumns.rangeCols s df.colIndexs [] ↔
      ∃ p, df.colIndexs.get? k = some p ∧ s.has p := by
    intro k
    rw [SubsetColumns.mem_rangeCols]
    constructor
    · rintro (h | ⟨p, hp, hs⟩)
      · simp at h
      · exact ⟨p, GoMap.get?_of_mem _ hI k p hp, hs⟩
    · rintro ⟨p, hp, hs⟩
      exact Or.inr ⟨p, GoMap.mem_of_get? _ k p hp, hs⟩
  obtain ⟨hA, hB⟩ := SubsetColumns.names_columns df (SubsetColumns.rangeCols s df.colIndexs [])
  refine ⟨?_, ?_, by decide⟩
  · show SubsetColumns.names df _ = _ ↔ _
    rw [hA]
    constructor
    · rintro h ⟨k, p, hp, hs⟩
      have := h k ((hmem k).2 ⟨p, hp, hs⟩)
      simp [this] at hp
    · intro h k hk
      obtain ⟨p, hp, hs⟩ := (hmem k).1 hk
      exact absurd ⟨k, p, hp, hs⟩ h
  · rintro ⟨k0, p0, hp0, hs0⟩
    obtain ⟨out, ho, _, _, hcols⟩ :=
      hB ⟨k0, (hmem k0).2 ⟨p0, hp0, hs0⟩, by simp [hp0]⟩
    refine ⟨out, ho, ?_, ?_⟩
    · intro k
      rw [hcols k]
      by_cases hm : k ∈ df.colIndexs.keys
      · by_cases hc : k ∈ SubsetColumns.rangeCols s df.colIndexs []
        · have hcol : (df.Columns.get? k).isSome = true :=
            (GoMap.get?_isSome_iff_mem_keys _ _).2 (hK.2 k hm)
          simp only [hm, hc, not_true_eq_false, and_false, if_false, Option.isSome_map']
          exact ⟨fun _ => (hmem k).1 hc, fun _ => hcol⟩
        · simp only [hm, hc, not_false_eq_true, and_self, if_true]
          constructor
          · intro h; simp at h
          · intro h; exact absurd ((hmem k).2 h) hc
      · have hnone : df.Columns.get? k = none :=
          (GoMap.get?_eq_none_iff _ _).2 (fun h => hm (hK.1 k h))
        simp only [hm, false_and, if_false, hnone, Option.map_none']
        constructor
        · intro h; simp at h
        · rintro ⟨p, hp, _⟩
          exact absurd ((GoMap.get?_isSome_iff_mem_keys _ _).1 (by simp [hp])) hm
    · intro k hk
      rw [hcols k] at hk ⊢
      by_cases hc : k ∈ df.colIndexs.keys ∧ ¬ k ∈ SubsetColumns.rangeCols s df.colIndexs []
      · simp [hc] at hk
      · simp only [hc, if_false]

/-- Witness of C7 on the four-column frame and the range `[1, 3)`. -/
theorem SubsetColumns_range_exact_witness :
    fourFrame.colIndexs.WF ∧ fourFrame.sameKeys ∧
    (∃ out, fourFrame.SubsetColumns (.range ⟨1, 3⟩) = .ok out ∧
        (∀ k, (out.Columns.get? k).isSome = true ↔
          ∃ p, fourFrame.colIndexs.get? k = some p ∧ (R.mk 1 3).has p) ∧
        (∀ k, (out.Columns.get? k).isSome = true →
          out.Columns.get? k = (fourFrame.Columns.get? k).map column.copy)) :=
  ⟨by decide, by decide,
    (SubsetColumns_range_exact fourFrame ⟨1, 3⟩ (by decide) (by decide)).2.1
      ⟨"b", 1, by decide, by decide⟩⟩

/-- C8: on a well-formed frame, `SubsetRows` with a row-index list fails when
the list is empty or holds an entry `>= NRows`; for a non-empty list with all
entries `< NRows` it returns a frame with `len(list)` rows in which every
column has, at row `j`, its sentinel `empty` when `list[j] < 0` and the source
cell at row `list[j]` otherwise.  For the list `[-1, 0]` row 0 is the sentinel
in every column and row 1 is the source row 0. -/
theorem SubsetRows_ints_rows (df : DataFrame) (rowNums : List Int) (hwf : df.WF) :
    (rowNums = [] → df.SubsetRows (.ints rowNums) = .err "Empty subset") ∧
    (rowNums ≠ [] → (∃ i ∈ rowNums, i ≥ df.NRows) →
      df.SubsetRows (.ints rowNums) = .err "Subset out of range") ∧
    (rowNums ≠ [] → (∀ i ∈ rowNums, i < df.NRows) →
      ∃ out, df.SubsetRows (.ints rowNums) = .ok out ∧
        out.NRows = (rowNums.length : Int) ∧
        out.Columns.keys = df.Columns.keys ∧
        ∀ k v, df.Columns.get? k = some v →
          ∃ col, out.Columns.get? k = some col ∧ col.cells.length = rowNums.length ∧
            ∀ (j : Nat) (i : Int), rowNums[j]? = some i →
              (i < 0 → col.cells[j]? = some v.empty) ∧
              (0 ≤ i → i.toNat < v.cells.length ∧ col.cells[j]? = v.cells[i.toNat]?)) ∧
    (0 < df.NRows →
      ∃ out, df.SubsetRows (.ints [-1, 0]) = .ok out ∧ out.NRows = 2 ∧
        ∀ k v, df.Columns.get? k = some v →
          ∃ col, out.Columns.get? k = some col ∧
            col.cells[0]? = some v.empty ∧ col.cells[1]? = v.cells[0]?) := by
  refine ⟨?_, ?_, ?_, ?_⟩
  · intro h
    subst h
    rfl
  · rintro hne ⟨i, hi, hge⟩
    have hlen : ¬ rowNums.length = 0 := fun h => hne (List.length_eq_zero.1 h)
    have hany : (rowNums.any fun v => decide (v ≥ df.nRows)) = true := by
      rw [List.any_eq_true]
      exact ⟨i, hi, by simpa [DataFrame.NRows] using hge⟩
    simp only [DataFrame.SubsetRows, hlen, if_false, hany, if_true]
  · intro hne hlt
    obtain ⟨out, ho, hn, _, hk, hc⟩ := SubsetRows.ints_ok df rowNums hwf hne hlt
    refine ⟨out, ho, hn, hk, ?_⟩
    intro k v hkv
    obtain ⟨col, hg, _, _, _, hl, hj⟩ := hc k v hkv
    refine ⟨col, hg, hl, ?_⟩
    intro j i hji
    have hcell := hj j i hji
    have hlen : df.nRows ≤ (v.cells.length : Int) :=
      (hwf.2 (k, v) (GoMap.mem_of_get? _ k v hkv)).2
    have hib : i < df.nRows := hlt i (List.getElem?_mem hji)
    constructor
    · intro hneg
      rw [hcell]
      simp [SubsetRows.cellAt, hneg]
    · intro hpos
      have hnn : ¬ i < 0 := by omega
      refine ⟨by omega, ?_⟩
      rw [hcell]
      simp [SubsetRows.cellAt, hnn]
  · intro hpos
    obtain ⟨out, ho, hn, _, _, hc⟩ := SubsetRows.ints_ok df [-1, 0] hwf (by simp)
      (by
        intro i hi
        simp only [List.mem_cons, List.mem_singleton, List.not_mem_nil, or_false] at hi
        rcases hi with e | e <;> omega)
    refine ⟨out, ho, by simpa using hn, ?_⟩
    intro k v hkv
    obtain ⟨col, hg, _, _, _, _, hj⟩ := hc k v hkv
    refine ⟨col, hg, ?_, ?_⟩
    · rw [hj 0 (-1) (by simp)]
      simp [SubsetRows.cellAt]
    · rw [hj 1 0 (by simp)]
      simp [SubsetRows.cellAt]

/-- Witness of C8 on the age/name frame and the list `[-1, 0]`. -/
theorem SubsetRows_ints_rows_witness :
    ageFrame.WF ∧ ([-1, 0] : List Int) ≠ [] ∧ (∀ i ∈ ([-1, 0] : List Int), i < ageFrame.NRows) ∧
    (∃ out, ageFrame.SubsetRows (.ints [-1, 0]) = .ok out ∧ out.NRows = 2 ∧
        ∀ k v, ageFrame.Columns.get? k = some v →
          ∃ col, out.Columns.get? k = some col ∧
            col.cells[0]? = some v.empty ∧ col.cells[1]? = v.cells[0]?) ∧
    intsOf (ageFrame.SubsetRows (.ints [-1, 0])) "age" = some [none, some 10] :=
  ⟨by decide, by decide, by decide,
    (SubsetRows_ints_rows ageFrame [-1, 0] (by decide)).2.2.2 (by decide), by decide⟩

/-- C9: on a well-formed frame, `SubsetRows(R{from, to})` fails exactly when
`from > to`, `from == to`, `to > NRows`, `from < 0` or `to < 0`; otherwise it
returns a frame with `to - from` rows in which every column holds the source
cells of rows `from .. to-1` in order. -/
theorem SubsetRows_range_rows (df : DataFrame) (s : R) (hwf : df.WF) :
    ((df.SubsetRows (.range s)).isErr = true ↔
      (s.From > s.To ∨ s.From = s.To ∨ s.To > df.NRows ∨ s.From < 0 ∨ s.To < 0)) ∧
    (¬ (s.From > s.To ∨ s.From = s.To ∨ s.To > df.NRows ∨ s.From < 0 ∨ s.To < 0) →
      ∃ out, df.SubsetRows (.range s) = .ok out ∧
        out.NRows = s.To - s.From ∧
        out.Columns.keys = df.Columns.keys ∧
        ∀ k v, df.Columns.get? k = some v →
          ∃ col, out.Columns.get? k = some col ∧
            (col.cells.length : Int) = s.To - s.From ∧
            ∀ j : Nat, (j : Int) < s.To - s.From →
              s.From.toNat + j < v.cells.length ∧
              col.cells[j]? = v.cells[s.From.toNat + j]?) := by
  have hsucc : ¬ (s.From > s.To ∨ s.From = s.To ∨ s.To > df.NRows ∨ s.From < 0 ∨ s.To < 0) →
      ∃ out, df.SubsetRows (.range s) = .ok out ∧
        out.NRows = s.To - s.From ∧
        out.Columns.keys = df.Columns.keys ∧
        ∀ k v, df.Columns.get? k = some v →
          ∃ col, out.Columns.get? k = some col ∧
            (col.cells.length : Int) = s.To - s.From ∧
            ∀ j : Nat, (j : Int) < s.To - s.From →
              s.From.toNat + j < v.cells.length ∧
              col.cells[j]? = v.cells[s.From.toNat + j]? := by
    intro hn
    obtain ⟨out, ho, hnr, _, hk, hc⟩ := SubsetRows.range_ok df s hwf
      (by omega) (by omega) (by omega)
    refine ⟨out, ho, hnr, hk, ?_⟩
    intro k v hkv
    obtain ⟨col, hg, _, _, _, hcells⟩ := hc k v hkv
    have hlen : df.nRows ≤ (v.cells.length : Int) :=
      (hwf.2 (k, v) (GoMap.mem_of_get? _ k v hkv)).2
    simp only [DataFrame.NRows] at hn
    refine ⟨col, hg, ?_, ?_⟩
    · rw [hcells]
      simp only [List.length_take, List.length_drop]
      omega
    · intro j hj
      refine ⟨by omega, ?_⟩
      rw [hcells, List.getElem?_take]
      have : j < s.To.toNat - s.From.toNat := by omega
      simp only [this, if_true, List.getElem?_drop]
  refine ⟨?_, hsucc⟩
  constructor
  · intro he
    by_contra hn
    obtain ⟨out, ho, _⟩ := hsucc hn
    rw [ho] at he
    simp [Res.isErr] at he
  · intro h
    simp only [DataFrame.NRows] at h
    by_cases c1 : s.From > s.To
    · simp only [DataFrame.SubsetRows, c1, if_true, Res.isErr]
    · by_cases c2 : s.From = s.To
      · have e : df.SubsetRows (.range s) = .err "Empty subset" := by
          simp only [DataFrame.SubsetRows]
          rw [if_neg c1, if_pos c2]
        rw [e]
        rfl
      · have c3 : s.To > df.nRows ∨ s.To < 0 ∨ s.From < 0 := by omega
        simp only [DataFrame.SubsetRows, c1, c2, c3, if_true, if_false, Res.isErr]

/-- Witness of C9 on the age/name frame and the range `[1, 3)`. -/
theorem SubsetRows_range_rows_witness :
    ageFrame.WF ∧
    ¬ ((1 : Int) > 3 ∨ (1 : Int) = 3 ∨ (3 : Int) > ageFrame.NRows ∨ (1 : Int) < 0 ∨ (3 : Int) < 0) ∧
    (∃ out, ageFrame.SubsetRows (.range ⟨1, 3⟩) = .ok out ∧
        out.NRows = 3 - 1 ∧
        out.Columns.keys = ageFrame.Columns.keys ∧
        ∀ k v, ageFrame.Columns.get? k = some v →
          ∃ col, out.Columns.get? k = some col ∧
            (col.cells.length : Int) = 3 - 1 ∧
            ∀ j : Nat, (j : Int) < 3 - 1 →
              (1 : Int).toNat + j < v.cells.length ∧
              col.cells[j]? = v.cells[(1 : Int).toNat + j]?) ∧
    intsOf (ageFrame.SubsetRows (.range ⟨1, 3⟩)) "age" = some [some 20, some 30] :=
  ⟨by decide, by decide,
    (SubsetRows_range_rows ageFrame ⟨1, 3⟩ (by decide)).2 (by decide), by decide⟩

/-- C10: on a well-formed frame, `FilterRows(c, f)` fails with the not-exists
error when `c` is not a column; for an existing column it fails when no row
satisfies `f`, and otherwise returns the frame whose rows are exactly the
source rows `i` of `0..NRows-1` with `f(c[i])` true, in ascending order. -/
theorem FilterRows_rows (df : DataFrame) (colname : String) (f : Cell → Bool)
    (hwf : df.WF) :
    (df.Columns.get? colname = none →
      df.FilterRows colname f = .err (colname ++ " not exists")) ∧
    (∀ c, df.Columns.get? colname = some c →
      ((∀ i, i ∈ FilterRows.matching c f df.NRows.toNat ↔
          i < df.NRows.toNat ∧ ∃ cell, c.cells[i]? = some cell ∧ f cell = true) ∧
        (FilterRows.matching c f df.NRows.toNat).Sorted (· < ·)) ∧
      (FilterRows.matching c f df.NRows.toNat = [] →
        (df.FilterRows colname f).isErr = true) ∧
      (FilterRows.matching c f df.NRows.toNat ≠ [] →
        ∃ out, df.FilterRows colname f = .ok out ∧
          out.NRows = ((FilterRows.matching c f df.NRows.toNat).length : Int) ∧
          out.Columns.keys = df.Columns.keys ∧
          ∀ k v, df.Columns.get? k = some v →
            ∃ col, out.Columns.get? k = some col ∧
              col.cells.length = (FilterRows.matching c f df.NRows.toNat).length ∧
              ∀ (j i : Nat), (FilterRows.matching c f df.NRows.toNat)[j]? = some i →
                i < v.cells.length ∧ col.cells[j]? = v.cells[i]?)) := by
  refine ⟨?_, ?_⟩
  · intro h
    simp only [DataFrame.FilterRows, h]
  · intro c hc
    have hclen : df.nRows ≤ (c.cells.length : Int) :=
      (hwf.2 (colname, c) (GoMap.mem_of_get? _ colname c hc)).2
    have hloop : FilterRows.loop c f (List.range df.NRows.toNat) [] =
        .ok (List.map Int.ofNat (FilterRows.matching c f df.NRows.toNat)) := by
      rw [FilterRows.loop_ok c f _ [] (fun i hi => by
        have := List.mem_range.1 hi
        simp only [DataFrame.NRows] at this
        omega)]
      rfl
    have hrun : df.FilterRows colname f =
        df.SubsetRows (.ints (List.map Int.ofNat (FilterRows.matching c f df.NRows.toNat))) := by
      simp only [DataFrame.FilterRows, hc, hloop]
      rfl
    refine ⟨FilterRows.matching_spec c f _, ?_, ?_⟩
    · intro he
      rw [hrun, he]
      rfl
    · intro hne
      have hrows : ∀ i ∈ List.map Int.ofNat (FilterRows.matching c f df.NRows.toNat),
          i < df.NRows := by
        intro i hi
        obtain ⟨n, hn, rfl⟩ := List.mem_map.1 hi
        have := ((FilterRows.matching_spec c f _).1 n).1 hn
        have h2 := this.1
        simp only [Int.ofNat_eq_coe]
        omega
      obtain ⟨out, ho, hnr, _, hk, hcols⟩ := SubsetRows.ints_ok df _ hwf
        (by simpa using hne) hrows
      refine ⟨out, hrun.trans ho, by simpa using hnr, hk, ?_⟩
      intro k v hkv
      obtain ⟨col, hg, _, _, _, hl, hj⟩ := hcols k v hkv
      have hvlen : df.nRows ≤ (v.cells.length : Int) :=
        (hwf.2 (k, v) (GoMap.mem_of_get? _ k v hkv)).2
      refine ⟨col, hg, by simpa using hl, ?_⟩
      intro j i hji
      have hmem := ((FilterRows.matching_spec c f _).1 i).1 (List.getElem?_mem hji)
      have h2 := hmem.1
      simp only [DataFrame.NRows] at h2
      refine ⟨by omega, ?_⟩
      rw [hj j (i : Int) (by simp [List.getElem?_map, hji])]
      simp [SubsetRows.cellAt]

/-- Witness of C10 on the age/name frame, column age and the predicate
"more than 15". -/
theorem FilterRows_rows_witness :
    ageFrame.WF ∧
    ageFrame.Columns.get? "nope" = none ∧
    ageFrame.FilterRows "nope" over15 = .err "nope not exists" ∧
    intsOf (ageFrame.FilterRows "age" over15) "age" = some [some 20, some 30] ∧
    (∃ c, ageFrame.Columns.get? "age" = some c ∧
      FilterRows.matching c over15 ageFrame.NRows.toNat = [1, 2] ∧
      ∃ out, ageFrame.FilterRows "age" over15 = .ok out ∧
        out.NRows = ((FilterRows.matching c over15 ageFrame.NRows.toNat).length : Int)) :=
  ⟨by decide, rfl,
    (FilterRows_rows ageFrame "nope" over15 (by decide)).1 rfl, by decide,
    _, rfl, by decide,
    (((FilterRows_rows ageFrame "age" over15 (by decide)).2 _ rfl).2.2 (by decide)).elim
      fun out h => ⟨out, h.1, h.2.1⟩⟩

/-- C11 (the code departs from the claim): on the well-formed frame
age = [10, NA, 30], name = [a, NA, a] a condition on the existing Int column
age makes `ConditionRows` stop with a run-time panic at the NA cell of row 1,
for every library instance; a condition on the String column name, whose
branch renders the cell, returns the row of its NA cell. -/
theorem ConditionRows_NA_cell_aborts (lib : Lib) :
    ageNA.WF ∧
    (ageNA.Columns.get? "age").isSome = true ∧
    (ageNA.ConditionRows lib [("age", .gt "15")]).isAbort = true ∧
    (ageNA.ConditionRows lib [("age", .eq "10")]).isAbort = true ∧
    (ageNA.ConditionRows lib [("name", .eq "NA")]).toOption.map (fun d => d.NRows)
      = some 1 := by
  refine ⟨by decide, rfl, rfl, rfl, rfl⟩

/-- C12 (the code departs from the claim): on the frame a = [1, 1], b = [2, 2]
the call of `Unique`, visiting the columns in one order at row 0 and in the
other order at row 1, selects the rows 0 and 1, and the call of
`RemoveUnique`, visiting them in one order at both rows, selects the rows 0
and 1 as well: both return a table of two rows, every row index is selected
twice, and the row counts add up to 4 where `NRows` is 2. -/
theorem Unique_RemoveUnique_overlap :
    dupFrame.WF ∧
    (∀ i, (flipOrder i dupFrame.Columns).Perm dupFrame.Columns) ∧
    (∀ i, (listOrder i dupFrame.Columns).Perm dupFrame.Columns) ∧
    Unique.rows sampleChecksum flipOrder dupFrame = .ok [0, 1] ∧
    RemoveUnique.rows sampleChecksum listOrder dupFrame = .ok [0, 1] ∧
    (dupFrame.Unique sampleChecksum flipOrder).toOption.map (fun d => d.NRows) = some 2 ∧
    (dupFrame.RemoveUnique sampleChecksum listOrder).toOption.map (fun d => d.NRows)
      = some 2 ∧
    dupFrame.NRows = 2 := by
  refine ⟨by decide, ?_, fun _ => List.Perm.refl _, by decide, by decide, by decide,
    by decide, rfl⟩
  intro i
  unfold flipOrder
  split
  · exact List.Perm.refl _
  · exact List.reverse_perm _

/-- C13, as the code has it: on a well-formed frame with at least one row,
`RemoveDuplicated` returns a table whose row count is at most the row count of
the receiver, with equality exactly when no two rows have the same
fingerprint; the rows it selects are the first row of every fingerprint,
each once. -/
theorem RemoveDuplicated_rows (cksum : Cell → String)
    (ord : Nat → GoMap column → GoMap column) (d : DataFrame) (hwf : d.WF)
    (hord : ∀ i, (ord i d.Columns).Perm d.Columns) (hpos : 0 < d.NRows) :
    ∃ R out, RemoveDuplicated.rows cksum ord d = .ok R ∧
      d.RemoveDuplicated cksum ord = .ok out ∧
      out.NRows = (R.length : Int) ∧
      out.NRows ≤ d.NRows ∧
      (out.NRows = d.NRows ↔
        ∀ i j, i < d.NRows.toNat → j < d.NRows.toNat →
          uniqueRowsMap.fp cksum ord d i = uniqueRowsMap.fp cksum ord d j → i = j) ∧
      (∀ r : Int, r ∈ R ↔ ∃ i : Nat, r = (i : Int) ∧ i < d.NRows.toNat ∧
        ∀ j, j < i → uniqueRowsMap.fp cksum ord d j ≠ uniqueRowsMap.fp cksum ord d i) ∧
      R.Nodup := by
  obtain ⟨m, hm, hinv⟩ := uniqueRowsMap.groups cksum ord d hwf hord
  obtain ⟨R, hR, hlen, hmem, hsub⟩ := RemoveDuplicated.appears_ok m
    (fun sv hsv => (hinv.2.2 sv hsv).2.1)
  have hperm := uniqueRowsMap.allRows_perm _ m _ hinv
  have hRrows : RemoveDuplicated.rows cksum ord d = .ok R := by
    simp only [RemoveDuplicated.rows, hm, Res.bind, hR, List.nil_append]
  have hrun : d.RemoveDuplicated cksum ord = d.SubsetRows (.ints R) := by
    simp only [DataFrame.RemoveDuplicated, hRrows, Res.bind]
  have hn : (d.NRows.toNat : Int) = d.NRows := by
    simp only [DataFrame.NRows] at hpos ⊢
    omega
  have h0 : 0 < d.NRows.toNat := by
    simp only [DataFrame.NRows] at hpos ⊢
    omega
  have hmne : m ≠ [] := by
    intro e
    have := hinv.2.1 0 (List.mem_range.2 h0)
    rw [e] at this
    simp [GoMap.keys] at this
  have hRne : R ≠ [] := by
    intro e
    rw [e] at hlen
    exact hmne (List.length_eq_zero.1 hlen.symm)
  have hlt : ∀ r ∈ R, r < d.NRows := by
    intro r hr
    obtain ⟨n, hn1, rfl⟩ := List.mem_map.1 (hperm.subset (hsub.subset hr))
    have := List.mem_range.1 hn1
    simp only [Int.ofNat_eq_coe]
    omega
  obtain ⟨out, ho, hnr, _⟩ := SubsetRows.ints_ok d R hwf hRne hlt
  have hcard := uniqueRowsMap.keys_card _ _ m hinv
  have hle : ((Finset.range d.NRows.toNat).image (uniqueRowsMap.fp cksum ord d)).card
      ≤ d.NRows.toNat := by
    have := Finset.card_image_le (s := Finset.range d.NRows.toNat)
      (f := uniqueRowsMap.fp cksum ord d)
    simpa using this
  refine ⟨R, out, hRrows, hrun.trans ho, hnr, ?_, ?_, ?_, ?_⟩
  · rw [hnr, hlen, hcard]
    omega
  · rw [hnr, hlen, hcard, ← hn]
    have hiff := Finset.card_image_iff (s := Finset.range d.NRows.toNat)
      (f := uniqueRowsMap.fp cksum ord d)
    simp only [Finset.card_range] at hiff
    constructor
    · intro h i j hi hj e
      have hinj := hiff.1 (by exact_mod_cast h)
      exact hinj (Finset.mem_coe.2 (Finset.mem_range.2 hi))
        (Finset.mem_coe.2 (Finset.mem_range.2 hj)) e
    · intro h
      have : ((Finset.range d.NRows.toNat).image (uniqueRowsMap.fp cksum ord d)).card
          = d.NRows.toNat := by
        apply hiff.2
        intro i hi j hj e
        exact h i j (Finset.mem_range.1 (Finset.mem_coe.1 hi))
          (Finset.mem_range.1 (Finset.mem_coe.1 hj)) e
      exact_mod_cast this
  · intro r
    rw [hmem]
    constructor
    · rintro ⟨sv, hsv, hh⟩
      rw [(hinv.2.2 sv hsv).1, List.head?_map] at hh
      cases hf : (List.filter (fun j => decide (uniqueRowsMap.fp cksum ord d j = sv.1))
          (List.range d.NRows.toNat)).head? with
      | none => rw [hf] at hh; simp at hh
      | some i =>
        rw [hf] at hh
        simp only [Option.map_some', Option.some.injEq] at hh
        obtain ⟨hi, hpi, hall⟩ := (head?_filter_sorted _ (List.sorted_lt_range _) _ i).1 hf
        have hpi2 : uniqueRowsMap.fp cksum ord d i = sv.1 := by simpa using hpi
        refine ⟨i, hh.symm, List.mem_range.1 hi, ?_⟩
        intro j hj e
        have := hall j (List.mem_range.2 (lt_trans hj (List.mem_range.1 hi))) hj
        simp only [decide_eq_false_iff_not] at this
        exact this (e.trans hpi2)
    · rintro ⟨i, rfl, hi, hall⟩
      obtain ⟨v, hv, _⟩ := uniqueRowsMap.group_of_row _ _ m hinv i (List.mem_range.2 hi)
      refine ⟨(_, v), hv, ?_⟩
      rw [(hinv.2.2 _ hv).1, List.head?_map]
      have := (head?_filter_sorted (List.range d.NRows.toNat) (List.sorted_lt_range _)
        (fun j => decide (uniqueRowsMap.fp cksum ord d j = uniqueRowsMap.fp cksum ord d i)) i).2
        ⟨List.mem_range.2 hi, by simp, fun j _ hj => by simpa using hall j hj⟩
      rw [this]
      rfl
  · have hnd : (uniqueRowsMap.allRows m).Nodup :=
      hperm.nodup_iff.2 ((List.nodup_range _).map (fun a b e => by simpa using e))
    exact hsub.nodup hnd

/-- Witness of C13 on the frame a = [1, 2, 1]: `RemoveDuplicated` selects the
rows 0 and 1. -/
theorem RemoveDuplicated_rows_witness :
    mixFrame.WF ∧ 0 < mixFrame.NRows ∧
    RemoveDuplicated.rows sampleChecksum listOrder mixFrame = .ok [0, 1] ∧
    (∃ R out, RemoveDuplicated.rows sampleChecksum listOrder mixFrame = .ok R ∧
      mixFrame.RemoveDuplicated sampleChecksum listOrder = .ok out ∧
      out.NRows = (R.length : Int) ∧ out.NRows ≤ mixFrame.NRows) :=
  ⟨by decide, by decide, by decide,
    (RemoveDuplicated_rows sampleChecksum listOrder mixFrame (by decide)
      (fun _ => List.Perm.refl _) (by decide)).elim
        fun R h => h.elim fun out h => ⟨R, out, h.1, h.2.1, h.2.2.1, h.2.2.2.1⟩⟩

/-- C13 as stated fails: on a frame without rows `RemoveDuplicated` returns
the empty-subset error, not a table. -/
theorem RemoveDuplicated_no_rows :
    zeroFrame.RemoveDuplicated sampleChecksum listOrder = .err "Empty subset" := by
  rfl

/-- C14 (the code departs from the claim): on the frame a = [1, 1], b = [2, 2]
the two rows have equal checksums in every column; when the columns are
visited in one order at row 0 and in the other order at row 1 the rows get
different fingerprints and both count as unique, while one order for both
rows puts them in one group. -/
theorem uniqueRowsMap_order_per_row :
    (uniqueRowsMap sampleChecksum flipOrder dupFrame).toOption.map
        (fun m => m.map fun sv => (sv.1, sv.2.unique, sv.2.appears))
      = some [("df.Int:1df.Int:2", true, [0]), ("df.Int:2df.Int:1", true, [1])] ∧
    (uniqueRowsMap sampleChecksum listOrder dupFrame).toOption.map
        (fun m => m.map fun sv => (sv.1, sv.2.unique, sv.2.appears))
      = some [("df.Int:1df.Int:2", false, [0, 1])] ∧
    (Unique.rows sampleChecksum flipOrder dupFrame).toOption = some [0, 1] ∧
    (Unique.rows sampleChecksum listOrder dupFrame).toOption = some [] := by
  refine ⟨by decide, by decide, by decide, by decide⟩

/-- C15 (the code departs from the claim): `Rbind(a, b)` with a holding the
column x and b holding x and y, x at position 0 in both, returns no error: the
result has the two rows of x, and y is dropped. -/
theorem Rbind_extra_column_accepted :
    (Rbind bindA bindB).result.isErr = false ∧
    intsOf (Rbind bindA bindB).result "x" = some [some 1, some 2] ∧
    (Rbind bindA bindB).result.toOption.map (fun d => (d.Columns.keys, d.NRows))
      = some (["x"], 2) := by
  refine ⟨rfl, rfl, rfl⟩

/-- C16: when a and b have the same column names at the same positions and
some column has different declared types in a and in b, `Rbind(a, b)` returns
the type-mismatch error, and a and b are after the call what they were
before. -/
theorem Rbind_type_mismatch (a b : DataFrame) (ha : a.colIndexs.WF)
    (hb : ∀ kv ∈ b.Columns, kv.2.WF)
    (hsame : ∀ k, a.colIndexs.get? k = b.colIndexs.get? k)
    (hmis : ∃ k ∈ a.colIndexs.keys, (a.col k).colType ≠ (b.col k).colType) :
    (Rbind a b).result = .err "Mismatching column types" ∧
    (Rbind a b).a = a ∧ (Rbind a b).b = b := by
  refine ⟨?_, rfl, rfl⟩
  have hloop := Rbind.loop_type_mismatch a b hb a.colIndexs []
    (fun kv hkv => by
      rw [← hsame kv.1]
      exact GoMap.get?_of_mem _ ha kv.1 kv.2 hkv)
    (by
      obtain ⟨k, hk, hne⟩ := hmis
      obtain ⟨kv, hkv, rfl⟩ := List.mem_map.1 hk
      exact ⟨kv, hkv, hne⟩)
  simp only [Rbind, hloop, Res.bind]

/-- Witness of C16: the column x is Int in the one frame and String in the
other. -/
theorem Rbind_type_mismatch_witness :
    bindA.colIndexs.WF ∧ (∀ kv ∈ bindS.Columns, kv.2.WF) ∧
    (∃ k ∈ bindA.colIndexs.keys, (bindA.col k).colType ≠ (bindS.col k).colType) ∧
    (Rbind bindA bindS).result = .err "Mismatching column types" ∧
    (Rbind bindA bindS).a = bindA ∧ (Rbind bindA bindS).b = bindS :=
  ⟨by decide, by decide, by decide,
    Rbind_type_mismatch bindA bindS (by decide) (by decide) (fun _ => rfl) (by decide)⟩

/-- C17 (the code departs from the claim): `Cbind(a, b)` with a holding x at
position 0 and b holding y at 0 and z at 1 gives z the position 3 when the
position map of b is visited from y, and gives y and z the same position 2
when it is visited from z; the claim asks for y at 1 and z at 2. -/
theorem Cbind_offset_grows :
    (Cbind bindA (bindYZ false)).result.toOption.map (fun d => d.colIndexs)
      = some [("x", 0), ("y", 1), ("z", 3)] ∧
    (Cbind bindA (bindYZ true)).result.toOption.map (fun d => d.colIndexs)
      = some [("x", 0), ("z", 2), ("y", 2)] := by
  refine ⟨rfl, rfl⟩

/-- C18, as the code has it: for a declared type outside the four, `Compare`
returns false for every condition that is or holds a comparison (`Eq`, `Gt`,
`Lt`, `Ngt`, `Nlt`, at any depth of `All` lists), and true for an `All` list
that holds none, the empty list among them. -/
theorem Compare_unknown_type (lib : Lib) (c : Condition) (v : Cell) (t : String)
    (ht : t ≠ "df.String" ∧ t ≠ "df.Int" ∧ t ≠ "df.Float" ∧ t ≠ "df.Bool") :
    (c.hasLeaf = true → c.Compare lib v t = .ok false) ∧
    (c.hasLeaf = false → c.Compare lib v t = .ok true) ∧
    (∀ s, (Condition.eq s).Compare lib v t = .ok false ∧
      (Condition.gt s).Compare lib v t = .ok false ∧
      (Condition.lt s).Compare lib v t = .ok false ∧
      (Condition.ngt s).Compare lib v t = .ok false ∧
      (Condition.nlt s).Compare lib v t = .ok false) := by
  have h := Condition.Compare_unknown lib v t ht
  refine ⟨?_, ?_, ?_⟩
  · intro hl
    rw [h c, hl]
    rfl
  · intro hl
    rw [h c, hl]
    rfl
  · intro s
    exact ⟨h _, h _, h _, h _, h _⟩

/-- Witness of C18: the type tag df.Date, a list holding a comparison inside a
nested list, and the Int cell 1. -/
theorem Compare_unknown_type_witness :
    (Condition.all [.all [], .all [.gt "3"]]).hasLeaf = true ∧
    (Condition.all [.all [], .all [.gt "3"]]).Compare Lib.sample (.int (some 1)) "df.Date"
      = .ok false :=
  ⟨by decide,
    (Compare_unknown_type Lib.sample (.all [.all [], .all [.gt "3"]]) (.int (some 1))
      "df.Date" (by decide)).1 (by decide)⟩

/-- C18 as stated fails: the empty `All` list, and a list of empty lists,
compare true on the type tag df.Date. -/
theorem Compare_unknown_type_empty_all :
    (Condition.all []).Compare Lib.sample (.int (some 1)) "df.Date" = .ok true ∧
    (Condition.all [.all [], .all []]).Compare Lib.sample (.int (some 1)) "df.Date"
      = .ok true := by
  decide

/-- C19 (the code departs from the claim): `SetNames` with the names x, y on
the frame with the columns age and name returns nil and stores the columns
under the keys x and y, but `Names()` still returns age and name. -/
theorem SetNames_keeps_colName :
    (ageFrame.SetNames ["x", "y"]).isError = false ∧
    (ageFrame.SetNames ["x", "y"]).after.map (fun d => (d.Columns.keys, d.Names))
      = some (["x", "y"], ["age", "name"]) := by
  refine ⟨rfl, rfl⟩

/-- C20 (the code departs from the claim): with a positional type list `Parse`
never returns an error, whatever `ParseColumn` does; when the coercion of the
column age, at position 0 of a list of one type, fails, `Parse` returns nil. -/
theorem Parse_list_swallows_error (ParseColumn : column → String → Res column)
    (d : DataFrame) (types : List String) :
    (d.Parse ParseColumn (.list types)).isError = false ∧
    (ageFrame.Parse (fun _ _ => .err "coercion failure") (.list ["int"])).isError = false ∧
    (ageFrame.Parse (fun _ _ => .err "coercion failure") (.T [("age", "int")])).isError
      = true := by
  refine ⟨Parse.list_never_error _ _ _ _, rfl, rfl⟩

/-- C21 (the code departs from the claim): `Parse` with the mapping a -> int,
b -> int on the String columns a = [1, 2], b = [x, y] fails on b and returns
its error, and the column a of the receiver is the Int column [1, 2] after the
call, not the String column it was before. -/
theorem Parse_T_partial_mutation :
    (strFrame.Parse sampleParseColumn (.T [("a", "int"), ("b", "int")])).isError = true ∧
    (strFrame.col "a").colType = "df.String" ∧
    (strFrame.Parse sampleParseColumn (.T [("a", "int"), ("b", "int")])).after.map
      (fun d => ((d.col "a").colType, (d.col "b").colType)) = some ("df.Int", "df.String") ∧
    intsOf (match (strFrame.Parse sampleParseColumn (.T [("a", "int"), ("b", "int")])).after with
      | some d => .ok d
      | none => .abort) "a" = some [some 1, some 2] := by
  refine ⟨by decide, by decide, by decide, by decide⟩

/-- C22: for a rectangular string matrix with a header row and at least one
data row, `LoadData` fails with the duplicate-names error when a non-empty
header name occurs twice; otherwise, once the search for placeholders may take
as many passes as the header has entries, it returns nil: the empty names are
replaced by names `V<n>`, all names are pairwise distinct, and the receiver is
the frame with `len(records) - 1` rows, one String column per header entry,
the j-th at position j, holding the strings of its column.  A matrix without a
data row is rejected and the receiver stays as it was. -/
theorem LoadData_loads (fuel : Nat) (d : DataFrame) (header : List String)
    (rows : List (List String)) (hrows : rows ≠ [])
    (hrect : ∀ r ∈ rows, r.length = header.length) :
    (¬ (header.filter fun s => decide (s ≠ "")).Nodup →
      ∃ v, v ≠ "" ∧ 2 ≤ header.count v ∧
        d.LoadData fuel (header :: rows)
          = some (.error ("Duplicated column names: " ++ v) d)) ∧
    ((header.filter fun s => decide (s ≠ "")).Nodup → header.length ≤ fuel →
      ∃ names out, d.LoadData fuel (header :: rows) = some (.nil out) ∧
        names.length = header.length ∧ names.Nodup ∧
        (∀ (j : Nat) (s : String), header[j]? = some s →
          (s ≠ "" → names[j]? = some s) ∧
          (s = "" → ∃ n : Nat, names[j]? = some ("V" ++ toString n))) ∧
        out.NRows = ((header :: rows).length : Int) - 1 ∧
        out.Columns.keys = names ∧ out.colIndexs.keys = names ∧
        (∀ (j : Nat) (nm : String), names[j]? = some nm →
          out.colIndexs.get? nm = some (j : Int) ∧
          ∃ col, out.Columns.get? nm = some col ∧ col.colType = "df.String" ∧
            col.cells.length = rows.length ∧
            ∀ (i : Nat) (r : List String), rows[i]? = some r →
              ∃ str, r[j]? = some str ∧ col.cells[i]? = some (.string (some str)))) ∧
    (∀ records : List (List String), records.length ≤ 1 →
      d.LoadData fuel records = some (.error "Empty dataframe" d)) := by
  have hn : ¬ (((header :: rows).length : Int) - 1 ≤ 0) := by
    have : 0 < rows.length := List.length_pos.2 hrows
    simp only [List.length_cons, Nat.cast_add, Nat.cast_one]
    omega
  refine ⟨?_, ?_, ?_⟩
  · intro hdup
    obtain ⟨v, hv, herr, hocc⟩ := LoadData.unique_dup header []
      (fun h => hdup h.1)
    refine ⟨v, hv, ?_, ?_⟩
    · rcases hocc with ⟨h1, _⟩ | h1
      · simp [GoMap.keys] at h1
      · exact h1
    · simp only [DataFrame.LoadData, hn, if_false, herr]
  · intro hnd hfuel
    obtain ⟨m, hm1, hm2⟩ := LoadData.unique_ok header [] hnd (fun _ _ _ => by simp [GoMap.keys])
    have hmk : m.keys = header.filter fun s => decide (s ≠ "") := by
      rw [hm2]
      simp [GoMap.keys]
    have hmlen : m.length = (header.filter fun s => decide (s ≠ "")).length := by
      rw [← hmk]
      simp [GoMap.keys]
    obtain ⟨names, hf1, hf2, hf3, _, hf5⟩ := LoadData.fill_ok fuel header m 0
      (by
        have := filter_nonempty_length header
        omega)
      hnd
      (fun s hs hne => by
        rw [hmk]
        exact List.mem_filter.2 ⟨hs, by simpa using hne⟩)
    obtain ⟨out, hb1, hb2, hb3, hb4, _, hb6⟩ := LoadData.build_ok rows names 0
      { nRows := ((header :: rows).length : Int) - 1, Columns := [], colIndexs := [] }
      hrows
      (fun r hr => by
        rw [hrect r hr, hf2]
        omega)
      hf3 (fun _ _ => by simp [GoMap.keys]) (fun _ _ => by simp [GoMap.keys])
    refine ⟨names, out, ?_, hf2, hf3, ?_, hb2, ?_, ?_, ?_⟩
    · simp only [DataFrame.LoadData, hn, if_false, hm1, hf1, hb1]
    · intro j s hj
      obtain ⟨a, b⟩ := hf5 j s hj
      exact ⟨a, b⟩
    · rw [hb3]
      simp [GoMap.keys]
    · rw [hb4]
      simp [GoMap.keys]
    · intro j nm hj
      obtain ⟨a, col, strs, h1, h2, h3, _, h5, _⟩ := hb6 j nm hj
      have hjlt : j < names.length := by
        by_contra hge
        rw [List.getElem?_eq_none (by omega)] at hj
        exact Option.noConfusion hj
      obtain ⟨strs2, c1, c2, c3⟩ := LoadData.column_ok (0 + j) rows (fun r hr => by
        rw [hrect r hr, ← hf2]
        omega)
      rw [c1] at h2
      cases h2
      refine ⟨by simpa using a, col, h1, h5, ?_, ?_⟩
      · rw [h3]
        simp [Strings, c2]
      · intro i r hi
        have hr : r ∈ rows := List.getElem?_mem hi
        have hjr : j < r.length := by
          rw [hrect r hr, ← hf2]
          exact hjlt
        refine ⟨r[j], List.getElem?_eq_getElem hjr, ?_⟩
        rw [h3]
        simp only [Strings, List.getElem?_map]
        rw [c3 i r hi]
        simp [List.getElem?_eq_getElem hjr]
  · intro records hlen
    have : ((records.length : Int) - 1 ≤ 0) := by omega
    simp only [DataFrame.LoadData, this, if_true]

/-- Witness of C22 on a header with two empty names and the name V0, and one
data row. -/
theorem LoadData_loads_witness :
    ([["1", "2", "3", "4"]] : List (List String)) ≠ [] ∧
    (["", "V0", "x", ""].filter fun s => decide (s ≠ "")).Nodup ∧
    ((zeroFrame.LoadData 4 [["", "V0", "x", ""], ["1", "2", "3", "4"]]).bind fun r =>
      r.after.map fun o => (o.Columns.keys, o.colIndexs, o.nRows))
      = some (["V1", "V0", "x", "V2"], [("V1", 0), ("V0", 1), ("x", 2), ("V2", 3)], 1) ∧
    (∃ names out, zeroFrame.LoadData 4 [["", "V0", "x", ""], ["1", "2", "3", "4"]]
        = some (.nil out) ∧
      names.length = 4 ∧ names.Nodup ∧ out.Columns.keys = names) :=
  ⟨by decide, by decide, by decide,
    ((LoadData_loads 4 zeroFrame ["", "V0", "x", ""] [["1", "2", "3", "4"]] (by decide)
      (by decide)).2.1 (by decide) (by decide)).elim
        fun names h => h.elim fun out h => ⟨names, out, h.1, h.2.1, h.2.2.1, h.2.2.2.2.2.1⟩⟩

/-- C23 (the code departs from the claim): `GetCell` with the row -1 on an
existing column stops with a run-time panic; a missing column and a row from
`NRows` on give an error, and a row inside gives the cell and the type. -/
theorem GetCell_negative_row_aborts :
    (ageFrame.GetCell "age" (-1)).isAbort = true ∧
    (ageFrame.GetCell "nope" 0).isErr = true ∧
    (ageFrame.GetCell "age" 3).isErr = true ∧
    (ageFrame.GetCell "age" 1).toOption.map (fun r => r.2) = some "df.Int" := by
  refine ⟨by decide, by decide, by decide, by decide⟩

/-- C24: for the declared type String with any literal and any cell, and for
the declared type Int with a literal that `Atoi` reads and a cell whose `Int()`
gives a value, the three comparisons return values of which exactly one is
true; `Ngt` returns `Lt || Eq` and is true exactly when `Gt` is false, `Nlt`
returns `Gt || Eq` and is true exactly when `Lt` is false. -/
theorem Ngt_Nlt_negate (lib : Lib) (c : String) (v : Cell) (t : String)
    (h : t = "df.String" ∨
      (t = "df.Int" ∧ (Atoi c).isSome = true ∧ (v.asInt lib).isSome = true)) :
    ∃ e g l : Bool,
      EqCondition.Compare lib c v t = .ok e ∧
      GtCondition.Compare lib c v t = .ok g ∧
      LtCondition.Compare lib c v t = .ok l ∧
      NgtCondition.Compare lib c v t = .ok (l || e) ∧
      NltCondition.Compare lib c v t = .ok (g || e) ∧
      (NgtCondition.Compare lib c v t = .ok true ↔ GtCondition.Compare lib c v t = .ok false) ∧
      (NltCondition.Compare lib c v t = .ok true ↔ LtCondition.Compare lib c v t = .ok false) ∧
      ((e = true ∧ g = false ∧ l = false) ∨ (e = false ∧ g = true ∧ l = false) ∨
        (e = false ∧ g = false ∧ l = true)) := by
  rcases h with ht | ⟨ht, hc, hv⟩
  · subst ht
    obtain ⟨he, hg, hl⟩ := Compare_string_values lib c v
    have key : ∀ z : Int,
        ((decide (z < 0) || decide (z = 0)) = !decide (z > 0)) ∧
        ((decide (z > 0) || decide (z = 0)) = !decide (z < 0)) ∧
        ((decide (z = 0) = true ∧ decide (z > 0) = false ∧ decide (z < 0) = false) ∨
          (decide (z = 0) = false ∧ decide (z > 0) = true ∧ decide (z < 0) = false) ∨
          (decide (z = 0) = false ∧ decide (z > 0) = false ∧ decide (z < 0) = true)) := by
      intro z
      rcases lt_trichotomy z 0 with hz | hz | hz
      · have a : ¬ z = 0 := by omega
        have b : ¬ z > 0 := by omega
        simp [hz, a, b]
      · simp [hz]
      · have a : ¬ z = 0 := by omega
        have b : ¬ z < 0 := by omega
        simp [hz, a, b]
    obtain ⟨k1, k2, k3⟩ := key (stringsCompare (v.render lib) c)
    obtain ⟨n1, n2, n3, n4⟩ := Compare_trichotomy lib c v "df.String" _ _ _ he hg hl k1 k2
    exact ⟨_, _, _, he, hg, hl, n1, n2, n3, n4, k3⟩
  · subst ht
    obtain ⟨i, hi⟩ := Option.isSome_iff_exists.1 hc
    obtain ⟨x, hx⟩ := Option.isSome_iff_exists.1 hv
    obtain ⟨he, hg, hl⟩ := Compare_int_values lib c v i x hi hx
    have key : ((decide (i < x) || decide (i = x)) = !decide (i > x)) ∧
        ((decide (i > x) || decide (i = x)) = !decide (i < x)) ∧
        ((decide (i = x) = true ∧ decide (i > x) = false ∧ decide (i < x) = false) ∨
          (decide (i = x) = false ∧ decide (i > x) = true ∧ decide (i < x) = false) ∨
          (decide (i = x) = false ∧ decide (i > x) = false ∧ decide (i < x) = true)) := by
      rcases lt_trichotomy i x with hz | hz | hz
      · have a : ¬ i = x := by omega
        have b : ¬ i > x := by omega
        simp [hz, a, b]
      · simp [hz]
      · have a : ¬ i = x := by omega
        have b : ¬ i < x := by omega
        simp [hz, a, b]
    obtain ⟨k1, k2, k3⟩ := key
    obtain ⟨n1, n2, n3, n4⟩ := Compare_trichotomy lib c v "df.Int" _ _ _ he hg hl k1 k2
    exact ⟨_, _, _, he, hg, hl, n1, n2, n3, n4, k3⟩

/-- Witness of C24: the declared type Int, the literal 15 and the cell 20, and
the declared type String, the literal b and the cell a. -/
theorem Ngt_Nlt_negate_witness :
    (Atoi "15").isSome = true ∧
    ((Cell.int (some 20)).asInt Lib.sample).isSome = true ∧
    NgtCondition.Compare Lib.sample "15" (.int (some 20)) "df.Int" = .ok true ∧
    NltCondition.Compare Lib.sample "b" (.string (some "a")) "df.String" = .ok false ∧
    (∃ e g l : Bool,
      EqCondition.Compare Lib.sample "15" (.int (some 20)) "df.Int" = .ok e ∧
      GtCondition.Compare Lib.sample "15" (.int (some 20)) "df.Int" = .ok g ∧
      LtCondition.Compare Lib.sample "15" (.int (some 20)) "df.Int" = .ok l ∧
      NgtCondition.Compare Lib.sample "15" (.int (some 20)) "df.Int" = .ok (l || e) ∧
      NltCondition.Compare Lib.sample "15" (.int (some 20)) "df.Int" = .ok (g || e)) :=
  ⟨by decide, by decide, by decide, by decide,
    (Ngt_Nlt_negate Lib.sample "15" (.int (some 20)) "df.Int"
      (Or.inr ⟨rfl, by decide, by decide⟩)).elim
        fun e h => h.elim fun g h => h.elim fun l h => ⟨e, g, l, h.1, h.2.1, h.2.2.1,
          h.2.2.2.1, h.2.2.2.2.1⟩⟩

/-- C25: on a well-formed frame `uniqueRowsMap` returns a grouping in which
every row index of `0..NRows-1` is listed by exactly one group, two rows are
listed by the same group exactly when their fingerprints are equal, every list
is non-empty and strictly ascending, and a group is flagged unique exactly
when its list has length 1; `Duplicated` selects, once each, the first and
smallest index of every group that lists two rows or more. -/
theorem uniqueRowsMap_grouping (cksum : Cell → String)
    (ord : Nat → GoMap column → GoMap column) (d : DataFrame) (hwf : d.WF)
    (hord : ∀ i, (ord i d.Columns).Perm d.Columns) :
    ∃ m D, uniqueRowsMap cksum ord d = .ok m ∧ Duplicated.rows cksum ord d = .ok D ∧
      (∀ i, i < d.NRows.toNat →
        ∃ sv ∈ m, (i : Int) ∈ sv.2.appears ∧
          ∀ sw ∈ m, (i : Int) ∈ sw.2.appears → sw = sv) ∧
      (∀ i j, i < d.NRows.toNat → j < d.NRows.toNat →
        ((∃ sv ∈ m, (i : Int) ∈ sv.2.appears ∧ (j : Int) ∈ sv.2.appears) ↔
          uniqueRowsMap.fp cksum ord d i = uniqueRowsMap.fp cksum ord d j)) ∧
      (∀ sv ∈ m, sv.2.appears ≠ [] ∧ sv.2.appears.Sorted (· < ·) ∧
        (sv.2.unique = true ↔ sv.2.appears.length = 1) ∧
        ∀ r ∈ sv.2.appears, ∃ i : Nat, r = (i : Int) ∧ i < d.NRows.toNat) ∧
      (∀ r, r ∈ D ↔ ∃ sv ∈ m, 2 ≤ sv.2.appears.length ∧ sv.2.appears.head? = some r ∧
        ∀ x ∈ sv.2.appears, r ≤ x) ∧
      D.Nodup ∧
      D.length = (m.filter fun sv => decide (2 ≤ sv.2.appears.length)).length := by
  obtain ⟨m, hm, hinv⟩ := uniqueRowsMap.groups cksum ord d hwf hord
  obtain ⟨D, hD, hlen, hmem, hsub⟩ := Duplicated.heads_ok m
    (fun sv hsv => (hinv.2.2 sv hsv).2.1)
  have hperm := uniqueRowsMap.allRows_perm _ m _ hinv
  have hDrows : Duplicated.rows cksum ord d = .ok D := by
    simp only [Duplicated.rows, hm, Res.bind, hD, List.nil_append]
  refine ⟨m, D, hm, hDrows, ?_, ?_, ?_, ?_, ?_, ?_⟩
  · intro i hi
    obtain ⟨v, hv, hr⟩ := uniqueRowsMap.group_of_row _ _ m hinv i (List.mem_range.2 hi)
    refine ⟨(_, v), hv, hr, ?_⟩
    intro sw hsw hrw
    obtain ⟨_, hfp⟩ := uniqueRowsMap.row_in_group _ _ m hinv sw hsw i hrw
    obtain ⟨s, w⟩ := sw
    simp only at hfp
    subst hfp
    rw [uniqueRowsMap.mem_WF_unique m hinv.1 _ w v hsw hv]
  · intro i j hi hj
    constructor
    · rintro ⟨sv, hsv, h1, h2⟩
      rw [(uniqueRowsMap.row_in_group _ _ m hinv sv hsv i h1).2,
        (uniqueRowsMap.row_in_group _ _ m hinv sv hsv j h2).2]
    · intro e
      obtain ⟨v, hv, hr⟩ := uniqueRowsMap.group_of_row _ _ m hinv i (List.mem_range.2 hi)
      obtain ⟨w, hw, hrw⟩ := uniqueRowsMap.group_of_row _ _ m hinv j (List.mem_range.2 hj)
      rw [← e] at hw
      rw [uniqueRowsMap.mem_WF_unique m hinv.1 _ w v hw hv] at hrw
      exact ⟨(_, v), hv, hr, hrw⟩
  · intro sv hsv
    obtain ⟨h1, h2, h3, _, h5, _⟩ := uniqueRowsMap.group_shape _ _ m hinv sv hsv
    refine ⟨h1, h2, h3, ?_⟩
    intro r hr
    obtain ⟨i, e, hi, _⟩ := h5 r hr
    exact ⟨i, e, hi⟩
  · intro r
    rw [hmem]
    constructor
    · rintro ⟨sv, hsv, hu, hh⟩
      obtain ⟨_, _, _, h4, _, h6⟩ := uniqueRowsMap.group_shape _ _ m hinv sv hsv
      exact ⟨sv, hsv, h4.1 hu, hh, h6 r hh⟩
    · rintro ⟨sv, hsv, h2, hh, _⟩
      obtain ⟨_, _, _, h4, _, _⟩ := uniqueRowsMap.group_shape _ _ m hinv sv hsv
      exact ⟨sv, hsv, h4.2 h2, hh⟩
  · have hnd : (uniqueRowsMap.allRows m).Nodup :=
      hperm.nodup_iff.2 ((List.nodup_range _).map (fun a b e => by simpa using e))
    exact hsub.nodup hnd
  · rw [hlen]
    congr 1
    apply List.filter_congr
    intro sv hsv
    obtain ⟨_, _, _, h4, _, _⟩ := uniqueRowsMap.group_shape _ _ m hinv sv hsv
    cases hu : sv.2.unique with
    | false => simp [h4.1 hu]
    | true =>
      have : ¬ 2 ≤ sv.2.appears.length := fun h2 => by
        have := h4.2 h2
        rw [hu] at this
        exact Bool.noConfusion this
      simp [this]

/-- Witness of C25 on the frame a = [1, 2, 1]: two groups, and `Duplicated`
selects row 0. -/
theorem uniqueRowsMap_grouping_witness :
    mixFrame.WF ∧
    (uniqueRowsMap sampleChecksum listOrder mixFrame).toOption.map
        (fun m => m.map fun sv => (sv.2.unique, sv.2.appears))
      = some [(false, [0, 2]), (true, [1])] ∧
    Duplicated.rows sampleChecksum listOrder mixFrame = .ok [0] ∧
    (∃ m D, uniqueRowsMap sampleChecksum listOrder mixFrame = .ok m ∧
      Duplicated.rows sampleChecksum listOrder mixFrame = .ok D ∧ D.Nodup) :=
  ⟨by decide, by decide, by decide,
    (uniqueRowsMap_grouping sampleChecksum listOrder mixFrame (by decide)
      (fun _ => List.Perm.refl _)).elim
        fun m h => h.elim fun D h => ⟨m, D, h.1, h.2.1, h.2.2.2.2.2.2.1⟩⟩

/-- C26 (the code departs from the claim): `ConditionRows` with a condition on
a column that the frame does not have stops with a run-time panic at the first
row, for every library instance. -/
theorem ConditionRows_missing_column_aborts (lib : Lib) :
    ageFrame.Columns.get? "nope" = none ∧
    (ageFrame.ConditionRows lib [("nope", .eq "1")]).isAbort = true := by
  refine ⟨rfl, rfl⟩

/-- C27 (the code departs from the claim): `DropColumn(age)` on the frame with
the columns age and name returns the frame that holds age alone, and
`DropColumn` with a name the frame does not have returns the empty-subset
error. -/
theorem DropColumn_keeps_dropped :
    (ageFrame.DropColumn "age").toOption.map (fun d => d.Columns.keys) = some ["age"] ∧
    ageFrame.DropColumn "nope" = .err "Empty subset" := by
  refine ⟨by decide, rfl⟩

/-- C28 (the code departs from the claim): `New` gives the columns a, b the
positions 1 and 2, `LoadData` gives the same two names the positions 0 and 1;
`SubsetColumns` by the range `[0, 1)` selects a from the loaded frame and is an
empty subset on the frame `New` built. -/
theorem New_positions_one_based :
    (New [⟨"a", Strings ["x"]⟩, ⟨"b", Strings ["y"]⟩]).toOption.map (fun d => d.colIndexs)
      = some [("a", 1), ("b", 2)] ∧
    ((zeroFrame.LoadData 1 [["a", "b"], ["x", "y"]]).bind fun r =>
      r.after.map fun d => d.colIndexs) = some [("a", 0), ("b", 1)] ∧
    ((zeroFrame.LoadData 1 [["a", "b"], ["x", "y"]]).bind fun r =>
      r.after.bind fun d => (d.SubsetColumns (.range ⟨0, 1⟩)).toOption.map
        fun o => o.Columns.keys) = some ["a"] ∧
    ((New [⟨"a", Strings ["x"]⟩, ⟨"b", Strings ["y"]⟩]).bind fun d =>
      d.SubsetColumns (.range ⟨0, 1⟩)) = .err "Empty subset" := by
  refine ⟨by decide, by decide, by decide, rfl⟩

end df
